import Mathlib

/-!
# Ownership classification and the merge/prune pipeline of the ingress controller

A shallow embedding of `pkg/appgw/brownfield.go`, `pkg/appgw/backendaddresspools.go`,
`pkg/brownfield/types.go`, `pkg/brownfield/http_settings.go` and `pkg/utils/utils.go`.

Conventions of the embedding:

* A Go slice is a `List`; the nil slice and the empty slice are both `[]`.
* A Go `map[string]V` is an association list with at most one entry per key (`GoMap`).
  `mapSet` is the assignment `m[k] = v`, `mapGet` the lookup `v, ok := m[k]`.  Go leaves the
  iteration order of a map unspecified; `range` over a map is modelled as iteration in the
  order in which the keys were first written.  The statement about the result of `mergePools`
  holds for every permutation of the modelled order, and the collection stored by
  `BackendAddressPools` is sorted by name, names being unique, so it is the same list for
  every order in which the merged table is iterated (`goSort_eq_of_perm`).
* A nullable pointer that the code tests against nil, or that the mapper dereferences, is an
  `Option`; a nil dereference (a panic) is the result `none` of an `Option`-valued function.
  `Name` of a pool is dereferenced unconditionally by every function that receives a pool; it
  is carried as present.  `Host` and `Path` of a probe are nullable: `inProbeList` dereferences
  them, and panics on a probe that lacks the one it reads.
* `int32` is `Int`; no arithmetic is performed on ports, they are only compared.
-/

namespace appgw

/-! ## Go maps -/

/-- A Go `map[string]V`. -/
abbrev GoMap (V : Type) := List (String × V)

/-- The lookup `v, ok := m[k]`. -/
def mapGet {V : Type} : GoMap V → String → Option V
  | [], _ => none
  | (k1, v) :: rest, k => if k1 = k then some v else mapGet rest k

/-- The assignment `m[k] = v`. -/
def mapSet {V : Type} : GoMap V → String → V → GoMap V
  | [], k, v => [(k, v)]
  | (k1, v1) :: rest, k, v => if k1 = k then (k, v) :: rest else (k1, v1) :: mapSet rest k v

/-- The values met by `for _, v := range m`. -/
def mapValues {V : Type} (m : GoMap V) : List V := m.map Prod.snd

/-- The keys of a map. -/
def mapKeys {V : Type} (m : GoMap V) : List String := m.map Prod.fst

/-! ## Strings (`strings.TrimRight`, `strings.Split`) -/

/-- The call `strings.TrimRight(s, cutset)`: drops the longest suffix of `s` made of characters
of `cutset`. -/
def TrimRight (s cutset : String) : String :=
  ⟨s.data.rdropWhile (fun ch => cutset.data.contains ch)⟩

/-- The call `strings.Split(s, "/")` on the characters of `s`; the result is never empty. -/
def splitSlash : List Char → List (List Char)
  | [] => [[]]
  | ch :: rest =>
    if ch = '/' then [] :: splitSlash rest
    else
      match splitSlash rest with
      | [] => [[ch]]
      | chunk :: chunks => (ch :: chunk) :: chunks

/-- Function `utils.GetLastChunkOfSlashed`: `split[len(split)-1]`; an index out of range is
`none`. -/
def GetLastChunkOfSlashed? (s : String) : Option String :=
  let split := splitSlash s.data
  (split.get? (split.length - 1)).map String.mk

/-- Function `utils.GetLastChunkOfSlashed` as a total function (the index is always in range,
as `splitSlash` never returns the empty list). -/
def GetLastChunkOfSlashed (s : String) : String :=
  (GetLastChunkOfSlashed? s).getD ""

/-! ## Data model -/

/-- Type `brownfield.Target`. -/
structure Target where
  Host : String
  Port : Int
  Path : Option String
deriving DecidableEq, Repr

/-- The zero value of `brownfield.Target`, returned by a lookup of a missing key. -/
def Target.zero : Target := ⟨"", 0, none⟩

/-- The spec of a declared managed or prohibited target (`AzureIngressProhibitedTargetSpec`,
`AzureIngressManagedTargetSpec`; both have the same fields). -/
structure AzureIngressTargetSpec where
  IP : String
  Hostname : String
  Port : Int
  Paths : List String
deriving DecidableEq, Repr

/-- Type `ptv1.AzureIngressProhibitedTarget`. -/
structure AzureIngressProhibitedTarget where
  Spec : AzureIngressTargetSpec
deriving DecidableEq, Repr

/-- Type `mtv1.AzureIngressManagedTarget`. -/
structure AzureIngressManagedTarget where
  Spec : AzureIngressTargetSpec
deriving DecidableEq, Repr

/-- Type `ConfigBuilderContext`: the read-only aggregate handed through the pipeline. -/
structure ConfigBuilderContext where
  IngressList : List String
  ServiceList : List String
  ManagedTargets : List AzureIngressManagedTarget
  ProhibitedTargets : List AzureIngressProhibitedTarget
deriving DecidableEq, Repr

/-- Type `n.ApplicationGatewayBackendAddress`. -/
structure ApplicationGatewayBackendAddress where
  Fqdn : Option String
  IPAddress : Option String
deriving DecidableEq, Repr

/-- Type `n.ApplicationGatewayBackendAddressPool`. -/
structure ApplicationGatewayBackendAddressPool where
  Name : String
  Etag : Option String
  ID : Option String
  BackendAddresses : Option (List ApplicationGatewayBackendAddress)
deriving DecidableEq, Repr

/-- Type `n.ApplicationGatewayProbe`.  `Host` and `Path` are read through the pointer to the
properties of the probe; each is `none` when that pointer or the field itself is nil. -/
structure ApplicationGatewayProbe where
  Name : Option String
  ID : Option String
  Protocol : String
  Host : Option String
  Path : Option String
  Interval : Option Int
  Timeout : Option Int
  UnhealthyThreshold : Option Int
deriving DecidableEq, Repr

/-- Type `n.SubResource`: a reference to another resource by identifier. -/
structure SubResource where
  ID : Option String
deriving DecidableEq, Repr

/-- Constant `n.HTTPS` of `n.ApplicationGatewayProtocol`. -/
def HTTPS : String := "Https"

/-- Constant `n.HTTP` of `n.ApplicationGatewayProtocol`. -/
def HTTP : String := "Http"

/-- Type `n.ApplicationGatewayHTTPListener`. -/
structure ApplicationGatewayHTTPListener where
  Name : Option String
  HostName : Option String
  Protocol : String
deriving DecidableEq, Repr

/-- Type `n.ApplicationGatewayPathRule`. -/
structure ApplicationGatewayPathRule where
  Name : Option String
  Paths : Option (List String)
  BackendAddressPool : Option SubResource
  BackendHTTPSettings : Option SubResource
deriving DecidableEq, Repr

/-- Type `n.ApplicationGatewayURLPathMap`. -/
structure ApplicationGatewayURLPathMap where
  Name : Option String
  PathRules : Option (List ApplicationGatewayPathRule)
deriving DecidableEq, Repr

/-- Type `n.ApplicationGatewayRequestRoutingRule`. -/
structure ApplicationGatewayRequestRoutingRule where
  Name : Option String
  HTTPListener : Option SubResource
  URLPathMap : Option SubResource
  BackendAddressPool : Option SubResource
  BackendHTTPSettings : Option SubResource
deriving DecidableEq, Repr

/-- Type `v1.EndpointAddress`. -/
structure EndpointAddress where
  IP : String
  Hostname : String
deriving DecidableEq, Repr

/-- Type `v1.EndpointPort`. -/
structure EndpointPort where
  Port : Int
  Protocol : String
deriving DecidableEq, Repr

/-- Constant `v1.ProtocolTCP`. -/
def ProtocolTCP : String := "TCP"

/-- Type `v1.EndpointSubset`. -/
structure EndpointSubset where
  Addresses : List EndpointAddress
  Ports : List EndpointPort
deriving DecidableEq, Repr

/-- Type `v1.Endpoints`. -/
structure Endpoints where
  Subsets : List EndpointSubset
deriving DecidableEq, Repr

/-- Type `backendIdentifier`, seen through the accessors the pool synthesizer calls on it:
`serviceKey()`, `serviceFullName()`, `Backend.ServicePort.String()` and the field `Ingress`. -/
structure backendIdentifier where
  serviceKey : String
  serviceFullName : String
  ServicePort : String
  Ingress : String
deriving DecidableEq, Repr

/-- Type `serviceBackendPortPair`. -/
structure serviceBackendPortPair where
  ServicePort : Int
  BackendPort : Int
deriving DecidableEq, Repr

/-- The reasons of package `events` used by the pool synthesizer. -/
inductive EventReason where
  | ReasonEndpointsEmpty
  | ReasonBackendPortTargetMatch
deriving DecidableEq, Repr

/-- One call of `c.recorder.Event(object, eventtype, reason, message)`. -/
structure Event where
  Object : String
  EventType : String
  Reason : EventReason
  Message : String
deriving DecidableEq, Repr

/-- Constant `v1.EventTypeWarning`. -/
def EventTypeWarning : String := "Warning"

/-- The part of `c.appGwConfig` (`n.ApplicationGatewayPropertiesFormat`) the pipeline reads and
writes. -/
structure ApplicationGatewayPropertiesFormat where
  BackendAddressPools : Option (List ApplicationGatewayBackendAddressPool)
  Probes : Option (List ApplicationGatewayProbe)
deriving DecidableEq, Repr

/-- Type `appGwConfigBuilder`.  The first six fields are the functions of the repository whose
code is not among the sources and which the pipeline calls; they are parameters of the
embedding.  `getListeners` gives the values of the listener map returned by `c.getListeners`,
`getBackendsAndSettingsMap` the entries of the third map returned by
`c.getBackendsAndSettingsMap`, both in iteration order.  `appGwConfig` and `recorder` are the
mutable state: the configuration under construction and the events recorded so far. -/
structure appGwConfigBuilder where
  defaultBackendAddressPool : ApplicationGatewayBackendAddressPool
  generateAddressPoolName : String → String → Int → String
  getBackendsAndSettingsMap : ConfigBuilderContext → List (backendIdentifier × serviceBackendPortPair)
  getListeners : ConfigBuilderContext → List ApplicationGatewayHTTPListener
  getRules : ConfigBuilderContext →
    List ApplicationGatewayRequestRoutingRule × List ApplicationGatewayURLPathMap
  GetEndpointsByService : String → Except String Endpoints
  appGwConfig : ApplicationGatewayPropertiesFormat
  recorder : List Event

/-! ## Target lists (`getProhibitedTargetList`, `getManagedTargetList`) -/

/-- The body of the loop of `getProhibitedTargetList` and of `getManagedTargetList` for one
declared spec: a Target with absent Path when the spec has no paths, then one Target per
path. -/
def appendSpecTargets (tl : List Target) (spec : AzureIngressTargetSpec) : List Target :=
  let tl1 := if spec.Paths.length < 1 then tl ++ [⟨spec.Hostname, spec.Port, none⟩] else tl
  spec.Paths.foldl (fun acc path => acc ++ [⟨spec.Hostname, spec.Port, some path⟩]) tl1

/-- Function `getProhibitedTargetList`. -/
def getProhibitedTargetList (cbCtx : ConfigBuilderContext) : List Target :=
  cbCtx.ProhibitedTargets.foldl (fun tl pt => appendSpecTargets tl pt.Spec) []

/-- Function `getManagedTargetList`. -/
def getManagedTargetList (cbCtx : ConfigBuilderContext) : List Target :=
  cbCtx.ManagedTargets.foldl (fun tl mt => appendSpecTargets tl mt.Spec) []

/-! ## Matching (`isTargetInList`, `inProbeList`, `normalizePath`) -/

/-- Function `isTargetInList`; `reflect.DeepEqual` on two Targets is field-wise equality, a nil
Path being equal to a nil Path only. -/
def isTargetInList (tgt : Target) : List Target → Bool
  | [] => false
  | t :: rest => if tgt = t then true else isTargetInList tgt rest

/-- The measure that decreases along the loop of `normalizePath`. -/
def normalizePathMeasure (path trimmed prevTrimmed : String) : Nat :=
  if trimmed = prevTrimmed then 0 else if trimmed = TrimRight path "*/" then 1 else 2

/-- The loop of `normalizePath` from the state `(trimmed, prevTrimmed)`; `n` counts the
iterations already made.  Returns the final `trimmed` and the number of iterations. -/
def normalizePathLoop (path trimmed prevTrimmed : String) (n : Nat) : String × Nat :=
  if trimmed ≠ prevTrimmed then
    normalizePathLoop path (TrimRight path "*/") trimmed (n + 1)
  else (trimmed, n)
termination_by normalizePathMeasure path trimmed prevTrimmed
decreasing_by
  rename_i h
  unfold normalizePathMeasure
  by_cases h1 : trimmed = TrimRight path "*/"
  · have h2 : ¬ TrimRight path "*/" = prevTrimmed := fun e => h (h1.trans e)
    simp [h1, h2]
  · have h2 : ¬ TrimRight path "*/" = trimmed := fun e => h1 e.symm
    have h3 : ¬ trimmed = prevTrimmed := h
    simp [h1, h2, h3]

/-- Function `normalizePath`. -/
def normalizePath (path : String) : String :=
  (normalizePathLoop path "" path 0).1

/-- Function `inProbeList`; `none` when `*probe.Host` or `*probe.Path` dereferences nil.  The
host of the probe is read at every entry of the list, its path only at an entry with the same
host and a path. -/
def inProbeList (probe : ApplicationGatewayProbe) : List Target → Option Bool
  | [] => some false
  | t :: rest =>
    match probe.Host with
    | none => none
    | some probeHost =>
      if t.Host = probeHost then
        match t.Path with
        | none => some true
        | some tPath =>
          match probe.Path with
          | none => none
          | some probePath =>
            if normalizePath tPath = normalizePath probePath then some true
            else inProbeList probe rest
      else inProbeList probe rest

/-! ## Resource-to-Target mapper (`getPoolToTargetMapping`) -/

/-- The first loop of `getPoolToTargetMapping`: `listeners[*listener.Name] = listener`. -/
def indexListeners (listenerMap : List ApplicationGatewayHTTPListener) :
    Option (GoMap ApplicationGatewayHTTPListener) :=
  listenerMap.foldlM (fun listeners listener =>
    match listener.Name with
    | none => none
    | some name => some (mapSet listeners name listener)) []

/-- The loop `pathMap[*path.Name] = path` of `getPoolToTargetMapping`. -/
def indexPathMaps (paths : List ApplicationGatewayURLPathMap) :
    Option (GoMap ApplicationGatewayURLPathMap) :=
  paths.foldlM (fun pathMap path =>
    match path.Name with
    | none => none
    | some name => some (mapSet pathMap name path)) []

/-- The expression `*ref.ID` for a reference `ref` held through a pointer. -/
def derefID (ref : Option SubResource) : Option String :=
  match ref with
  | none => none
  | some r => r.ID

/-- The two inner loops of `getPoolToTargetMapping` for one path rule: every path of the rule
writes the Target of that path under the name of the rule's backend pool.  (`Path: &path`
takes the address of the loop variable, which after the loop holds the last path; the entry
written last under the key carries that same path, so the table read after the loops is the
one computed here by value.) -/
def mapPathRule (host : Option String) (port : Int) (poolToTarget : GoMap Target)
    (pathRule : ApplicationGatewayPathRule) : Option (GoMap Target) :=
  match pathRule.Paths with
  | none => none
  | some paths =>
    paths.foldlM (fun tbl path =>
      match host, derefID pathRule.BackendAddressPool with
      | some h, some poolID =>
        some (mapSet tbl (GetLastChunkOfSlashed poolID) ⟨h, port, some path⟩)
      | _, _ => none) poolToTarget

/-- The body of the loop over the routing rules in `getPoolToTargetMapping`. -/
def mapRule (listeners : GoMap ApplicationGatewayHTTPListener)
    (pathMap : GoMap ApplicationGatewayURLPathMap) (poolToTarget : GoMap Target)
    (rule : ApplicationGatewayRequestRoutingRule) : Option (GoMap Target) :=
  match derefID rule.HTTPListener with
  | none => none
  | some listenerID =>
    let listenerName := GetLastChunkOfSlashed listenerID
    match mapGet listeners listenerName with
    | none => none
    | some listener =>
      let port : Int := if listener.Protocol = HTTPS then 443 else 80
      match rule.URLPathMap with
      | none =>
        match listener.HostName, derefID rule.BackendAddressPool with
        | some h, some poolID =>
          some (mapSet poolToTarget (GetLastChunkOfSlashed poolID) ⟨h, port, none⟩)
        | _, _ => none
      | some pathMapRef =>
        match pathMapRef.ID with
        | none => none
        | some pathMapID =>
          let pathMapName := GetLastChunkOfSlashed pathMapID
          match (mapGet pathMap pathMapName).bind (fun pm => pm.PathRules) with
          | none => none
          | some pathRules =>
            pathRules.foldlM (mapPathRule listener.HostName port) poolToTarget

/-- Function `getPoolToTargetMapping`; `none` when a nil pointer is dereferenced. -/
def getPoolToTargetMapping (c : appGwConfigBuilder) (cbCtx : ConfigBuilderContext) :
    Option (GoMap Target) :=
  match indexListeners (c.getListeners cbCtx) with
  | none => none
  | some listeners =>
    match indexPathMaps (c.getRules cbCtx).2 with
    | none => none
    | some pathMap => (c.getRules cbCtx).1.foldlM (mapRule listeners pathMap) []

/-- The lookup `poolToTarget[name]`, which gives the zero Target for a missing key. -/
def targetOf (poolToTarget : GoMap Target) (name : String) : Target :=
  (mapGet poolToTarget name).getD Target.zero

/-! ## Ownership classifier (`getNewManagedPools`, `getManagedProbes`) -/

/-- Function `getNewManagedPools`; `none` when building the name-to-Target table panics. -/
def getNewManagedPools (c : appGwConfigBuilder)
    (pools : List ApplicationGatewayBackendAddressPool) (cbCtx : ConfigBuilderContext) :
    Option (List ApplicationGatewayBackendAddressPool) :=
  let blacklist := getProhibitedTargetList cbCtx
  let whitelist := getManagedTargetList cbCtx
  if blacklist.length = 0 ∧ whitelist.length = 0 then some pools
  else
    match getPoolToTargetMapping c cbCtx with
    | none => none
    | some poolToTarget =>
      if blacklist.length > 0 then
        some (pools.foldl (fun managedPools pool =>
          if isTargetInList (targetOf poolToTarget pool.Name) blacklist then managedPools
          else managedPools ++ [pool]) [])
      else
        let managedPools1 := pools.foldl (fun managedPools pool =>
          if isTargetInList (targetOf poolToTarget pool.Name) whitelist then managedPools ++ [pool]
          else managedPools) []
        some (pools.foldl (fun managedPools pool =>
          if isTargetInList (targetOf poolToTarget pool.Name) blacklist then managedPools ++ [pool]
          else managedPools) managedPools1)

/-- Function `getManagedProbes`; `none` when a call of `inProbeList` panics. -/
def getManagedProbes (probes : List ApplicationGatewayProbe) (cbCtx : ConfigBuilderContext) :
    Option (List ApplicationGatewayProbe) :=
  let blacklist := getProhibitedTargetList cbCtx
  let whitelist := getManagedTargetList cbCtx
  if blacklist.length = 0 ∧ whitelist.length = 0 then some probes
  else if blacklist.length > 0 then
    probes.foldlM (fun managedProbes probe =>
      (inProbeList probe blacklist).map (fun found =>
        if found then managedProbes else managedProbes ++ [probe])) []
  else
    (probes.foldlM (fun managedProbes probe =>
      (inProbeList probe whitelist).map (fun found =>
        if found then managedProbes ++ [probe] else managedProbes)) []).bind
      (fun managedProbes1 =>
        probes.foldlM (fun managedProbes probe =>
          (inProbeList probe blacklist).map (fun found =>
            if found then managedProbes ++ [probe] else managedProbes)) managedProbes1)

/-! ## Backend pool synthesizer -/

/-- Go's `sort.Sort` for a comparison `less`: an insertion sort that keeps `a` before `b`
unless `less b a`.  (`sort.Sort` is not stable; on inputs whose elements are pairwise ordered
by `less` every sort returns the same list.) -/
def goSort {α : Type} (less : α → α → Bool) (l : List α) : List α :=
  List.insertionSort (fun a b => less b a = false) l

/-- Modelled from the spec: `Less` of `sorter.ByIPFQDN`, whose code is not among the sources.
IP entries come before FQDN entries, each group in ascending order of its text. -/
def ByIPFQDNLess (a b : ApplicationGatewayBackendAddress) : Bool :=
  match a.IPAddress, b.IPAddress with
  | some x, some y => decide (x.data < y.data)
  | some _, none => true
  | none, some _ => false
  | none, none =>
    match a.Fqdn, b.Fqdn with
    | some x, some y => decide (x.data < y.data)
    | some _, none => true
    | none, some _ => false
    | none, none => false

/-- Modelled from the spec: `Less` of `sorter.ByBackendPoolName`, whose code is not among the
sources.  Pools are ordered by name; Go compares strings byte by byte, which on well-formed
text is the lexicographic order of the characters. -/
def ByBackendPoolNameLess (a b : ApplicationGatewayBackendAddressPool) : Bool :=
  decide (a.Name.data < b.Name.data)

/-- Insertion of a key into a Go map used as a set (`ips[address.IP] = nil`). -/
def setAdd (keys : List String) (k : String) : List String :=
  if k ∈ keys then keys else keys ++ [k]

/-- Function `getBackendAddressMapKeys`: the keys of the address set, sorted. -/
def getBackendAddressMapKeys (m : List ApplicationGatewayBackendAddress) :
    List ApplicationGatewayBackendAddress :=
  goSort ByIPFQDNLess m

/-- Function `getAddressesForSubset`.  The keys of `addrSet` hold fresh pointers, so every
insertion adds a key. -/
def getAddressesForSubset (subset : EndpointSubset) : List ApplicationGatewayBackendAddress :=
  let sets := subset.Addresses.foldl (fun (acc : List String × List String) address =>
    if address.IP.length ≠ 0 then (setAdd acc.1 address.IP, acc.2)
    else if address.Hostname.length ≠ 0 then (acc.1, setAdd acc.2 address.Hostname)
    else acc) ([], [])
  let addrSet1 := sets.1.foldl (fun (acc : List ApplicationGatewayBackendAddress) ip =>
    acc ++ [⟨none, some ip⟩]) []
  let addrSet := sets.2.foldl (fun (acc : List ApplicationGatewayBackendAddress) fqdn =>
    acc ++ [⟨some fqdn, none⟩]) addrSet1
  getBackendAddressMapKeys addrSet

/-- Function `newPool`. -/
def newPool (poolName : String) (subset : EndpointSubset) :
    ApplicationGatewayBackendAddressPool :=
  { Etag := some "*", Name := poolName, ID := none,
    BackendAddresses := some (getAddressesForSubset subset) }

/-- Function `getUniqueTCPPorts`: the keys of the returned map. -/
def getUniqueTCPPorts (subset : EndpointSubset) : List Int :=
  subset.Ports.foldl (fun ports endpointsPort =>
    if endpointsPort.Protocol = ProtocolTCP then
      (if endpointsPort.Port ∈ ports then ports else ports ++ [endpointsPort.Port])
    else ports) []

/-- The loop over `endpoints.Subsets` in `getBackendAddressPool`; `recorded` collects the
events recorded so far. -/
def getBackendAddressPoolLoop (c : appGwConfigBuilder) (backendID : backendIdentifier)
    (serviceBackendPair : serviceBackendPortPair)
    (addressPools : GoMap ApplicationGatewayBackendAddressPool) :
    List EndpointSubset → List Event →
      Option ApplicationGatewayBackendAddressPool × List Event
  | [], recorded => (none, recorded)
  | subset :: rest, recorded =>
    if serviceBackendPair.BackendPort ∈ getUniqueTCPPorts subset then
      let poolName := c.generateAddressPoolName backendID.serviceFullName backendID.ServicePort
        serviceBackendPair.BackendPort
      match mapGet addressPools poolName with
      | some pool => (some pool, recorded)
      | none => (some (newPool poolName subset), recorded)
    else
      let logLine := "Backend target port " ++ toString serviceBackendPair.BackendPort ++
        " does not have matching endpoint port"
      getBackendAddressPoolLoop c backendID serviceBackendPair addressPools rest
        (recorded ++ [⟨backendID.Ingress, EventTypeWarning,
          EventReason.ReasonBackendPortTargetMatch, logLine⟩])

/-- Function `getBackendAddressPool`: the pool, or nil, and the events it records. -/
def getBackendAddressPool (c : appGwConfigBuilder) (backendID : backendIdentifier)
    (serviceBackendPair : serviceBackendPortPair)
    (addressPools : GoMap ApplicationGatewayBackendAddressPool) :
    Option ApplicationGatewayBackendAddressPool × List Event :=
  match c.GetEndpointsByService backendID.serviceKey with
  | Except.error _ =>
    let logLine := "Failed fetching endpoints for service: " ++ backendID.serviceKey
    (none, [⟨backendID.Ingress, EventTypeWarning, EventReason.ReasonEndpointsEmpty, logLine⟩])
  | Except.ok endpoints =>
    getBackendAddressPoolLoop c backendID serviceBackendPair addressPools endpoints.Subsets []

/-- Function `getBackendPoolMapValues`. -/
def getBackendPoolMapValues (m : GoMap ApplicationGatewayBackendAddressPool) :
    List ApplicationGatewayBackendAddressPool :=
  mapValues m

/-! ## Merge/prune pipeline -/

/-- Function `mergePools`. -/
def mergePools (probesBuckets : List (List ApplicationGatewayBackendAddressPool)) :
    List ApplicationGatewayBackendAddressPool :=
  let uniqProbes := probesBuckets.foldl (fun (m : GoMap ApplicationGatewayBackendAddressPool)
    bucket => bucket.foldl (fun m1 p => mapSet m1 p.Name p) m) []
  mapValues uniqProbes

/-- Function `pruneManagedPools`.  The test `managedPool == nil` is the test for the empty
list: the only non-nil empty result of `getNewManagedPools` is an empty `pools` handed back,
for which both branches return the empty list. -/
def pruneManagedPools (c : appGwConfigBuilder)
    (pools : List ApplicationGatewayBackendAddressPool) (kr : ConfigBuilderContext) :
    Option (List ApplicationGatewayBackendAddressPool) :=
  match getNewManagedPools c pools kr with
  | none => none
  | some managedPool =>
    if managedPool.isEmpty then some pools
    else
      let indexed := managedPool.foldl
        (fun (m : GoMap ApplicationGatewayBackendAddressPool) pool => mapSet m pool.Name pool) []
      some (pools.foldl (fun unmanagedPools probe =>
        if (mapGet indexed probe.Name).isSome then unmanagedPools
        else unmanagedPools ++ [probe]) [])

/-- The first loop of `BackendAddressPools`: the table of candidate pools, keyed by name, and
the events recorded while it is built. -/
def synthesizePools (c : appGwConfigBuilder) (cbCtx : ConfigBuilderContext) :
    GoMap ApplicationGatewayBackendAddressPool × List Event :=
  let defaultPool := c.defaultBackendAddressPool
  let addressPools : GoMap ApplicationGatewayBackendAddressPool :=
    [(defaultPool.Name, defaultPool)]
  (c.getBackendsAndSettingsMap cbCtx).foldl (fun acc entry =>
    match getBackendAddressPool c entry.1 entry.2 acc.1 with
    | (some pool, evs) => (mapSet acc.1 pool.Name pool, acc.2 ++ evs)
    | (none, evs) => (acc.1, acc.2 ++ evs)) (addressPools, c.recorder)

/-- Function `BackendAddressPools`: the builder after the call and the returned error (always
nil); `none` when the call panics. -/
def BackendAddressPools (c : appGwConfigBuilder) (cbCtx : ConfigBuilderContext) :
    Option (appGwConfigBuilder × Option String) :=
  let synthesized := synthesizePools c cbCtx
  let pools := getBackendPoolMapValues synthesized.1
  match getNewManagedPools c pools cbCtx with
  | none => none
  | some newManaged =>
    let existingPools : List ApplicationGatewayBackendAddressPool :=
      match c.appGwConfig.BackendAddressPools with
      | some stored => stored
      | none => []
    match pruneManagedPools c existingPools cbCtx with
    | none => none
    | some existingUnmanaged =>
      let mergedPools := mergePools [existingUnmanaged, newManaged]
      let sorted := goSort ByBackendPoolNameLess mergedPools
      some ({ c with
              appGwConfig := { c.appGwConfig with BackendAddressPools := some sorted },
              recorder := synthesized.2 }, none)

/-- The pool collection stored by a completed call of `BackendAddressPools`. -/
def storedPools (r : Option (appGwConfigBuilder × Option String)) :
    Option (List ApplicationGatewayBackendAddressPool) :=
  match r with
  | none => none
  | some (c1, _) => c1.appGwConfig.BackendAddressPools

/-! ## Concrete inputs

The contexts, probes and builders at which the theorems below are instantiated.  The host
name and the paths are those of `brownfield_test.go` and `health_probes_test.go`. -/

/-- A probe with the given host and path, as built by `tests.GetApplicationGatewayProbe`. -/
def probeFixture (host path : String) : ApplicationGatewayProbe :=
  { Name := some "probe-name", ID := some "abcd", Protocol := HTTPS, Host := some host,
    Path := some path, Interval := none, Timeout := none, UnhealthyThreshold := none }

/-- A probe without a host of its own, as a probe that takes the host name from the backend
HTTP settings. -/
def probeNoHostFixture : ApplicationGatewayProbe :=
  { Name := some "manual-probe", ID := some "efgh", Protocol := HTTPS, Host := none,
    Path := some "/", Interval := none, Timeout := none, UnhealthyThreshold := none }

/-- The prohibited target of `brownfield_test.go`: paths `/fox` and `/bar` of one host. -/
def prohibitedTarget1 : AzureIngressProhibitedTarget :=
  ⟨{ IP := "123", Hostname := "foo.baz", Port := 443, Paths := ["/fox", "/bar"] }⟩

/-- The managed target of `brownfield_test.go`: paths `/foo`, `/bar` and `/baz`. -/
def managedtarget1 : AzureIngressManagedTarget :=
  ⟨{ IP := "123", Hostname := "foo.baz", Port := 443, Paths := ["/foo", "/bar", "/baz"] }⟩

/-- The prohibited target of `health_probes_test.go`: a whole host, no paths. -/
def prohibitedHost : AzureIngressProhibitedTarget :=
  ⟨{ IP := "", Hostname := "www.prohibited.com", Port := 80, Paths := [] }⟩

/-- A context with no declared targets. -/
def ctxGreenfield : ConfigBuilderContext :=
  { IngressList := [], ServiceList := [], ManagedTargets := [], ProhibitedTargets := [] }

/-- The context of the test of `getManagedProbes`: one prohibited and one managed target. -/
def ctxBoth : ConfigBuilderContext :=
  { IngressList := [], ServiceList := [], ManagedTargets := [managedtarget1],
    ProhibitedTargets := [prohibitedTarget1] }

/-- A context with a managed target only. -/
def ctxManaged : ConfigBuilderContext :=
  { IngressList := [], ServiceList := [], ManagedTargets := [managedtarget1],
    ProhibitedTargets := [] }

/-- A context that prohibits a whole host and also declares a managed target. -/
def ctxProhibitedHost : ConfigBuilderContext :=
  { IngressList := [], ServiceList := [], ManagedTargets := [managedtarget1],
    ProhibitedTargets := [prohibitedHost] }

/-- The three probes of the test of `getManagedProbes`. -/
def probesFixture : List ApplicationGatewayProbe :=
  [probeFixture "foo.baz" "/fox", probeFixture "foo.baz" "/bar", probeFixture "foo.baz" "/baz"]

/-- A pool with the given name and no addresses. -/
def poolFixture (name : String) : ApplicationGatewayBackendAddressPool :=
  { Name := name, Etag := none, ID := none, BackendAddresses := none }

/-- A listener for the host `foo.baz` over HTTPS. -/
def listenerFixture : ApplicationGatewayHTTPListener :=
  { Name := some "fl-443", HostName := some "foo.baz", Protocol := HTTPS }

/-- A path map sending `/fox` to pool `pool-fox` and `/baz` to pool `pool-baz`. -/
def pathMapFixture : ApplicationGatewayURLPathMap :=
  { Name := some "url-443",
    PathRules := some [
      { Name := some "pr-fox", Paths := some ["/fox"],
        BackendAddressPool := some ⟨some "/pools/pool-fox"⟩, BackendHTTPSettings := none },
      { Name := some "pr-baz", Paths := some ["/baz"],
        BackendAddressPool := some ⟨some "/pools/pool-baz"⟩, BackendHTTPSettings := none }] }

/-- A routing rule of listener `fl-443` with path map `url-443`. -/
def ruleFixture : ApplicationGatewayRequestRoutingRule :=
  { Name := some "rr-443", HTTPListener := some ⟨some "/listeners/fl-443"⟩,
    URLPathMap := some ⟨some "/maps/url-443"⟩, BackendAddressPool := none,
    BackendHTTPSettings := none }

/-- A builder with no backends; its routing state is `ruleFixture`, whatever the context. -/
def builderFixture (existing : Option (List ApplicationGatewayBackendAddressPool)) :
    appGwConfigBuilder :=
  { defaultBackendAddressPool := poolFixture "defaultaddresspool",
    generateAddressPoolName := fun serviceName servicePort _ =>
      "pool-" ++ serviceName ++ "-" ++ servicePort,
    getBackendsAndSettingsMap := fun _ => [],
    getListeners := fun _ => [listenerFixture],
    getRules := fun _ => ([ruleFixture], [pathMapFixture]),
    GetEndpointsByService := fun _ => Except.error "not found",
    appGwConfig := { BackendAddressPools := existing, Probes := none },
    recorder := [] }

/-- The candidate pools used to exercise `getNewManagedPools`. -/
def poolsFixture : List ApplicationGatewayBackendAddressPool :=
  [poolFixture "pool-fox", poolFixture "manual-pool", poolFixture "pool-baz"]

/-! ## Auxiliary definitions for the statements about the pipeline -/

/-- Short name for the pool type. -/
abbrev Pool := ApplicationGatewayBackendAddressPool

/-- The table obtained by writing the pools of `l`, in order, into the table `m` under their
names: the loops `indexed[*pool.Name] = pool` and `uniqProbes[*p.Name] = p`. -/
def indexPools (l : List Pool) (m : GoMap Pool) : GoMap Pool :=
  l.foldl (fun m1 p => mapSet m1 p.Name p) m

/-- Every entry of the table is stored under the name of its pool, and no key occurs twice. -/
def WellKeyed (m : GoMap Pool) : Prop :=
  (mapKeys m).Nodup ∧ ∀ e ∈ m, e.2.Name = e.1

/-- The last pool of `l` whose name is `k`, if there is one. -/
def lastNamed : List Pool → String → Option Pool
  | [], _ => none
  | p :: rest, k =>
    match lastNamed rest k with
    | some q => some q
    | none => if p.Name = k then some p else none

/-- The decision of `getNewManagedPools` on a pool name, read off its three branches, for a
blacklist, a whitelist and a name-to-Target table. -/
def classifiedManaged (blacklist whitelist : List Target) (poolToTarget : GoMap Target)
    (name : String) : Bool :=
  if blacklist.length = 0 ∧ whitelist.length = 0 then true
  else if blacklist.length > 0 then !isTargetInList (targetOf poolToTarget name) blacklist
  else isTargetInList (targetOf poolToTarget name) whitelist

/-- The name-to-Target table as far as `getNewManagedPools` needs it: not built at all when
no targets are declared. -/
def classifierTable (c : appGwConfigBuilder) (cbCtx : ConfigBuilderContext) :
    Option (GoMap Target) :=
  if (getProhibitedTargetList cbCtx).length = 0 ∧ (getManagedTargetList cbCtx).length = 0 then
    some []
  else getPoolToTargetMapping c cbCtx

/-- The candidate pools of a pass: the local variable `pools` of `BackendAddressPools`. -/
def candidatePools (c : appGwConfigBuilder) (cbCtx : ConfigBuilderContext) : List Pool :=
  getBackendPoolMapValues (synthesizePools c cbCtx).1

/-- The pools previously applied: the local variable `existingPools` of
`BackendAddressPools`. -/
def existingPools (c : appGwConfigBuilder) : List Pool :=
  match c.appGwConfig.BackendAddressPools with
  | some stored => stored
  | none => []

/-! ## Resource-to-Target mapper for backend settings (`brownfield.GetSettingToTargetMapping`) -/

/-- The two inner loops of `GetSettingToTargetMapping` for one path rule: every path of the
rule writes the Target of that path under the name of the rule's backend settings.  As in
`mapPathRule`, the pointer `&path` is read after the loop and holds the last path, which is
also the path of the entry written last. -/
def mapPathRuleSetting (host : Option String) (port : Int) (settingToTarget : GoMap Target)
    (pathRule : ApplicationGatewayPathRule) : Option (GoMap Target) :=
  match pathRule.Paths with
  | none => none
  | some paths =>
    paths.foldlM (fun tbl path =>
      match host, derefID pathRule.BackendHTTPSettings with
      | some h, some settingID =>
        some (mapSet tbl (GetLastChunkOfSlashed settingID) ⟨h, port, some path⟩)
      | _, _ => none) settingToTarget

/-- The body of the loop over the routing rules in `GetSettingToTargetMapping`. -/
def mapRuleSetting (listeners : GoMap ApplicationGatewayHTTPListener)
    (pathMap : GoMap ApplicationGatewayURLPathMap) (settingToTarget : GoMap Target)
    (rule : ApplicationGatewayRequestRoutingRule) : Option (GoMap Target) :=
  match derefID rule.HTTPListener with
  | none => none
  | some listenerID =>
    let listenerName := GetLastChunkOfSlashed listenerID
    match mapGet listeners listenerName with
    | none => none
    | some listener =>
      let port : Int := if listener.Protocol = HTTPS then 443 else 80
      match rule.URLPathMap with
      | none =>
        match listener.HostName, derefID rule.BackendHTTPSettings with
        | some h, some settingID =>
          some (mapSet settingToTarget (GetLastChunkOfSlashed settingID) ⟨h, port, none⟩)
        | _, _ => none
      | some pathMapRef =>
        match pathMapRef.ID with
        | none => none
        | some pathMapID =>
          let pathMapName := GetLastChunkOfSlashed pathMapID
          match (mapGet pathMap pathMapName).bind (fun pm => pm.PathRules) with
          | none => none
          | some pathRules =>
            pathRules.foldlM (mapPathRuleSetting listener.HostName port) settingToTarget

/-- Function `brownfield.GetSettingToTargetMapping`; `none` when a nil pointer is
dereferenced.  `listeners` is a `ListenersByName`, `pathMap` a `URLPathMapByName`. -/
def GetSettingToTargetMapping (rr : List ApplicationGatewayRequestRoutingRule)
    (listeners : GoMap ApplicationGatewayHTTPListener)
    (pathMap : GoMap ApplicationGatewayURLPathMap) : Option (GoMap Target) :=
  rr.foldlM (mapRuleSetting listeners pathMap) []

/-! ## The mapper in the words of the spec

The spec (section 4.2) describes the mapper as a sequence of assignments "name maps to
Target", one per rule without a path map and one per (rule, path-rule, path) otherwise, of
which the last one for each name survives.  `specTargetWrites` is that sequence; the two
mappers of the code are compared with it below. -/

/-- The listener a routing rule resolves to, by the last chunk of its listener reference. -/
def ruleListener (listeners : GoMap ApplicationGatewayHTTPListener)
    (rule : ApplicationGatewayRequestRoutingRule) : Option ApplicationGatewayHTTPListener :=
  match derefID rule.HTTPListener with
  | none => none
  | some listenerID => mapGet listeners (GetLastChunkOfSlashed listenerID)

/-- The port of a listener: 443 for HTTPS, 80 otherwise. -/
def listenerPort (listener : ApplicationGatewayHTTPListener) : Int :=
  if listener.Protocol = HTTPS then 443 else 80

/-- The concatenation of the assignments of the elements of a list, in order; `none` when
the assignments of some element cannot be formed. -/
def collectWrites {α : Type} (f : α → Option (List (String × Target))) :
    List α → Option (List (String × Target))
  | [] => some []
  | x :: xs =>
    match f x, collectWrites f xs with
    | some ws, some rest => some (ws ++ rest)
    | _, _ => none

/-- The assignments of one path rule: for every literal path, the name of the rule's resource
(`pathRuleRef` selects the backend pool or the backend settings) maps to the Target of that
path. -/
def specPathRuleWrites (pathRuleRef : ApplicationGatewayPathRule → Option SubResource)
    (host : Option String) (port : Int) (pathRule : ApplicationGatewayPathRule) :
    Option (List (String × Target)) :=
  match pathRule.Paths with
  | none => none
  | some paths =>
    collectWrites (fun path =>
      match host, derefID (pathRuleRef pathRule) with
      | some h, some resourceID =>
        some [(GetLastChunkOfSlashed resourceID, (⟨h, port, some path⟩ : Target))]
      | _, _ => none) paths

/-- The assignments of one routing rule: without a path map, the name of the rule's resource
maps to the Target of the listener with absent path; with a path map, the assignments of its
path rules, in order. -/
def specRuleWrites (ruleRef : ApplicationGatewayRequestRoutingRule → Option SubResource)
    (pathRuleRef : ApplicationGatewayPathRule → Option SubResource)
    (listeners : GoMap ApplicationGatewayHTTPListener)
    (pathMap : GoMap ApplicationGatewayURLPathMap)
    (rule : ApplicationGatewayRequestRoutingRule) : Option (List (String × Target)) :=
  match ruleListener listeners rule with
  | none => none
  | some listener =>
    match rule.URLPathMap with
    | none =>
      match listener.HostName, derefID (ruleRef rule) with
      | some h, some resourceID =>
        some [(GetLastChunkOfSlashed resourceID, (⟨h, listenerPort listener, none⟩ : Target))]
      | _, _ => none
    | some pathMapRef =>
      match pathMapRef.ID with
      | none => none
      | some pathMapID =>
        match (mapGet pathMap (GetLastChunkOfSlashed pathMapID)).bind (fun pm => pm.PathRules) with
        | none => none
        | some pathRules =>
          collectWrites (specPathRuleWrites pathRuleRef listener.HostName (listenerPort listener))
            pathRules

/-- The assignments of a list of routing rules, in processing order. -/
def specTargetWrites (ruleRef : ApplicationGatewayRequestRoutingRule → Option SubResource)
    (pathRuleRef : ApplicationGatewayPathRule → Option SubResource)
    (listeners : GoMap ApplicationGatewayHTTPListener)
    (pathMap : GoMap ApplicationGatewayURLPathMap)
    (rr : List ApplicationGatewayRequestRoutingRule) : Option (List (String × Target)) :=
  collectWrites (specRuleWrites ruleRef pathRuleRef listeners pathMap) rr

/-- The table after the assignments `ws` are made, in order, to the table `tbl`. -/
def applyWrites (tbl : GoMap Target) (ws : List (String × Target)) : GoMap Target :=
  ws.foldl (fun m w => mapSet m w.1 w.2) tbl

/-- The Target assigned last to the name `k` in a sequence of assignments. -/
def lastWrite : List (String × Target) → String → Option Target
  | [], _ => none
  | w :: rest, k =>
    match lastWrite rest k with
    | some t => some t
    | none => if w.1 = k then some w.2 else none

/-- A routing rule that sends the whole host of listener `fl-443` to the settings
`setting-host`. -/
def ruleHostFixture : ApplicationGatewayRequestRoutingRule :=
  { Name := some "rr-host", HTTPListener := some ⟨some "/listeners/fl-443"⟩,
    URLPathMap := none, BackendAddressPool := some ⟨some "/pools/pool-host"⟩,
    BackendHTTPSettings := some ⟨some "/settings/setting-host"⟩ }

/-- A path map whose single path rule lists two paths for the settings `setting-ab`. -/
def pathMapTwoPathsFixture : ApplicationGatewayURLPathMap :=
  { Name := some "url-ab",
    PathRules := some [
      { Name := some "pr-ab", Paths := some ["/a", "/b"],
        BackendAddressPool := some ⟨some "/pools/pool-ab"⟩,
        BackendHTTPSettings := some ⟨some "/settings/setting-ab"⟩ }] }

/-- A routing rule of listener `fl-80` with the path map `url-ab`. -/
def rulePathsFixture : ApplicationGatewayRequestRoutingRule :=
  { Name := some "rr-ab", HTTPListener := some ⟨some "/listeners/fl-80"⟩,
    URLPathMap := some ⟨some "/maps/url-ab"⟩, BackendAddressPool := none,
    BackendHTTPSettings := none }

/-- The listeners by name used with the fixtures: `fl-443` over HTTPS, `fl-80` over HTTP. -/
def listenersFixture : GoMap ApplicationGatewayHTTPListener :=
  [("fl-443", listenerFixture),
   ("fl-80", { Name := some "fl-80", HostName := some "bar.baz", Protocol := HTTP })]

/-- The path maps by name used with the fixtures. -/
def pathMapsFixture : GoMap ApplicationGatewayURLPathMap :=
  [("url-ab", pathMapTwoPathsFixture)]

/-! ## Backend pools by backend (`newBackendPoolMap`) -/

/-- The assignment `m[k] = v` on a Go map whose keys are backend identifiers. -/
def backendMapSet {V : Type} : List (backendIdentifier × V) → backendIdentifier → V →
    List (backendIdentifier × V)
  | [], k, v => [(k, v)]
  | (k1, v1) :: rest, k, v =>
    if k1 = k then (k, v) :: rest else (k1, v1) :: backendMapSet rest k v

/-- The lookup `v, ok := m[k]` on a Go map whose keys are backend identifiers. -/
def backendMapGet {V : Type} : List (backendIdentifier × V) → backendIdentifier → Option V
  | [], _ => none
  | (k1, v) :: rest, k => if k1 = k then some v else backendMapGet rest k

/-- Function `newBackendPoolMap`: the map from backend identifier to pool, and the events
recorded while it is built.  The table `addressPools` handed to `getBackendAddressPool` holds
the default pool only: this function never writes to it. -/
def newBackendPoolMap (c : appGwConfigBuilder) (cbCtx : ConfigBuilderContext) :
    List (backendIdentifier × ApplicationGatewayBackendAddressPool) × List Event :=
  let defaultPool := c.defaultBackendAddressPool
  let addressPools : GoMap ApplicationGatewayBackendAddressPool :=
    [(defaultPool.Name, defaultPool)]
  (c.getBackendsAndSettingsMap cbCtx).foldl (fun acc entry =>
    let backendPoolMap := backendMapSet acc.1 entry.1 defaultPool
    match getBackendAddressPool c entry.1 entry.2 addressPools with
    | (some pool, evs) => (backendMapSet backendPoolMap entry.1 pool, acc.2 ++ evs)
    | (none, evs) => (backendPoolMap, acc.2 ++ evs)) ([], c.recorder)

/-! ## Resource names (`utils.EncodeResourceName`) -/

/-- The bytes of a character in UTF-8: the conversion `[]byte(content)` of Go, character by
character. -/
def utf8Bytes (ch : Char) : List Nat :=
  let n := ch.toNat
  if n < 128 then [n]
  else if n < 2048 then [192 + n / 64, 128 + n % 64]
  else if n < 65536 then [224 + n / 4096, 128 + (n / 64) % 64, 128 + n % 64]
  else [240 + n / 262144, 128 + (n / 4096) % 64, 128 + (n / 64) % 64, 128 + n % 64]

/-- The alphabet of `base64.StdEncoding` (RFC 4648, section 4). -/
def base64Alphabet : List Char :=
  "ABCDEFGHIJKLMNOPQRSTUVWXYZabcdefghijklmnopqrstuvwxyz0123456789+/".data

/-- The character of a six-bit value in the standard alphabet. -/
def base64Char (n : Nat) : Char := base64Alphabet.getD (n % 64) 'A'

/-- The call `base64.StdEncoding.EncodeToString` of the Go library on a list of bytes: three
bytes give four characters, and a last group of one or two bytes is padded with `=`. -/
def base64Encode : List Nat → List Char
  | [] => []
  | [a] => [base64Char (a / 4), base64Char ((a % 4) * 16), '=', '=']
  | [a, b] =>
    [base64Char (a / 4), base64Char ((a % 4) * 16 + b / 16), base64Char ((b % 16) * 4), '=']
  | a :: b :: d :: rest =>
    base64Char (a / 4) :: base64Char ((a % 4) * 16 + b / 16)
      :: base64Char ((b % 16) * 4 + d / 64) :: base64Char (d % 64) :: base64Encode rest

/-- Function `utils.EncodeResourceName`. -/
def EncodeResourceName (content : String) : String :=
  TrimRight ⟨base64Encode (content.data.flatMap utf8Bytes)⟩ "="

/-- A word character of a regular expression: a letter, a digit or `_`. -/
def isWordChar (ch : Char) : Bool :=
  ch.isAlphanum || ch = '_'

/-- A character allowed in a resource name by the comment of `EncodeResourceName`: a word
character, `.`, `-` or `_`. -/
def isNameChar (ch : Char) : Bool :=
  isWordChar ch || ch = '.' || ch = '-'

/-- The requirements on a resource name quoted in the comment of `EncodeResourceName`: up to
80 characters long, begins with a word character, ends with a word character or `_`, and
contains only word characters, `.`, `-` and `_`. -/
def meetsNameRequirements (name : String) : Bool :=
  decide (name.data.length ≤ 80)
    && (match name.data.head? with
        | some ch => isWordChar ch
        | none => false)
    && (match name.data.getLast? with
        | some ch => isWordChar ch || ch = '_'
        | none => false)
    && name.data.all isNameChar

/-! ## Concrete inputs for the pool synthesizer -/

/-- A backend of service `ns/svc`, service port `80`, referenced by ingress `ns/ingress`. -/
def backendFixture : backendIdentifier :=
  { serviceKey := "ns/svc", serviceFullName := "ns-svc", ServicePort := "80",
    Ingress := "ns/ingress" }

/-- A second backend, of service `ns/other`. -/
def otherBackendFixture : backendIdentifier :=
  { serviceKey := "ns/other", serviceFullName := "ns-other", ServicePort := "80",
    Ingress := "ns/ingress" }

/-- A subset with one address that advertises one port with the given protocol. -/
def subsetFixture (ip : String) (port : Int) (protocol : String) : EndpointSubset :=
  { Addresses := [⟨ip, ""⟩], Ports := [⟨port, protocol⟩] }

/-- A builder whose service `ns/svc` has the given Endpoints subsets, whose every other
service has no Endpoints object, and whose backends are the given ones. -/
def synthBuilderFixture (subsets : List EndpointSubset)
    (backends : List (backendIdentifier × serviceBackendPortPair)) : appGwConfigBuilder :=
  { builderFixture none with
    getBackendsAndSettingsMap := fun _ => backends,
    GetEndpointsByService := fun key =>
      if key = "ns/svc" then Except.ok ⟨subsets⟩ else Except.error "not found" }

/-! ## Preconditions of the mappers -/

/-- The precondition on one routing rule under which the mappers dereference no missing
value: the rule's listener resolves in the listeners table to a listener with a hostname; a
rule without a path map has its own resource reference (`ruleRef`: backend pool or backend
settings) with an identifier; and the path map of a rule with one is referenced by
identifier, exists, has its list of path rules, and every path rule has its list of paths and
its resource reference (`pathRuleRef`) with an identifier. -/
def ruleResolves (ruleRef : ApplicationGatewayRequestRoutingRule → Option SubResource)
    (pathRuleRef : ApplicationGatewayPathRule → Option SubResource)
    (listeners : GoMap ApplicationGatewayHTTPListener)
    (pathMap : GoMap ApplicationGatewayURLPathMap)
    (rule : ApplicationGatewayRequestRoutingRule) : Bool :=
  match ruleListener listeners rule with
  | none => false
  | some listener =>
    listener.HostName.isSome &&
      (match rule.URLPathMap with
       | none => (derefID (ruleRef rule)).isSome
       | some pathMapRef =>
         match pathMapRef.ID with
         | none => false
         | some pathMapID =>
           match (mapGet pathMap (GetLastChunkOfSlashed pathMapID)).bind
              (fun pm => pm.PathRules) with
           | none => false
           | some pathRules =>
             pathRules.all (fun pathRule =>
               pathRule.Paths.isSome && (derefID (pathRuleRef pathRule)).isSome))

/-- A routing rule of listener `fl-443` without a path map and without backend references,
such as a rule that only redirects. -/
def ruleRedirectFixture : ApplicationGatewayRequestRoutingRule :=
  { Name := some "rr-redirect", HTTPListener := some ⟨some "/listeners/fl-443"⟩,
    URLPathMap := none, BackendAddressPool := none, BackendHTTPSettings := none }

end appgw

namespace appgw

/-! ## Loops that build a list -/

theorem foldl_skip_eq_filter {α : Type} (p : α → Bool) (l : List α) (init : List α) :
    l.foldl (fun acc x => if p x then acc else acc ++ [x]) init
      = init ++ l.filter (fun x => !p x) := by
  induction l generalizing init with
  | nil => simp
  | cons x xs ih =>
    simp only [List.foldl_cons, List.filter_cons]
    rw [ih]
    cases h : p x <;> simp

theorem foldl_keep_eq_filter {α : Type} (p : α → Bool) (l : List α) (init : List α) :
    l.foldl (fun acc x => if p x then acc ++ [x] else acc) init = init ++ l.filter p := by
  induction l generalizing init with
  | nil => simp
  | cons x xs ih =>
    simp only [List.foldl_cons, List.filter_cons]
    rw [ih]
    cases h : p x <;> simp

/-! ## `normalizePath` -/

theorem normalizePath_eq_TrimRight (p : String) : normalizePath p = TrimRight p "*/" := by
  unfold normalizePath
  rw [normalizePathLoop]
  by_cases h : "" = p
  · subst h; simp; decide
  · simp [h]
    rw [normalizePathLoop]
    by_cases h2 : TrimRight p "*/" = ""
    · simp [h2]
    · simp [h2]
      rw [normalizePathLoop]
      simp

/-! ## The matching functions as membership tests -/

theorem isTargetInList_eq_true (tgt : Target) (l : List Target) :
    isTargetInList tgt l = true ↔ tgt ∈ l := by
  induction l with
  | nil => simp [isTargetInList]
  | cons t rest ih =>
    unfold isTargetInList
    by_cases h : tgt = t
    · simp [h]
    · simp [h, ih]

theorem inProbeList_nil (probe : ApplicationGatewayProbe) :
    inProbeList probe [] = some false := by
  simp [inProbeList]

theorem inProbeList_isSome (probe : ApplicationGatewayProbe) (l : List Target)
    (hhost : probe.Host ≠ none) (hpath : probe.Path ≠ none) :
    (inProbeList probe l).isSome = true := by
  induction l with
  | nil => rfl
  | cons t rest ih =>
    unfold inProbeList
    cases hh : probe.Host with
    | none => exact absurd hh hhost
    | some probeHost =>
      cases hp : probe.Path with
      | none => exact absurd hp hpath
      | some probePath =>
        dsimp only
        by_cases h1 : t.Host = probeHost
        · rw [if_pos h1]
          cases t.Path with
          | none => rfl
          | some tPath =>
            dsimp only
            by_cases h2 : normalizePath tPath = normalizePath probePath
            · rw [if_pos h2]; rfl
            · rw [if_neg h2]; exact ih
        · rw [if_neg h1]; exact ih

theorem inProbeList_eq_true (probe : ApplicationGatewayProbe) (l : List Target)
    (probeHost probePath : String)
    (hhost : probe.Host = some probeHost) (hpath : probe.Path = some probePath) :
    inProbeList probe l = some true ↔
      ∃ t ∈ l, t.Host = probeHost ∧
        (t.Path = none ∨ ∃ tPath, t.Path = some tPath ∧
          normalizePath tPath = normalizePath probePath) := by
  induction l with
  | nil => simp [inProbeList]
  | cons t rest ih =>
    unfold inProbeList
    rw [hhost, hpath]
    dsimp only
    by_cases hh : t.Host = probeHost
    · rw [if_pos hh]
      cases hp : t.Path with
      | none => simp [hh, hp]
      | some tPath =>
        dsimp only
        by_cases hn : normalizePath tPath = normalizePath probePath
        · simp [hh, hp, hn]
        · simp [hh, hp, hn, ih]
    · rw [if_neg hh]
      simp [hh, ih]

theorem inProbeList_host_entry (probe : ApplicationGatewayProbe) (l : List Target)
    (h : String) (port : Int) (hmem : (⟨h, port, none⟩ : Target) ∈ l)
    (hhost : probe.Host = some h) : inProbeList probe l ≠ some false := by
  induction l with
  | nil => simp at hmem
  | cons t rest ih =>
    unfold inProbeList
    rw [hhost]
    dsimp only
    by_cases hh : t.Host = h
    · rw [if_pos hh]
      cases hp : t.Path with
      | none => simp
      | some tPath =>
        have hrest : (⟨h, port, none⟩ : Target) ∈ rest := by
          rcases List.mem_cons.1 hmem with e | e
          · rw [← e] at hp; cases hp
          · exact e
        dsimp only
        cases probe.Path with
        | none => simp
        | some probePath =>
          dsimp only
          by_cases hn : normalizePath tPath = normalizePath probePath
          · rw [if_pos hn]; simp
          · rw [if_neg hn]; exact ih hrest
    · rw [if_neg hh]
      have hrest : (⟨h, port, none⟩ : Target) ∈ rest := by
        rcases List.mem_cons.1 hmem with e | e
        · rw [← e] at hh; exact absurd rfl hh
        · exact e
      exact ih hrest

theorem inProbeList_other_host (probe : ApplicationGatewayProbe) (l : List Target)
    (probeHost : String) (hhost : probe.Host = some probeHost)
    (hno : ∀ t ∈ l, t.Host ≠ probeHost) : inProbeList probe l = some false := by
  induction l with
  | nil => rfl
  | cons t rest ih =>
    unfold inProbeList
    rw [hhost]
    dsimp only
    rw [if_neg (hno t (List.mem_cons_self _ _))]
    exact ih (fun t1 h1 => hno t1 (List.mem_cons_of_mem _ h1))

/-! ## Loops that stop at the first panic -/

theorem foldlM_skip_eq_some {α : Type} (f : α → Option Bool) (l : List α) (init : List α)
    (h : ∀ x ∈ l, (f x).isSome = true) :
    l.foldlM (fun acc x => (f x).map (fun found => if found then acc else acc ++ [x])) init
      = some (init ++ l.filter (fun x => decide (f x = some false))) := by
  induction l generalizing init with
  | nil => simp
  | cons x xs ih =>
    rw [List.foldlM_cons]
    obtain ⟨found, hf⟩ := Option.isSome_iff_exists.1 (h x (List.mem_cons_self _ _))
    rw [hf]
    simp only [Option.map_some', Option.bind_eq_bind, Option.some_bind]
    rw [ih _ (fun y hy => h y (List.mem_cons_of_mem _ hy)), List.filter_cons]
    cases found <;> simp [hf]

theorem foldlM_keep_eq_some {α : Type} (f : α → Option Bool) (l : List α) (init : List α)
    (h : ∀ x ∈ l, (f x).isSome = true) :
    l.foldlM (fun acc x => (f x).map (fun found => if found then acc ++ [x] else acc)) init
      = some (init ++ l.filter (fun x => decide (f x = some true))) := by
  induction l generalizing init with
  | nil => simp
  | cons x xs ih =>
    rw [List.foldlM_cons]
    obtain ⟨found, hf⟩ := Option.isSome_iff_exists.1 (h x (List.mem_cons_self _ _))
    rw [hf]
    simp only [Option.map_some', Option.bind_eq_bind, Option.some_bind]
    rw [ih _ (fun y hy => h y (List.mem_cons_of_mem _ hy)), List.filter_cons]
    cases found <;> simp [hf]

theorem foldlM_skip_returns {α : Type} (f : α → Option Bool) (l : List α) (init r : List α)
    (h : l.foldlM (fun acc x => (f x).map (fun found => if found then acc else acc ++ [x]))
      init = some r) : ∀ x ∈ l, (f x).isSome = true := by
  induction l generalizing init with
  | nil => simp
  | cons x xs ih =>
    rw [List.foldlM_cons] at h
    cases hf : f x with
    | none => rw [hf] at h; cases h
    | some found =>
      rw [hf] at h
      simp only [Option.map_some', Option.bind_eq_bind, Option.some_bind] at h
      intro y hy
      rcases List.mem_cons.1 hy with e | e
      · rw [e, hf]; rfl
      · exact ih _ h y e

theorem foldlM_keep_returns {α : Type} (f : α → Option Bool) (l : List α) (init r : List α)
    (h : l.foldlM (fun acc x => (f x).map (fun found => if found then acc ++ [x] else acc))
      init = some r) : ∀ x ∈ l, (f x).isSome = true := by
  induction l generalizing init with
  | nil => simp
  | cons x xs ih =>
    rw [List.foldlM_cons] at h
    cases hf : f x with
    | none => rw [hf] at h; cases h
    | some found =>
      rw [hf] at h
      simp only [Option.map_some', Option.bind_eq_bind, Option.some_bind] at h
      intro y hy
      rcases List.mem_cons.1 hy with e | e
      · rw [e, hf]; rfl
      · exact ih _ h y e

/-! ## The three branches of the classifier -/

theorem getManagedProbes_blacklist (probes : List ApplicationGatewayProbe)
    (cbCtx : ConfigBuilderContext) (hbl : getProhibitedTargetList cbCtx ≠ []) :
    getManagedProbes probes cbCtx
      = probes.foldlM (fun managedProbes probe =>
          (inProbeList probe (getProhibitedTargetList cbCtx)).map (fun found =>
            if found then managedProbes else managedProbes ++ [probe])) [] := by
  have hlen : 0 < (getProhibitedTargetList cbCtx).length := List.length_pos.mpr hbl
  unfold getManagedProbes
  simp only []
  rw [if_neg (by omega), if_pos hlen]

theorem getManagedProbes_blacklist_returns (probes : List ApplicationGatewayProbe)
    (cbCtx : ConfigBuilderContext) (hbl : getProhibitedTargetList cbCtx ≠ [])
    (hprobes : ∀ p ∈ probes, (inProbeList p (getProhibitedTargetList cbCtx)).isSome = true) :
    getManagedProbes probes cbCtx
      = some (probes.filter (fun p =>
          decide (inProbeList p (getProhibitedTargetList cbCtx) = some false))) := by
  rw [getManagedProbes_blacklist probes cbCtx hbl,
    foldlM_skip_eq_some (fun p => inProbeList p (getProhibitedTargetList cbCtx)) probes []
      hprobes]
  rfl

theorem getManagedProbes_blacklist_eq_some (probes managed : List ApplicationGatewayProbe)
    (cbCtx : ConfigBuilderContext) (hbl : getProhibitedTargetList cbCtx ≠ [])
    (h : getManagedProbes probes cbCtx = some managed) :
    managed = probes.filter (fun p =>
      decide (inProbeList p (getProhibitedTargetList cbCtx) = some false)) := by
  have hret : ∀ p ∈ probes, (inProbeList p (getProhibitedTargetList cbCtx)).isSome = true := by
    rw [getManagedProbes_blacklist probes cbCtx hbl] at h
    exact foldlM_skip_returns (fun p => inProbeList p (getProhibitedTargetList cbCtx))
      probes [] managed h
  rw [getManagedProbes_blacklist_returns probes cbCtx hbl hret] at h
  exact (Option.some.inj h).symm

theorem getNewManagedPools_blacklist (c : appGwConfigBuilder)
    (pools : List ApplicationGatewayBackendAddressPool)
    (cbCtx : ConfigBuilderContext) (hbl : getProhibitedTargetList cbCtx ≠ []) :
    getNewManagedPools c pools cbCtx
      = (getPoolToTargetMapping c cbCtx).map (fun poolToTarget =>
          pools.filter (fun p =>
            !isTargetInList (targetOf poolToTarget p.Name) (getProhibitedTargetList cbCtx))) := by
  have hlen : 0 < (getProhibitedTargetList cbCtx).length := List.length_pos.mpr hbl
  unfold getNewManagedPools
  simp only []
  rw [if_neg (by omega)]
  cases getPoolToTargetMapping c cbCtx with
  | none => rfl
  | some tbl =>
    simp only [Option.map_some']
    rw [if_pos hlen, foldl_skip_eq_filter]
    simp

theorem getManagedProbes_whitelist (probes : List ApplicationGatewayProbe)
    (cbCtx : ConfigBuilderContext) (hbl : getProhibitedTargetList cbCtx = [])
    (hwl : getManagedTargetList cbCtx ≠ []) :
    getManagedProbes probes cbCtx
      = probes.foldlM (fun managedProbes probe =>
          (inProbeList probe (getManagedTargetList cbCtx)).map (fun found =>
            if found then managedProbes ++ [probe] else managedProbes)) [] := by
  have hlen : 0 < (getManagedTargetList cbCtx).length := List.length_pos.mpr hwl
  unfold getManagedProbes
  simp only []
  rw [hbl, if_neg (by omega), if_neg (by simp)]
  cases probes.foldlM (fun managedProbes probe =>
      (inProbeList probe (getManagedTargetList cbCtx)).map (fun found =>
        if found then managedProbes ++ [probe] else managedProbes)) [] with
  | none => rfl
  | some managedProbes1 =>
    simp only [Option.some_bind]
    rw [foldlM_keep_eq_some (fun p => inProbeList p []) probes managedProbes1
      (fun _ _ => rfl)]
    simp [inProbeList_nil]

theorem getManagedProbes_whitelist_returns (probes : List ApplicationGatewayProbe)
    (cbCtx : ConfigBuilderContext) (hbl : getProhibitedTargetList cbCtx = [])
    (hwl : getManagedTargetList cbCtx ≠ [])
    (hprobes : ∀ p ∈ probes, (inProbeList p (getManagedTargetList cbCtx)).isSome = true) :
    getManagedProbes probes cbCtx
      = some (probes.filter (fun p =>
          decide (inProbeList p (getManagedTargetList cbCtx) = some true))) := by
  rw [getManagedProbes_whitelist probes cbCtx hbl hwl,
    foldlM_keep_eq_some (fun p => inProbeList p (getManagedTargetList cbCtx)) probes []
      hprobes]
  rfl

theorem getManagedProbes_whitelist_eq_some (probes managed : List ApplicationGatewayProbe)
    (cbCtx : ConfigBuilderContext) (hbl : getProhibitedTargetList cbCtx = [])
    (hwl : getManagedTargetList cbCtx ≠ [])
    (h : getManagedProbes probes cbCtx = some managed) :
    managed = probes.filter (fun p =>
      decide (inProbeList p (getManagedTargetList cbCtx) = some true)) := by
  have hret : ∀ p ∈ probes, (inProbeList p (getManagedTargetList cbCtx)).isSome = true := by
    rw [getManagedProbes_whitelist probes cbCtx hbl hwl] at h
    exact foldlM_keep_returns (fun p => inProbeList p (getManagedTargetList cbCtx))
      probes [] managed h
  rw [getManagedProbes_whitelist_returns probes cbCtx hbl hwl hret] at h
  exact (Option.some.inj h).symm

theorem getNewManagedPools_whitelist (c : appGwConfigBuilder)
    (pools : List ApplicationGatewayBackendAddressPool)
    (cbCtx : ConfigBuilderContext) (hbl : getProhibitedTargetList cbCtx = [])
    (hwl : getManagedTargetList cbCtx ≠ []) :
    getNewManagedPools c pools cbCtx
      = (getPoolToTargetMapping c cbCtx).map (fun poolToTarget =>
          pools.filter (fun p =>
            isTargetInList (targetOf poolToTarget p.Name) (getManagedTargetList cbCtx))) := by
  have hlen : 0 < (getManagedTargetList cbCtx).length := List.length_pos.mpr hwl
  unfold getNewManagedPools
  simp only []
  rw [hbl, if_neg (by omega)]
  cases getPoolToTargetMapping c cbCtx with
  | none => rfl
  | some tbl =>
    simp only [Option.map_some']
    rw [if_neg (by simp), foldl_keep_eq_filter, foldl_keep_eq_filter]
    simp [isTargetInList]

theorem getNewManagedPools_greenfield (c : appGwConfigBuilder)
    (pools : List ApplicationGatewayBackendAddressPool)
    (cbCtx : ConfigBuilderContext) (hbl : getProhibitedTargetList cbCtx = [])
    (hwl : getManagedTargetList cbCtx = []) :
    getNewManagedPools c pools cbCtx = some pools := by
  unfold getNewManagedPools
  simp [hbl, hwl]

theorem getManagedProbes_greenfield (probes : List ApplicationGatewayProbe)
    (cbCtx : ConfigBuilderContext) (hbl : getProhibitedTargetList cbCtx = [])
    (hwl : getManagedTargetList cbCtx = []) :
    getManagedProbes probes cbCtx = some probes := by
  unfold getManagedProbes
  simp [hbl, hwl]

end appgw

namespace appgw

/-! ## Claims on the classifier -/

/-- C1, at a concrete input, as the claim states it: the blacklist is non-empty and the list
holds a probe without a host.  `inProbeList` dereferences the host of that probe, and
`getManagedProbes` returns nothing, not the probes that match no blacklist entry. -/
theorem blacklist_branch_panics_without_host :
    getProhibitedTargetList ctxBoth ≠ []
    ∧ probeNoHostFixture.Host = none
    ∧ inProbeList probeNoHostFixture (getProhibitedTargetList ctxBoth) = none
    ∧ getManagedProbes [probeNoHostFixture, probeFixture "foo.baz" "/baz"] ctxBoth = none := by
  refine ⟨by decide, by decide, by decide, by decide⟩

/-- C1, amended: under a non-empty blacklist, when every probe of the list has its Host and
its Path, `getManagedProbes` returns exactly the probes, in input order, for which
`inProbeList` on the blacklist is false; `getNewManagedPools` returns, when the name-to-Target
table is built, the pools for which `isTargetInList` on the blacklist is false (and panics
exactly when building the table panics).  The whitelist has no influence: any other context
with the same blacklist (and, for pools, the same table) gives the same result. -/
theorem classifier_blacklist_branch (c : appGwConfigBuilder) (cbCtx : ConfigBuilderContext)
    (probes : List ApplicationGatewayProbe)
    (pools : List ApplicationGatewayBackendAddressPool)
    (hbl : getProhibitedTargetList cbCtx ≠ [])
    (hprobes : ∀ p ∈ probes, p.Host ≠ none ∧ p.Path ≠ none) :
    getManagedProbes probes cbCtx
        = some (probes.filter (fun p =>
            decide (inProbeList p (getProhibitedTargetList cbCtx) = some false)))
    ∧ getNewManagedPools c pools cbCtx
        = (getPoolToTargetMapping c cbCtx).map (fun poolToTarget =>
            pools.filter (fun p =>
              !isTargetInList (targetOf poolToTarget p.Name) (getProhibitedTargetList cbCtx)))
    ∧ ∀ cbCtx2 : ConfigBuilderContext,
        getProhibitedTargetList cbCtx2 = getProhibitedTargetList cbCtx →
          getManagedProbes probes cbCtx2 = getManagedProbes probes cbCtx
          ∧ (getPoolToTargetMapping c cbCtx2 = getPoolToTargetMapping c cbCtx →
              getNewManagedPools c pools cbCtx2 = getNewManagedPools c pools cbCtx) := by
  refine ⟨getManagedProbes_blacklist_returns probes cbCtx hbl
      (fun p hp => inProbeList_isSome p _ (hprobes p hp).1 (hprobes p hp).2),
    getNewManagedPools_blacklist c pools cbCtx hbl, ?_⟩
  intro cbCtx2 h2
  have hbl2 : getProhibitedTargetList cbCtx2 ≠ [] := by rw [h2]; exact hbl
  refine ⟨?_, ?_⟩
  · rw [getManagedProbes_blacklist probes cbCtx2 hbl2, getManagedProbes_blacklist probes cbCtx hbl,
      h2]
  · intro htbl
    rw [getNewManagedPools_blacklist c pools cbCtx2 hbl2,
      getNewManagedPools_blacklist c pools cbCtx hbl, h2, htbl]

/-- C1, amended, at the context of the test of `getManagedProbes`: of the probes for `/fox`,
`/bar` and `/baz` only the last is managed; of the pools, the one mapped to `/fox` is
dropped. -/
theorem classifier_blacklist_branch_witness :
    getProhibitedTargetList ctxBoth ≠ []
    ∧ (∀ p ∈ probesFixture, p.Host ≠ none ∧ p.Path ≠ none)
    ∧ getManagedProbes probesFixture ctxBoth = some [probeFixture "foo.baz" "/baz"]
    ∧ getNewManagedPools (builderFixture none) poolsFixture ctxBoth
        = some [poolFixture "manual-pool", poolFixture "pool-baz"] :=
  have h := classifier_blacklist_branch (builderFixture none) ctxBoth probesFixture poolsFixture
    (by decide) (by decide)
  ⟨by decide, by decide,
   h.1.trans (by
     have hl : getProhibitedTargetList ctxBoth
         = [⟨"foo.baz", 443, some "/fox"⟩, ⟨"foo.baz", 443, some "/bar"⟩] := by decide
     rw [hl]
     simp only [probesFixture, probeFixture, List.filter, inProbeList,
       normalizePath_eq_TrimRight]
     decide),
   h.2.1.trans (by decide)⟩

/-- C2, at a concrete input, as the claim states it: the blacklist is empty, the whitelist is
not, and the list holds a probe without a host.  `getManagedProbes` returns nothing, not the
probes that match a whitelist entry. -/
theorem whitelist_branch_panics_without_host :
    getProhibitedTargetList ctxManaged = []
    ∧ getManagedTargetList ctxManaged ≠ []
    ∧ probeNoHostFixture.Host = none
    ∧ inProbeList probeNoHostFixture (getManagedTargetList ctxManaged) = none
    ∧ getManagedProbes [probeNoHostFixture, probeFixture "foo.baz" "/bar"] ctxManaged
        = none := by
  refine ⟨by decide, by decide, by decide, by decide, by decide⟩

/-- C2, amended: with an empty blacklist and a non-empty whitelist, when every probe of the
list has its Host and its Path, `getManagedProbes` returns exactly the probes, in input order
and each as often as in the input, for which `inProbeList` on the whitelist is true;
`getNewManagedPools` returns, when the name-to-Target table is built, the pools for which
`isTargetInList` on the whitelist is true; the trailing loop over the (empty) blacklist adds
nothing. -/
theorem classifier_whitelist_branch (c : appGwConfigBuilder) (cbCtx : ConfigBuilderContext)
    (probes : List ApplicationGatewayProbe)
    (pools : List ApplicationGatewayBackendAddressPool)
    (hbl : getProhibitedTargetList cbCtx = [])
    (hwl : getManagedTargetList cbCtx ≠ [])
    (hprobes : ∀ p ∈ probes, p.Host ≠ none ∧ p.Path ≠ none) :
    getManagedProbes probes cbCtx
        = some (probes.filter (fun p =>
            decide (inProbeList p (getManagedTargetList cbCtx) = some true)))
    ∧ getNewManagedPools c pools cbCtx
        = (getPoolToTargetMapping c cbCtx).map (fun poolToTarget =>
            pools.filter (fun p =>
              isTargetInList (targetOf poolToTarget p.Name) (getManagedTargetList cbCtx))) :=
  ⟨getManagedProbes_whitelist_returns probes cbCtx hbl hwl
     (fun p hp => inProbeList_isSome p _ (hprobes p hp).1 (hprobes p hp).2),
   getNewManagedPools_whitelist c pools cbCtx hbl hwl⟩

/-- C2, amended, at a context with the managed paths `/foo`, `/bar`, `/baz`: the probe for
`/fox` is not managed, and only the pool mapped to `/baz` is. -/
theorem classifier_whitelist_branch_witness :
    getProhibitedTargetList ctxManaged = []
    ∧ getManagedTargetList ctxManaged ≠ []
    ∧ (∀ p ∈ probesFixture, p.Host ≠ none ∧ p.Path ≠ none)
    ∧ getManagedProbes probesFixture ctxManaged
        = some [probeFixture "foo.baz" "/bar", probeFixture "foo.baz" "/baz"]
    ∧ getNewManagedPools (builderFixture none) poolsFixture ctxManaged
        = some [poolFixture "pool-baz"] :=
  have h := classifier_whitelist_branch (builderFixture none) ctxManaged probesFixture
    poolsFixture (by decide) (by decide) (by decide)
  ⟨by decide, by decide, by decide,
   h.1.trans (by
     have hl : getManagedTargetList ctxManaged
         = [⟨"foo.baz", 443, some "/foo"⟩, ⟨"foo.baz", 443, some "/bar"⟩,
            ⟨"foo.baz", 443, some "/baz"⟩] := by decide
     rw [hl]
     simp only [probesFixture, probeFixture, List.filter, inProbeList,
       normalizePath_eq_TrimRight]
     decide),
   h.2.trans (by decide)⟩

/-- C3: when the context declares no prohibited and no managed targets, `getManagedProbes` and
`getNewManagedPools` return their input unchanged.  `getManagedProbes` does so without a call
of `inProbeList` and `getNewManagedPools` without building the name-to-Target table, so
neither can fail. -/
theorem classifier_greenfield_passthrough (c : appGwConfigBuilder)
    (cbCtx : ConfigBuilderContext) (probes : List ApplicationGatewayProbe)
    (pools : List ApplicationGatewayBackendAddressPool)
    (hbl : getProhibitedTargetList cbCtx = [])
    (hwl : getManagedTargetList cbCtx = []) :
    getManagedProbes probes cbCtx = some probes
    ∧ getNewManagedPools c pools cbCtx = some pools :=
  ⟨getManagedProbes_greenfield probes cbCtx hbl hwl,
   getNewManagedPools_greenfield c pools cbCtx hbl hwl⟩

/-- C3 at the context without declared targets; the list holds a probe without a host. -/
theorem classifier_greenfield_passthrough_witness :
    getProhibitedTargetList ctxGreenfield = []
    ∧ getManagedTargetList ctxGreenfield = []
    ∧ getManagedProbes (probeNoHostFixture :: probesFixture) ctxGreenfield
        = some (probeNoHostFixture :: probesFixture)
    ∧ getNewManagedPools (builderFixture none) poolsFixture ctxGreenfield = some poolsFixture :=
  have h := classifier_greenfield_passthrough (builderFixture none) ctxGreenfield
    (probeNoHostFixture :: probesFixture) poolsFixture (by decide) (by decide)
  ⟨by decide, by decide, h.1, h.2⟩

/-- C4, at a concrete input, as the claim states it: the blacklist holds the host
`www.prohibited.com` without a path; the probe of `foo.baz` has the Host of no blacklist
entry, but the list also holds a probe without a host, `getManagedProbes` returns nothing,
and the probe of `foo.baz` is not returned. -/
theorem prohibited_host_panics_without_host :
    (⟨"www.prohibited.com", 80, none⟩ : Target) ∈ getProhibitedTargetList ctxProhibitedHost
    ∧ (∀ t ∈ getProhibitedTargetList ctxProhibitedHost,
        some t.Host ≠ (probeFixture "foo.baz" "/foo").Host)
    ∧ getManagedProbes [probeFixture "foo.baz" "/foo", probeNoHostFixture] ctxProhibitedHost
        = none
    ∧ ¬ ∃ managed,
        getManagedProbes [probeFixture "foo.baz" "/foo", probeNoHostFixture] ctxProhibitedHost
          = some managed ∧ probeFixture "foo.baz" "/foo" ∈ managed := by
  have h : getManagedProbes [probeFixture "foo.baz" "/foo", probeNoHostFixture]
      ctxProhibitedHost = none := by decide
  refine ⟨by decide, by decide, h, ?_⟩
  rintro ⟨managed, hm, _⟩
  rw [h] at hm
  cases hm

/-- C4, amended: if the blacklist contains a Target with Host `h` and absent Path, whatever
`getManagedProbes` returns holds no probe whose Host is `h`, whatever the probe's path and
whatever the managed targets of the context; and when every probe of the list has its Host
and its Path, `getManagedProbes` returns, and every probe whose Host is the Host of no
blacklist entry is returned. -/
theorem prohibited_host_excludes_its_probes (cbCtx : ConfigBuilderContext)
    (probes : List ApplicationGatewayProbe) (h : String) (port : Int)
    (hmem : (⟨h, port, none⟩ : Target) ∈ getProhibitedTargetList cbCtx) :
    (∀ managed, getManagedProbes probes cbCtx = some managed →
        ∀ p ∈ managed, p.Host ≠ some h)
    ∧ ((∀ p ∈ probes, p.Host ≠ none ∧ p.Path ≠ none) →
        ∃ managed, getManagedProbes probes cbCtx = some managed
          ∧ ∀ p ∈ probes, (∀ t ∈ getProhibitedTargetList cbCtx, some t.Host ≠ p.Host) →
              p ∈ managed) := by
  have hbl : getProhibitedTargetList cbCtx ≠ [] := List.ne_nil_of_mem hmem
  refine ⟨?_, ?_⟩
  · intro managed hm p hp hhost
    rw [getManagedProbes_blacklist_eq_some probes managed cbCtx hbl hm, List.mem_filter] at hp
    exact inProbeList_host_entry p _ h port hmem hhost (of_decide_eq_true hp.2)
  · intro hprobes
    refine ⟨_, getManagedProbes_blacklist_returns probes cbCtx hbl
      (fun p hp => inProbeList_isSome p _ (hprobes p hp).1 (hprobes p hp).2), ?_⟩
    intro p hp hno
    rw [List.mem_filter]
    refine ⟨hp, decide_eq_true ?_⟩
    cases hh : p.Host with
    | none => exact absurd hh (hprobes p hp).1
    | some probeHost =>
      refine inProbeList_other_host p _ probeHost hh (fun t ht e => hno t ht ?_)
      rw [hh, e]

/-- C4, amended, at the context of `health_probes_test.go`, which prohibits the host
`www.prohibited.com` and declares managed targets as well: the probe of that host is not
managed, the probe of another host is. -/
theorem prohibited_host_excludes_its_probes_witness :
    (⟨"www.prohibited.com", 80, none⟩ : Target) ∈ getProhibitedTargetList ctxProhibitedHost
    ∧ getManagedProbes [probeFixture "www.prohibited.com" "/", probeFixture "foo.baz" "/foo"]
        ctxProhibitedHost = some [probeFixture "foo.baz" "/foo"]
    ∧ (∀ managed, getManagedProbes
          [probeFixture "www.prohibited.com" "/", probeFixture "foo.baz" "/foo"]
          ctxProhibitedHost = some managed →
        ∀ p ∈ managed, p.Host ≠ some "www.prohibited.com") :=
  ⟨by decide, by decide,
   (prohibited_host_excludes_its_probes ctxProhibitedHost
      [probeFixture "www.prohibited.com" "/", probeFixture "foo.baz" "/foo"]
      "www.prohibited.com" 80 (by decide)).1⟩

end appgw

namespace appgw

/-! ## Go maps -/

theorem mapGet_mapSet {V : Type} (m : GoMap V) (k k1 : String) (v : V) :
    mapGet (mapSet m k v) k1 = if k = k1 then some v else mapGet m k1 := by
  induction m with
  | nil =>
    simp only [mapSet, mapGet]
  | cons e rest ih =>
    obtain ⟨k0, v0⟩ := e
    simp only [mapSet]
    by_cases h : k0 = k
    · rw [if_pos h]
      simp only [mapGet]
      by_cases h1 : k = k1
      · simp [h1]
      · have h2 : ¬ k0 = k1 := fun e => h1 (h ▸ e)
        simp [h1, h2]
    · rw [if_neg h]
      simp only [mapGet]
      by_cases h2 : k0 = k1
      · have h1 : ¬ k = k1 := fun e => h (h2.trans e.symm)
        simp [h1, h2]
      · simp [h2, ih]

theorem mem_mapKeys_mapSet {V : Type} (m : GoMap V) (k k1 : String) (v : V) :
    k1 ∈ mapKeys (mapSet m k v) ↔ k1 = k ∨ k1 ∈ mapKeys m := by
  induction m with
  | nil => simp [mapSet, mapKeys]
  | cons e rest ih =>
    obtain ⟨k0, v0⟩ := e
    simp only [mapSet]
    by_cases h : k0 = k
    · rw [if_pos h]
      simp only [mapKeys, List.map_cons, List.mem_cons]
      subst h
      tauto
    · rw [if_neg h]
      simp only [mapKeys, List.map_cons, List.mem_cons] at ih ⊢
      rw [ih]
      tauto

theorem nodup_mapKeys_mapSet {V : Type} (m : GoMap V) (k : String) (v : V)
    (h : (mapKeys m).Nodup) : (mapKeys (mapSet m k v)).Nodup := by
  induction m with
  | nil => simp [mapSet, mapKeys]
  | cons e rest ih =>
    obtain ⟨k0, v0⟩ := e
    simp only [mapKeys, List.map_cons, List.nodup_cons] at h
    simp only [mapSet]
    by_cases hk : k0 = k
    · rw [if_pos hk]
      simp only [mapKeys, List.map_cons, List.nodup_cons]
      subst hk
      exact h
    · rw [if_neg hk]
      simp only [mapKeys, List.map_cons, List.nodup_cons]
      refine ⟨?_, ih h.2⟩
      intro hmem
      have := (mem_mapKeys_mapSet rest k k0 v).1 hmem
      rcases this with e | e
      · exact hk e
      · exact h.1 e

theorem mapGet_eq_some_of_mem {V : Type} (m : GoMap V) (k : String) (v : V)
    (hnd : (mapKeys m).Nodup) (hmem : (k, v) ∈ m) : mapGet m k = some v := by
  induction m with
  | nil => simp at hmem
  | cons e rest ih =>
    obtain ⟨k0, v0⟩ := e
    simp only [mapKeys, List.map_cons, List.nodup_cons] at hnd
    simp only [mapGet]
    rcases List.mem_cons.1 hmem with e | e
    · injection e with e1 e2
      simp [e1, e2]
    · have hk : k ∈ mapKeys rest := List.mem_map.2 ⟨(k, v), e, rfl⟩
      have hne : ¬ k0 = k := fun e1 => hnd.1 (e1 ▸ hk)
      rw [if_neg hne]
      exact ih hnd.2 e

theorem mem_of_mapGet_eq_some {V : Type} (m : GoMap V) (k : String) (v : V)
    (h : mapGet m k = some v) : (k, v) ∈ m := by
  induction m with
  | nil => simp [mapGet] at h
  | cons e rest ih =>
    obtain ⟨k0, v0⟩ := e
    simp only [mapGet] at h
    by_cases hk : k0 = k
    · rw [if_pos hk] at h
      injection h with h
      simp [hk, h]
    · rw [if_neg hk] at h
      exact List.mem_cons_of_mem _ (ih h)

theorem mapGet_isSome_iff {V : Type} (m : GoMap V) (k : String) :
    (mapGet m k).isSome = true ↔ k ∈ mapKeys m := by
  induction m with
  | nil => simp [mapGet, mapKeys]
  | cons e rest ih =>
    obtain ⟨k0, v0⟩ := e
    simp only [mapGet, mapKeys, List.map_cons, List.mem_cons]
    by_cases hk : k0 = k
    · simp [hk]
    · rw [if_neg hk, ih]
      simp only [mapKeys]
      constructor
      · intro h; exact Or.inr h
      · intro h
        rcases h with e | e
        · exact absurd e.symm hk
        · exact e

/-! ## Tables of pools keyed by name -/

theorem wellKeyed_nil : WellKeyed [] := by
  simp [WellKeyed, mapKeys]

theorem wellKeyed_mapSet (m : GoMap Pool) (p : Pool) (h : WellKeyed m) :
    WellKeyed (mapSet m p.Name p) := by
  refine ⟨nodup_mapKeys_mapSet m p.Name p h.1, ?_⟩
  intro e he
  obtain ⟨k, v⟩ := e
  have hnd := nodup_mapKeys_mapSet m p.Name p h.1
  have hget := mapGet_eq_some_of_mem _ k v hnd he
  rw [mapGet_mapSet] at hget
  by_cases hk : p.Name = k
  · rw [if_pos hk] at hget
    injection hget with hget
    simp [← hget, hk]
  · rw [if_neg hk] at hget
    exact h.2 (k, v) (mem_of_mapGet_eq_some m k v hget)

theorem wellKeyed_indexPools (l : List Pool) (m : GoMap Pool) (h : WellKeyed m) :
    WellKeyed (indexPools l m) := by
  induction l generalizing m with
  | nil => exact h
  | cons p rest ih =>
    simp only [indexPools, List.foldl_cons]
    exact ih _ (wellKeyed_mapSet m p h)

theorem mapGet_indexPools (l : List Pool) (m : GoMap Pool) (k : String) :
    mapGet (indexPools l m) k = (lastNamed l k).or (mapGet m k) := by
  induction l generalizing m with
  | nil => simp [indexPools, lastNamed]
  | cons p rest ih =>
    simp only [indexPools, List.foldl_cons]
    have := ih (mapSet m p.Name p)
    simp only [indexPools] at this
    rw [this, mapGet_mapSet]
    simp only [lastNamed]
    cases hl : lastNamed rest k with
    | some q => simp
    | none =>
      by_cases hk : p.Name = k
      · simp [hk]
      · simp [hk]

theorem mem_mapValues_iff (m : GoMap Pool) (h : WellKeyed m) (p : Pool) :
    p ∈ mapValues m ↔ mapGet m p.Name = some p := by
  constructor
  · intro hp
    obtain ⟨e, he, hep⟩ := List.mem_map.1 hp
    obtain ⟨k, v⟩ := e
    simp only at hep
    subst hep
    have hk := h.2 (k, v) he
    simp only at hk
    rw [hk]
    exact mapGet_eq_some_of_mem m k v h.1 he
  · intro hp
    exact List.mem_map.2 ⟨(p.Name, p), mem_of_mapGet_eq_some m _ _ hp, rfl⟩

theorem map_name_mapValues (m : GoMap Pool) (h : WellKeyed m) :
    (mapValues m).map (fun p => p.Name) = mapKeys m := by
  simp only [mapValues, mapKeys, List.map_map]
  apply List.map_congr_left
  intro e he
  exact h.2 e he

/-! ## `lastNamed` -/

theorem lastNamed_eq_some (l : List Pool) (k : String) (p : Pool)
    (h : lastNamed l k = some p) : p ∈ l ∧ p.Name = k := by
  induction l with
  | nil => simp [lastNamed] at h
  | cons q rest ih =>
    simp only [lastNamed] at h
    cases hl : lastNamed rest k with
    | some r =>
      rw [hl] at h
      injection h with h
      subst h
      exact ⟨List.mem_cons_of_mem _ (ih hl).1, (ih hl).2⟩
    | none =>
      rw [hl] at h
      by_cases hk : q.Name = k
      · rw [if_pos hk] at h
        injection h with h
        subst h
        exact ⟨List.mem_cons_self _ _, hk⟩
      · rw [if_neg hk] at h
        cases h

theorem lastNamed_eq_none_iff (l : List Pool) (k : String) :
    lastNamed l k = none ↔ k ∉ l.map (fun p => p.Name) := by
  induction l with
  | nil => simp [lastNamed]
  | cons q rest ih =>
    simp only [lastNamed, List.map_cons, List.mem_cons, not_or]
    cases hl : lastNamed rest k with
    | some r =>
      have : ¬ (k ∉ rest.map (fun p => p.Name)) := fun hn => by
        rw [ih.2 hn] at hl; cases hl
      constructor
      · intro h; cases h
      · intro h; exact absurd h.2 this
    | none =>
      have hr := ih.1 hl
      by_cases hk : q.Name = k
      · simp [hk]
      · simp only [if_neg hk, true_iff]
        exact ⟨fun e => hk e.symm, hr⟩

theorem lastNamed_append (a b : List Pool) (k : String) :
    lastNamed (a ++ b) k = (lastNamed b k).or (lastNamed a k) := by
  induction a with
  | nil => simp [lastNamed]
  | cons q rest ih =>
    have hcons : lastNamed (q :: rest ++ b) k =
        match lastNamed (rest ++ b) k with
        | some r => some r
        | none => if q.Name = k then some q else none := rfl
    rw [hcons, ih]
    simp only [lastNamed]
    cases hb : lastNamed b k with
    | some r => simp
    | none => simp

theorem lastNamed_of_nodup (l : List Pool) (p : Pool)
    (hnd : (l.map (fun q => q.Name)).Nodup) (hp : p ∈ l) : lastNamed l p.Name = some p := by
  induction l with
  | nil => simp at hp
  | cons q rest ih =>
    simp only [List.map_cons, List.nodup_cons] at hnd
    simp only [lastNamed]
    rcases List.mem_cons.1 hp with e | e
    · subst e
      have : lastNamed rest p.Name = none := (lastNamed_eq_none_iff rest p.Name).2 hnd.1
      simp [this]
    · rw [ih hnd.2 e]

end appgw

namespace appgw

/-! ## `mergePools` -/

theorem mergePools_pair (a b : List Pool) :
    mergePools [a, b] = mapValues (indexPools (a ++ b) []) := by
  simp only [mergePools, indexPools, List.foldl_cons, List.foldl_nil, List.foldl_append]

theorem wellKeyed_merge (a b : List Pool) : WellKeyed (indexPools (a ++ b) []) :=
  wellKeyed_indexPools (a ++ b) [] wellKeyed_nil

theorem mem_mergePools (a b : List Pool) (p : Pool) :
    p ∈ mergePools [a, b] ↔ lastNamed (a ++ b) p.Name = some p := by
  rw [mergePools_pair, mem_mapValues_iff _ (wellKeyed_merge a b), mapGet_indexPools]
  simp [mapGet]

theorem nodup_names_mergePools (a b : List Pool) :
    ((mergePools [a, b]).map (fun p => p.Name)).Nodup := by
  rw [mergePools_pair, map_name_mapValues _ (wellKeyed_merge a b)]
  exact (wellKeyed_merge a b).1

theorem mem_names_mergePools (a b : List Pool) (k : String) :
    k ∈ (mergePools [a, b]).map (fun p => p.Name)
      ↔ k ∈ a.map (fun p => p.Name) ∨ k ∈ b.map (fun p => p.Name) := by
  rw [mergePools_pair, map_name_mapValues _ (wellKeyed_merge a b), ← mapGet_isSome_iff,
    mapGet_indexPools]
  have hnone := lastNamed_eq_none_iff (a ++ b) k
  simp only [List.map_append, List.mem_append] at hnone
  cases hl : lastNamed (a ++ b) k with
  | none =>
    rw [hl] at hnone
    have hno := hnone.1 rfl
    constructor
    · intro h
      simp [mapGet] at h
    · intro h
      exact absurd h hno
  | some q =>
    rw [hl] at hnone
    constructor
    · intro _
      by_contra hn
      have := hnone.2 hn
      cases this
    · intro _
      simp

/-! ## Sorting by name -/

theorem ByBackendPoolNameLess_iff (a b : Pool) :
    ByBackendPoolNameLess a b = true ↔ a.Name < b.Name := by
  unfold ByBackendPoolNameLess
  rw [decide_eq_true_iff, String.lt_iff_toList_lt]
  rfl

theorem ByBackendPoolNameLess_eq_false_iff (a b : Pool) :
    ByBackendPoolNameLess b a = false ↔ a.Name ≤ b.Name := by
  rw [← not_lt, ← ByBackendPoolNameLess_iff]
  simp

theorem goSort_perm (l : List Pool) : (goSort ByBackendPoolNameLess l).Perm l :=
  List.perm_insertionSort _ l

theorem mem_goSort (l : List Pool) (p : Pool) : p ∈ goSort ByBackendPoolNameLess l ↔ p ∈ l :=
  (goSort_perm l).mem_iff

theorem goSort_sorted_le (l : List Pool) :
    (goSort ByBackendPoolNameLess l).Pairwise (fun a b => a.Name ≤ b.Name) := by
  haveI : IsTotal Pool (fun a b => ByBackendPoolNameLess b a = false) :=
    ⟨fun a b => by
      rw [ByBackendPoolNameLess_eq_false_iff, ByBackendPoolNameLess_eq_false_iff]
      exact le_total _ _⟩
  haveI : IsTrans Pool (fun a b => ByBackendPoolNameLess b a = false) :=
    ⟨fun a b c hab hbc => by
      rw [ByBackendPoolNameLess_eq_false_iff] at hab hbc ⊢
      exact le_trans hab hbc⟩
  have h := List.sorted_insertionSort (fun a b : Pool => ByBackendPoolNameLess b a = false) l
  exact List.Pairwise.imp (fun {a b} hab => (ByBackendPoolNameLess_eq_false_iff a b).1 hab) h

theorem goSort_sorted_lt (l : List Pool) (hnd : (l.map (fun p => p.Name)).Nodup) :
    (goSort ByBackendPoolNameLess l).Pairwise (fun a b => a.Name < b.Name) := by
  have hnd2 : ((goSort ByBackendPoolNameLess l).map (fun p => p.Name)).Nodup :=
    ((goSort_perm l).map _).nodup_iff.2 hnd
  have hne : (goSort ByBackendPoolNameLess l).Pairwise (fun a b => a.Name ≠ b.Name) :=
    (List.pairwise_map).1 hnd2
  exact List.Pairwise.imp₂ (fun {a b} hle hne => lt_of_le_of_ne hle hne) (goSort_sorted_le l) hne

theorem nodup_of_sorted_lt (l : List Pool) (h : l.Pairwise (fun a b => a.Name < b.Name)) :
    l.Nodup :=
  List.Pairwise.imp (fun {a b} hab hEq => by rw [hEq] at hab; exact lt_irrefl _ hab) h

theorem sorted_lt_unique (l1 l2 : List Pool)
    (h1 : l1.Pairwise (fun a b => a.Name < b.Name))
    (h2 : l2.Pairwise (fun a b => a.Name < b.Name))
    (hmem : ∀ p, p ∈ l1 ↔ p ∈ l2) : l1 = l2 := by
  haveI : IsAntisymm Pool (fun a b => a.Name < b.Name) :=
    ⟨fun a b hab hba => absurd hab (lt_asymm hba)⟩
  have hperm : l1.Perm l2 :=
    (List.perm_ext_iff_of_nodup (nodup_of_sorted_lt l1 h1) (nodup_of_sorted_lt l2 h2)).2 hmem
  exact List.eq_of_perm_of_sorted hperm h1 h2

theorem goSort_eq_of_perm (l l2 : List Pool) (hnd : (l.map (fun p => p.Name)).Nodup)
    (hp : l2.Perm l) : goSort ByBackendPoolNameLess l2 = goSort ByBackendPoolNameLess l := by
  have hnd2 : (l2.map (fun p => p.Name)).Nodup := (hp.map _).nodup_iff.2 hnd
  apply sorted_lt_unique _ _ (goSort_sorted_lt l2 hnd2) (goSort_sorted_lt l hnd)
  intro p
  rw [mem_goSort, mem_goSort]
  exact hp.mem_iff

end appgw

namespace appgw

/-! ## The classifier as a test on names -/

theorem getNewManagedPools_eq (c : appGwConfigBuilder) (pools : List Pool)
    (cbCtx : ConfigBuilderContext) :
    getNewManagedPools c pools cbCtx
      = (classifierTable c cbCtx).map (fun poolToTarget =>
          pools.filter (fun p =>
            classifiedManaged (getProhibitedTargetList cbCtx) (getManagedTargetList cbCtx)
              poolToTarget p.Name)) := by
  by_cases hbl : getProhibitedTargetList cbCtx = []
  · by_cases hwl : getManagedTargetList cbCtx = []
    · rw [getNewManagedPools_greenfield c pools cbCtx hbl hwl]
      simp [classifierTable, classifiedManaged, hbl, hwl]
    · rw [getNewManagedPools_whitelist c pools cbCtx hbl hwl]
      have hlen : ¬ (getManagedTargetList cbCtx).length = 0 := by
        rw [List.length_eq_zero]; exact hwl
      simp [classifierTable, classifiedManaged, hbl, hlen]
  · rw [getNewManagedPools_blacklist c pools cbCtx hbl]
    have hlen : ¬ (getProhibitedTargetList cbCtx).length = 0 := by
      rw [List.length_eq_zero]; exact hbl
    have hpos : 0 < (getProhibitedTargetList cbCtx).length := Nat.pos_of_ne_zero hlen
    simp [classifierTable, classifiedManaged, hlen, hpos]

theorem mem_names_filter (pools : List Pool) (f : String → Bool) (p : Pool) (hp : p ∈ pools) :
    p.Name ∈ (pools.filter (fun q => f q.Name)).map (fun q => q.Name) ↔ f p.Name = true := by
  constructor
  · intro h
    obtain ⟨q, hq, hqn⟩ := List.mem_map.1 h
    rw [List.mem_filter] at hq
    rw [← hqn]
    exact hq.2
  · intro h
    exact List.mem_map.2 ⟨p, List.mem_filter.2 ⟨hp, h⟩, rfl⟩

theorem mapGet_indexPools_isSome (l : List Pool) (k : String) :
    (mapGet (indexPools l []) k).isSome = true ↔ k ∈ l.map (fun p => p.Name) := by
  rw [mapGet_indexPools]
  have hnone := lastNamed_eq_none_iff l k
  cases hl : lastNamed l k with
  | none =>
    rw [hl] at hnone
    have hno := hnone.1 rfl
    constructor
    · intro h; simp [mapGet] at h
    · intro h; exact absurd h hno
  | some q =>
    rw [hl] at hnone
    constructor
    · intro _
      by_contra hn
      have := hnone.2 hn
      cases this
    · intro _; simp

theorem pruneManagedPools_eq_filter_names (c : appGwConfigBuilder) (pools : List Pool)
    (kr : ConfigBuilderContext) :
    pruneManagedPools c pools kr
      = (getNewManagedPools c pools kr).map (fun managedPool =>
          pools.filter (fun p => decide (p.Name ∉ managedPool.map (fun q => q.Name)))) := by
  unfold pruneManagedPools
  cases hm : getNewManagedPools c pools kr with
  | none => rfl
  | some managedPool =>
    simp only [Option.map_some']
    by_cases he : managedPool.isEmpty = true
    · rw [if_pos he]
      have : managedPool = [] := List.isEmpty_iff.1 he
      subst this
      simp
    · rw [if_neg he, foldl_skip_eq_filter]
      simp only [List.nil_append]
      congr 1
      apply List.filter_congr
      intro p _
      have h := mapGet_indexPools_isSome managedPool p.Name
      simp only [indexPools] at h
      by_cases hin : p.Name ∈ managedPool.map (fun q => q.Name)
      · simp [h.2 hin, hin]
      · have : ¬ (mapGet (List.foldl (fun m1 p => mapSet m1 p.Name p) [] managedPool)
            p.Name).isSome = true := fun hs => hin (h.1 hs)
        simp only [Bool.not_eq_true] at this
        simp [this, hin]

theorem pruneManagedPools_eq (c : appGwConfigBuilder) (pools : List Pool)
    (kr : ConfigBuilderContext) :
    pruneManagedPools c pools kr
      = (classifierTable c kr).map (fun poolToTarget =>
          pools.filter (fun p =>
            !classifiedManaged (getProhibitedTargetList kr) (getManagedTargetList kr)
              poolToTarget p.Name)) := by
  rw [pruneManagedPools_eq_filter_names, getNewManagedPools_eq]
  cases classifierTable c kr with
  | none => rfl
  | some tbl =>
    simp only [Option.map_some']
    congr 1
    apply List.filter_congr
    intro p hp
    have h := mem_names_filter pools
      (classifiedManaged (getProhibitedTargetList kr) (getManagedTargetList kr) tbl) p hp
    cases hc : classifiedManaged (getProhibitedTargetList kr) (getManagedTargetList kr) tbl
        p.Name with
    | true => simp [h.2 hc]
    | false =>
      have : ¬ p.Name ∈ (pools.filter (fun q => classifiedManaged (getProhibitedTargetList kr)
          (getManagedTargetList kr) tbl q.Name)).map (fun q => q.Name) := fun hm => by
        rw [h.1 hm] at hc; cases hc
      simp [this]

/-! ## The stored collection -/

theorem BackendAddressPools_eq (c : appGwConfigBuilder) (cbCtx : ConfigBuilderContext) :
    BackendAddressPools c cbCtx
      = match getNewManagedPools c (candidatePools c cbCtx) cbCtx,
          pruneManagedPools c (existingPools c) cbCtx with
        | some newManaged, some existingUnmanaged =>
          some ({ c with
            appGwConfig := { c.appGwConfig with
              BackendAddressPools :=
                some (goSort ByBackendPoolNameLess (mergePools [existingUnmanaged, newManaged])) },
            recorder := (synthesizePools c cbCtx).2 }, none)
        | _, _ => none := by
  unfold BackendAddressPools candidatePools existingPools
  dsimp only
  cases h1 : getNewManagedPools c (getBackendPoolMapValues (synthesizePools c cbCtx).1) cbCtx with
  | none => rfl
  | some nm =>
    dsimp only
    cases h2 : pruneManagedPools c (match c.appGwConfig.BackendAddressPools with
        | some stored => stored
        | none => []) cbCtx with
    | none => rfl
    | some eu => rfl

theorem storedPools_eq (c : appGwConfigBuilder) (cbCtx : ConfigBuilderContext) :
    storedPools (BackendAddressPools c cbCtx)
      = (classifierTable c cbCtx).map (fun poolToTarget =>
          goSort ByBackendPoolNameLess (mergePools
            [(existingPools c).filter (fun p =>
                !classifiedManaged (getProhibitedTargetList cbCtx) (getManagedTargetList cbCtx)
                  poolToTarget p.Name),
             (candidatePools c cbCtx).filter (fun p =>
                classifiedManaged (getProhibitedTargetList cbCtx) (getManagedTargetList cbCtx)
                  poolToTarget p.Name)])) := by
  rw [BackendAddressPools_eq, getNewManagedPools_eq, pruneManagedPools_eq]
  cases classifierTable c cbCtx with
  | none => rfl
  | some tbl => rfl

end appgw

namespace appgw

/-! ## Further facts used by the claims on the pipeline -/

theorem classifierTable_eq_some_iff (c : appGwConfigBuilder) (cbCtx : ConfigBuilderContext) :
    (classifierTable c cbCtx).isSome = true ↔
      (getProhibitedTargetList cbCtx = [] ∧ getManagedTargetList cbCtx = [])
        ∨ (getPoolToTargetMapping c cbCtx).isSome = true := by
  unfold classifierTable
  by_cases h : (getProhibitedTargetList cbCtx).length = 0 ∧ (getManagedTargetList cbCtx).length = 0
  · rw [if_pos h]
    rw [List.length_eq_zero, List.length_eq_zero] at h
    simp [h]
  · rw [if_neg h]
    rw [List.length_eq_zero, List.length_eq_zero] at h
    simp [h]

theorem lastNamed_middle (before after : List Pool) (P : Pool)
    (hlast : ∀ q ∈ after, q.Name ≠ P.Name) :
    lastNamed (before ++ P :: after) P.Name = some P := by
  rw [lastNamed_append]
  have hnone : lastNamed after P.Name = none := by
    rw [lastNamed_eq_none_iff]
    intro h
    obtain ⟨q, hq, hqn⟩ := List.mem_map.1 h
    exact hlast q hq hqn
  simp [lastNamed, hnone]

theorem synthesize_step_fst (c : appGwConfigBuilder)
    (l : List (backendIdentifier × serviceBackendPortPair))
    (m : GoMap Pool) (ev1 ev2 : List Event) :
    (l.foldl (fun (acc : GoMap Pool × List Event) entry =>
        match getBackendAddressPool c entry.1 entry.2 acc.1 with
        | (some pool, evs) => (mapSet acc.1 pool.Name pool, acc.2 ++ evs)
        | (none, evs) => (acc.1, acc.2 ++ evs)) (m, ev1)).1
    = (l.foldl (fun (acc : GoMap Pool × List Event) entry =>
        match getBackendAddressPool c entry.1 entry.2 acc.1 with
        | (some pool, evs) => (mapSet acc.1 pool.Name pool, acc.2 ++ evs)
        | (none, evs) => (acc.1, acc.2 ++ evs)) (m, ev2)).1 := by
  induction l generalizing m ev1 ev2 with
  | nil => rfl
  | cons e rest ih =>
    simp only [List.foldl_cons]
    cases hg : getBackendAddressPool c e.1 e.2 m with
    | mk pool evs =>
      cases pool with
      | none => exact ih _ _ _
      | some q => exact ih _ _ _

theorem synthesize_step_wellKeyed (c : appGwConfigBuilder)
    (l : List (backendIdentifier × serviceBackendPortPair))
    (m : GoMap Pool) (ev : List Event) (k : String) (hm : WellKeyed m) (hk : k ∈ mapKeys m) :
    WellKeyed (l.foldl (fun (acc : GoMap Pool × List Event) entry =>
        match getBackendAddressPool c entry.1 entry.2 acc.1 with
        | (some pool, evs) => (mapSet acc.1 pool.Name pool, acc.2 ++ evs)
        | (none, evs) => (acc.1, acc.2 ++ evs)) (m, ev)).1
    ∧ k ∈ mapKeys (l.foldl (fun (acc : GoMap Pool × List Event) entry =>
        match getBackendAddressPool c entry.1 entry.2 acc.1 with
        | (some pool, evs) => (mapSet acc.1 pool.Name pool, acc.2 ++ evs)
        | (none, evs) => (acc.1, acc.2 ++ evs)) (m, ev)).1 := by
  induction l generalizing m ev with
  | nil => exact ⟨hm, hk⟩
  | cons e rest ih =>
    simp only [List.foldl_cons]
    cases hg : getBackendAddressPool c e.1 e.2 m with
    | mk pool evs =>
      cases pool with
      | none => exact ih _ _ hm hk
      | some q =>
        exact ih _ _ (wellKeyed_mapSet m q hm) ((mem_mapKeys_mapSet m q.Name k q).2 (Or.inr hk))

theorem candidatePools_names (c : appGwConfigBuilder) (cbCtx : ConfigBuilderContext) :
    ((candidatePools c cbCtx).map (fun p => p.Name)).Nodup
    ∧ c.defaultBackendAddressPool.Name ∈ (candidatePools c cbCtx).map (fun p => p.Name) := by
  have hinit : WellKeyed [(c.defaultBackendAddressPool.Name, c.defaultBackendAddressPool)] := by
    refine ⟨by simp [mapKeys], ?_⟩
    intro e he
    simp only [List.mem_singleton] at he
    subst he
    rfl
  have h := synthesize_step_wellKeyed c (c.getBackendsAndSettingsMap cbCtx)
    [(c.defaultBackendAddressPool.Name, c.defaultBackendAddressPool)] c.recorder
    c.defaultBackendAddressPool.Name hinit (by simp [mapKeys])
  unfold candidatePools getBackendPoolMapValues synthesizePools
  dsimp only
  rw [map_name_mapValues _ h.1]
  exact ⟨h.1.1, h.2⟩

theorem count_filter_add (l : List Pool) (f : Pool → Bool) (p : Pool) :
    (l.filter f).count p + (l.filter (fun q => !f q)).count p = l.count p := by
  induction l with
  | nil => simp
  | cons q rest ih =>
    simp only [List.filter_cons]
    cases hf : f q with
    | true =>
      simp only [Bool.not_true, if_true, Bool.false_eq_true, if_false, List.count_cons]
      omega
    | false =>
      simp only [Bool.not_false, if_true, Bool.false_eq_true, if_false, List.count_cons]
      omega

end appgw

namespace appgw

/-! ## Claims on the merge/prune pipeline -/

/-- C5, at a concrete input, as the claim states it: the previously applied pool
`manual-pool` has no entry in the name-to-Target table, so its Target is matched by no entry
of the (non-empty) blacklist, and it is not the name of a newly managed pool; yet the stored
collection is the default pool alone.  A pool that no blacklist entry matches is classified
as managed and pruned from the previous collection. -/
theorem unmatched_existing_pool_is_dropped :
    existingPools (builderFixture (some [poolFixture "manual-pool"]))
        = [poolFixture "manual-pool"]
    ∧ getProhibitedTargetList ctxProhibitedHost = [⟨"www.prohibited.com", 80, none⟩]
    ∧ (getPoolToTargetMapping (builderFixture (some [poolFixture "manual-pool"]))
          ctxProhibitedHost).map (fun poolToTarget =>
            isTargetInList (targetOf poolToTarget "manual-pool")
              (getProhibitedTargetList ctxProhibitedHost)) = some false
    ∧ getNewManagedPools (builderFixture (some [poolFixture "manual-pool"]))
          (candidatePools (builderFixture (some [poolFixture "manual-pool"])) ctxProhibitedHost)
          ctxProhibitedHost = some [poolFixture "defaultaddresspool"]
    ∧ storedPools (BackendAddressPools (builderFixture (some [poolFixture "manual-pool"]))
          ctxProhibitedHost) = some [poolFixture "defaultaddresspool"]
    ∧ poolFixture "manual-pool" ∉ [poolFixture "defaultaddresspool"] := by
  refine ⟨by decide, by decide, by decide, by decide, by decide, by decide⟩

/-- C5, amended: a previously applied pool `P` that `getNewManagedPools`, applied to the
previous collection, does not return as managed, whose name is not the name of a newly
managed pool and is not borne by a later pool of the previous collection, is an element of
the collection stored by `BackendAddressPools`, unchanged. -/
theorem unmanaged_existing_pool_is_preserved (c : appGwConfigBuilder)
    (cbCtx : ConfigBuilderContext) (P : Pool) (before after managedOld newManaged : List Pool)
    (hex : c.appGwConfig.BackendAddressPools = some (before ++ P :: after))
    (hlast : ∀ q ∈ after, q.Name ≠ P.Name)
    (hold : getNewManagedPools c (before ++ P :: after) cbCtx = some managedOld)
    (hunmanaged : P ∉ managedOld)
    (hnew : getNewManagedPools c (candidatePools c cbCtx) cbCtx = some newManaged)
    (hfresh : P.Name ∉ newManaged.map (fun p => p.Name)) :
    ∃ stored, storedPools (BackendAddressPools c cbCtx) = some stored ∧ P ∈ stored := by
  have hexist : existingPools c = before ++ P :: after := by
    unfold existingPools
    rw [hex]
  rw [getNewManagedPools_eq] at hold hnew
  rw [storedPools_eq, hexist]
  cases htbl : classifierTable c cbCtx with
  | none => rw [htbl] at hold; cases hold
  | some tbl =>
    rw [htbl] at hold hnew
    simp only [Option.map_some', Option.some.injEq] at hold hnew
    refine ⟨_, rfl, ?_⟩
    rw [mem_goSort, mem_mergePools, lastNamed_append, hnew]
    have hnone : lastNamed newManaged P.Name = none :=
      (lastNamed_eq_none_iff newManaged P.Name).2 hfresh
    rw [hnone]
    simp only [Option.or, List.filter_append, List.filter_cons]
    have hP : classifiedManaged (getProhibitedTargetList cbCtx) (getManagedTargetList cbCtx) tbl
        P.Name = false := by
      cases hc : classifiedManaged (getProhibitedTargetList cbCtx) (getManagedTargetList cbCtx)
          tbl P.Name with
      | false => rfl
      | true =>
        exfalso
        apply hunmanaged
        rw [← hold, List.mem_filter]
        exact ⟨by simp, hc⟩
    simp only [hP, Bool.not_false, if_true]
    apply lastNamed_middle
    intro q hq
    exact hlast q (List.mem_filter.1 hq).1

/-- C5, amended, at a concrete input: the previously applied pool `pool-fox` is mapped to the
prohibited path `/fox`, so the classifier does not return it as managed, and it is found,
unchanged, in the stored collection. -/
theorem unmanaged_existing_pool_is_preserved_witness :
    (builderFixture (some poolsFixture)).appGwConfig.BackendAddressPools
        = some ([] ++ poolFixture "pool-fox" ::
            [poolFixture "manual-pool", poolFixture "pool-baz"])
    ∧ getNewManagedPools (builderFixture (some poolsFixture))
        ([] ++ poolFixture "pool-fox" :: [poolFixture "manual-pool", poolFixture "pool-baz"])
        ctxBoth = some [poolFixture "manual-pool", poolFixture "pool-baz"]
    ∧ storedPools (BackendAddressPools (builderFixture (some poolsFixture)) ctxBoth)
        = some [poolFixture "defaultaddresspool", poolFixture "pool-fox"]
    ∧ ∃ stored, storedPools (BackendAddressPools (builderFixture (some poolsFixture)) ctxBoth)
        = some stored ∧ poolFixture "pool-fox" ∈ stored :=
  ⟨by decide, by decide, by decide,
   unmanaged_existing_pool_is_preserved (builderFixture (some poolsFixture)) ctxBoth
     (poolFixture "pool-fox") [] [poolFixture "manual-pool", poolFixture "pool-baz"]
     [poolFixture "manual-pool", poolFixture "pool-baz"] [poolFixture "defaultaddresspool"]
     (by decide) (by decide) (by decide) (by decide) (by decide) (by decide)⟩

/-- C6, at a concrete input, as the claim states it: in a context that declares a managed
target and no prohibited target, with nothing applied before, the default pool is mapped to
no managed Target, is not classified as managed, and the stored collection is empty: it holds
no pool with the default pool's name. -/
theorem default_pool_absent_under_whitelist :
    storedPools (BackendAddressPools (builderFixture none) ctxManaged) = some []
    ∧ ¬ ∃ stored, storedPools (BackendAddressPools (builderFixture none) ctxManaged)
          = some stored
        ∧ ∃ p ∈ stored, p.Name = (builderFixture none).defaultBackendAddressPool.Name := by
  have h : storedPools (BackendAddressPools (builderFixture none) ctxManaged) = some [] := by
    decide
  refine ⟨h, ?_⟩
  rintro ⟨stored, hs, p, hp, _⟩
  rw [h] at hs
  injection hs with hs
  subst hs
  simp at hp

/-- C6, amended: for every context the candidate set of the pass contains a pool with the
default pool's name; when the context declares no prohibited and no managed targets, the
collection stored by `BackendAddressPools` contains a pool with the default pool's name; and
more generally it does so whenever `getNewManagedPools` returns a candidate with that name as
managed. -/
theorem default_pool_stored_when_managed (c : appGwConfigBuilder)
    (cbCtx : ConfigBuilderContext) :
    c.defaultBackendAddressPool.Name ∈ (candidatePools c cbCtx).map (fun p => p.Name)
    ∧ (getProhibitedTargetList cbCtx = [] ∧ getManagedTargetList cbCtx = [] →
        ∃ stored, storedPools (BackendAddressPools c cbCtx) = some stored
          ∧ ∃ p ∈ stored, p.Name = c.defaultBackendAddressPool.Name)
    ∧ (∀ newManaged, getNewManagedPools c (candidatePools c cbCtx) cbCtx = some newManaged →
        c.defaultBackendAddressPool.Name ∈ newManaged.map (fun p => p.Name) →
        ∃ stored, storedPools (BackendAddressPools c cbCtx) = some stored
          ∧ ∃ p ∈ stored, p.Name = c.defaultBackendAddressPool.Name) := by
  have hcand := (candidatePools_names c cbCtx).2
  have hgen : ∀ newManaged,
      getNewManagedPools c (candidatePools c cbCtx) cbCtx = some newManaged →
      c.defaultBackendAddressPool.Name ∈ newManaged.map (fun p => p.Name) →
      ∃ stored, storedPools (BackendAddressPools c cbCtx) = some stored
        ∧ ∃ p ∈ stored, p.Name = c.defaultBackendAddressPool.Name := by
    intro newManaged hnm hdef
    rw [getNewManagedPools_eq] at hnm
    rw [storedPools_eq]
    cases htbl : classifierTable c cbCtx with
    | none => rw [htbl] at hnm; cases hnm
    | some tbl =>
      rw [htbl] at hnm
      simp only [Option.map_some', Option.some.injEq] at hnm
      refine ⟨_, rfl, ?_⟩
      dsimp only
      rw [hnm]
      have hname : c.defaultBackendAddressPool.Name ∈
          (goSort ByBackendPoolNameLess (mergePools
            [(existingPools c).filter (fun p =>
                !classifiedManaged (getProhibitedTargetList cbCtx) (getManagedTargetList cbCtx)
                  tbl p.Name), newManaged])).map (fun p => p.Name) := by
        rw [((goSort_perm _).map _).mem_iff, mem_names_mergePools]
        exact Or.inr hdef
      obtain ⟨p, hp, hpn⟩ := List.mem_map.1 hname
      exact ⟨p, hp, hpn⟩
  refine ⟨hcand, ?_, hgen⟩
  rintro ⟨hbl, hwl⟩
  exact hgen _ (getNewManagedPools_greenfield c _ cbCtx hbl hwl) hcand

/-- C6, amended, at three contexts.  Under a managed target only, where the default pool is
not classified as managed, the candidate set still holds its name.  Without declared targets
the stored collection is the default pool.  Under the prohibited host `www.prohibited.com`
the default pool matches no blacklist entry, is returned as managed, and is stored. -/
theorem default_pool_stored_when_managed_witness :
    (builderFixture none).defaultBackendAddressPool.Name
        ∈ (candidatePools (builderFixture none) ctxManaged).map (fun p => p.Name)
    ∧ (∃ stored, storedPools (BackendAddressPools (builderFixture none) ctxGreenfield)
          = some stored
        ∧ ∃ p ∈ stored, p.Name = (builderFixture none).defaultBackendAddressPool.Name)
    ∧ getNewManagedPools (builderFixture none)
          (candidatePools (builderFixture none) ctxProhibitedHost) ctxProhibitedHost
        = some [poolFixture "defaultaddresspool"]
    ∧ storedPools (BackendAddressPools (builderFixture none) ctxProhibitedHost)
        = some [poolFixture "defaultaddresspool"]
    ∧ ∃ stored, storedPools (BackendAddressPools (builderFixture none) ctxProhibitedHost)
          = some stored
        ∧ ∃ p ∈ stored, p.Name = (builderFixture none).defaultBackendAddressPool.Name :=
  ⟨(default_pool_stored_when_managed (builderFixture none) ctxManaged).1,
   (default_pool_stored_when_managed (builderFixture none) ctxGreenfield).2.1
     ⟨by decide, by decide⟩,
   by decide, by decide,
   (default_pool_stored_when_managed (builderFixture none) ctxProhibitedHost).2.2
     [poolFixture "defaultaddresspool"] (by decide) (by decide)⟩

end appgw

namespace appgw

/-- C7: `getNewManagedPools` and `pruneManagedPools` partition a pool list.  Whenever the
classifier returns (`managed`), so does `pruneManagedPools` (`unmanaged`); both results are
sublists of the input, so they keep its order; every pool occurs in the two results together
exactly as often as in the input, and no pool is in both; `unmanaged` is exactly the pools
whose name is not the name of a managed pool; and under a non-empty blacklist it is exactly
the pools whose mapped Target equals some blacklist entry. -/
theorem classifier_and_prune_partition (c : appGwConfigBuilder)
    (cbCtx : ConfigBuilderContext) (pools managed : List Pool)
    (hm : getNewManagedPools c pools cbCtx = some managed) :
    ∃ unmanaged, pruneManagedPools c pools cbCtx = some unmanaged
      ∧ managed.Sublist pools ∧ unmanaged.Sublist pools
      ∧ (∀ p, managed.count p + unmanaged.count p = pools.count p)
      ∧ (∀ p, p ∈ managed → p ∉ unmanaged)
      ∧ unmanaged = pools.filter (fun p => decide (p.Name ∉ managed.map (fun q => q.Name)))
      ∧ (getProhibitedTargetList cbCtx ≠ [] →
          ∀ poolToTarget, getPoolToTargetMapping c cbCtx = some poolToTarget →
            unmanaged = pools.filter (fun p =>
              isTargetInList (targetOf poolToTarget p.Name) (getProhibitedTargetList cbCtx))) := by
  have hnames := pruneManagedPools_eq_filter_names c pools cbCtx
  have hprune := pruneManagedPools_eq c pools cbCtx
  have hm2 := hm
  rw [getNewManagedPools_eq] at hm2
  rw [hm] at hnames
  simp only [Option.map_some'] at hnames
  cases htbl : classifierTable c cbCtx with
  | none => rw [htbl] at hm2; cases hm2
  | some tbl =>
    rw [htbl] at hm2 hprune
    simp only [Option.map_some', Option.some.injEq] at hm2 hprune
    refine ⟨_, hprune, ?_, List.filter_sublist _, ?_, ?_, ?_, ?_⟩
    · rw [← hm2]
      exact List.filter_sublist _
    · intro p
      rw [← hm2]
      exact count_filter_add pools _ p
    · intro p hp hq
      rw [← hm2, List.mem_filter] at hp
      rw [List.mem_filter] at hq
      have h1 := hp.2
      have h2 := hq.2
      simp only at h1 h2
      rw [h1] at h2
      cases h2
    · rw [hprune] at hnames
      injection hnames
    · intro hbl tbl2 htbl2
      have hlen : ¬ (getProhibitedTargetList cbCtx).length = 0 := by
        rw [List.length_eq_zero]; exact hbl
      have hpos : 0 < (getProhibitedTargetList cbCtx).length := Nat.pos_of_ne_zero hlen
      have heq : tbl = tbl2 := by
        have : classifierTable c cbCtx = getPoolToTargetMapping c cbCtx := by
          unfold classifierTable
          rw [if_neg (fun h => hlen h.1)]
        rw [this, htbl2] at htbl
        injection htbl with htbl
        exact htbl.symm
      subst heq
      apply List.filter_congr
      intro p _
      simp [classifiedManaged, hlen, hpos]

/-- C7 at the context of the test of `getManagedProbes`: of three pools the one mapped to the
prohibited path `/fox` is unmanaged, the two others are managed. -/
theorem classifier_and_prune_partition_witness :
    getNewManagedPools (builderFixture none) poolsFixture ctxBoth
        = some [poolFixture "manual-pool", poolFixture "pool-baz"]
    ∧ pruneManagedPools (builderFixture none) poolsFixture ctxBoth
        = some [poolFixture "pool-fox"]
    ∧ ∃ unmanaged, pruneManagedPools (builderFixture none) poolsFixture ctxBoth = some unmanaged
        ∧ [poolFixture "manual-pool", poolFixture "pool-baz"].Sublist poolsFixture
        ∧ unmanaged.Sublist poolsFixture :=
  ⟨by decide, by decide,
   match classifier_and_prune_partition (builderFixture none) ctxBoth poolsFixture
      [poolFixture "manual-pool", poolFixture "pool-baz"] (by decide) with
   | ⟨unmanaged, h1, h2, h3, _⟩ => ⟨unmanaged, h1, h2, h3⟩⟩

/-- C8: in every list that holds the values of the table built by `mergePools` from
`existingUnmanaged` and `newManaged` (whatever the order in which the table is iterated), no
two pools share a name; the names are exactly the names of the two inputs; a pool whose name
occurs in `newManaged` is the last pool of `newManaged` with that name; and a pool whose name
does not occur there is the last pool of `existingUnmanaged` with that name. -/
theorem mergePools_dedup_new_wins (existingUnmanaged newManaged merged : List Pool)
    (hperm : merged.Perm (mergePools [existingUnmanaged, newManaged])) :
    (merged.map (fun p => p.Name)).Nodup
    ∧ (∀ k, k ∈ merged.map (fun p => p.Name) ↔
        k ∈ existingUnmanaged.map (fun p => p.Name) ∨ k ∈ newManaged.map (fun p => p.Name))
    ∧ (∀ p ∈ merged, p.Name ∈ newManaged.map (fun q => q.Name) →
        lastNamed newManaged p.Name = some p)
    ∧ (∀ p ∈ merged, p.Name ∉ newManaged.map (fun q => q.Name) →
        lastNamed existingUnmanaged p.Name = some p) := by
  refine ⟨?_, ?_, ?_, ?_⟩
  · exact ((hperm.map _).nodup_iff).2 (nodup_names_mergePools _ _)
  · intro k
    rw [(hperm.map _).mem_iff]
    exact mem_names_mergePools _ _ k
  · intro p hp hin
    have h := (mem_mergePools existingUnmanaged newManaged p).1 (hperm.mem_iff.1 hp)
    rw [lastNamed_append] at h
    cases hl : lastNamed newManaged p.Name with
    | none => exact absurd hin ((lastNamed_eq_none_iff newManaged p.Name).1 hl)
    | some q =>
      rw [hl] at h
      simpa using h
  · intro p hp hnin
    have h := (mem_mergePools existingUnmanaged newManaged p).1 (hperm.mem_iff.1 hp)
    rw [lastNamed_append, (lastNamed_eq_none_iff newManaged p.Name).2 hnin] at h
    simpa using h

/-- C8 at a concrete input: the name `pool-fox` occurs in both lists and is bound to the
newly managed pool, the one with an `Etag`. -/
theorem mergePools_dedup_new_wins_witness :
    mergePools [[poolFixture "pool-fox", poolFixture "manual-pool"],
        [{ poolFixture "pool-fox" with Etag := some "*" }]]
      = [{ poolFixture "pool-fox" with Etag := some "*" }, poolFixture "manual-pool"]
    ∧ ((mergePools [[poolFixture "pool-fox", poolFixture "manual-pool"],
        [{ poolFixture "pool-fox" with Etag := some "*" }]]).map (fun p => p.Name)).Nodup :=
  ⟨by decide,
   (mergePools_dedup_new_wins [poolFixture "pool-fox", poolFixture "manual-pool"]
      [{ poolFixture "pool-fox" with Etag := some "*" }] _ (List.Perm.refl _)).1⟩

end appgw

namespace appgw

theorem stored_sorted_lt (c : appGwConfigBuilder) (cbCtx : ConfigBuilderContext)
    (stored : List Pool) (h : storedPools (BackendAddressPools c cbCtx) = some stored) :
    stored.Pairwise (fun a b => a.Name < b.Name) := by
  rw [storedPools_eq] at h
  cases htbl : classifierTable c cbCtx with
  | none => rw [htbl] at h; cases h
  | some tbl =>
    rw [htbl] at h
    simp only [Option.map_some', Option.some.injEq] at h
    rw [← h]
    exact goSort_sorted_lt _ (nodup_names_mergePools _ _)

theorem getBackendAddressPoolLoop_congr (c c1 : appGwConfigBuilder)
    (hg : c1.generateAddressPoolName = c.generateAddressPoolName)
    (backendID : backendIdentifier) (pair : serviceBackendPortPair) (m : GoMap Pool)
    (subsets : List EndpointSubset) (recorded : List Event) :
    getBackendAddressPoolLoop c1 backendID pair m subsets recorded
      = getBackendAddressPoolLoop c backendID pair m subsets recorded := by
  induction subsets generalizing recorded with
  | nil => rfl
  | cons subset rest ih =>
    simp only [getBackendAddressPoolLoop, hg, ih]

theorem getBackendAddressPool_congr (c c1 : appGwConfigBuilder)
    (hg : c1.generateAddressPoolName = c.generateAddressPoolName)
    (he : c1.GetEndpointsByService = c.GetEndpointsByService)
    (backendID : backendIdentifier) (pair : serviceBackendPortPair) (m : GoMap Pool) :
    getBackendAddressPool c1 backendID pair m = getBackendAddressPool c backendID pair m := by
  unfold getBackendAddressPool
  rw [he]
  cases c.GetEndpointsByService backendID.serviceKey with
  | error e => rfl
  | ok endpoints => exact getBackendAddressPoolLoop_congr c c1 hg _ _ _ _ _

theorem candidatePools_congr (c c1 : appGwConfigBuilder) (cbCtx : ConfigBuilderContext)
    (hd : c1.defaultBackendAddressPool = c.defaultBackendAddressPool)
    (hg : c1.generateAddressPoolName = c.generateAddressPoolName)
    (hb : c1.getBackendsAndSettingsMap = c.getBackendsAndSettingsMap)
    (he : c1.GetEndpointsByService = c.GetEndpointsByService) :
    candidatePools c1 cbCtx = candidatePools c cbCtx := by
  unfold candidatePools synthesizePools
  dsimp only
  rw [hd, hb]
  have hf : (fun (acc : GoMap Pool × List Event)
        (entry : backendIdentifier × serviceBackendPortPair) =>
        match getBackendAddressPool c1 entry.1 entry.2 acc.1 with
        | (some pool, evs) => (mapSet acc.1 pool.Name pool, acc.2 ++ evs)
        | (none, evs) => (acc.1, acc.2 ++ evs))
      = (fun (acc : GoMap Pool × List Event)
        (entry : backendIdentifier × serviceBackendPortPair) =>
        match getBackendAddressPool c entry.1 entry.2 acc.1 with
        | (some pool, evs) => (mapSet acc.1 pool.Name pool, acc.2 ++ evs)
        | (none, evs) => (acc.1, acc.2 ++ evs)) := by
    funext acc entry
    rw [getBackendAddressPool_congr c c1 hg he]
  rw [hf, synthesize_step_fst c _ _ c1.recorder c.recorder]

theorem merge_again_mem (U N S : List Pool) (f : String → Bool)
    (hU : ∀ q ∈ U, f q.Name = false)
    (hSnd : (S.map (fun p => p.Name)).Nodup)
    (hS : ∀ p, p ∈ S ↔ lastNamed (U ++ N) p.Name = some p) (p : Pool) :
    lastNamed (S.filter (fun q => !f q.Name) ++ N) p.Name = some p
      ↔ lastNamed (U ++ N) p.Name = some p := by
  have hSU := hS p
  rw [lastNamed_append] at hSU
  rw [lastNamed_append, lastNamed_append]
  cases hN : lastNamed N p.Name with
  | some r => simp
  | none =>
    rw [hN] at hSU
    simp only [Option.or] at hSU ⊢
    constructor
    · intro h
      have hp := (lastNamed_eq_some _ _ _ h).1
      exact hSU.1 (List.mem_filter.1 hp).1
    · intro h
      have hpU := (lastNamed_eq_some _ _ _ h).1
      have hpS : p ∈ S := hSU.2 h
      have hpF : p ∈ S.filter (fun q => !f q.Name) := by
        rw [List.mem_filter]
        exact ⟨hpS, by simp [hU p hpU]⟩
      have hnd : ((S.filter (fun q => !f q.Name)).map (fun p => p.Name)).Nodup :=
        List.Nodup.sublist ((List.filter_sublist S).map _) hSnd
      exact lastNamed_of_nodup _ p hnd hpF

/-- C9: whenever the name-to-Target table is built (or no targets are declared, in which case
it is not needed), `BackendAddressPools` stores a collection, and that collection is in
ascending order of pool name and holds no two pools with the same name: the names ascend
strictly along it. -/
theorem stored_pools_sorted_and_unique (c : appGwConfigBuilder) (cbCtx : ConfigBuilderContext)
    (h : (getProhibitedTargetList cbCtx = [] ∧ getManagedTargetList cbCtx = [])
      ∨ (getPoolToTargetMapping c cbCtx).isSome = true) :
    ∃ stored, storedPools (BackendAddressPools c cbCtx) = some stored
      ∧ stored.Pairwise (fun a b => a.Name ≤ b.Name)
      ∧ (stored.map (fun p => p.Name)).Nodup
      ∧ stored.Pairwise (fun a b => a.Name < b.Name) := by
  have htbl := (classifierTable_eq_some_iff c cbCtx).2 h
  have hs : (storedPools (BackendAddressPools c cbCtx)).isSome = true := by
    rw [storedPools_eq]
    simpa using htbl
  obtain ⟨stored, hstored⟩ := Option.isSome_iff_exists.1 hs
  have hlt := stored_sorted_lt c cbCtx stored hstored
  refine ⟨stored, hstored, ?_, ?_, hlt⟩
  · exact List.Pairwise.imp (fun {a b} hab => le_of_lt hab) hlt
  · rw [List.Nodup, List.pairwise_map]
    exact List.Pairwise.imp (fun {a b} hab => ne_of_lt hab) hlt

/-- C9 at a concrete input: three previously applied pools, a prohibited and a managed
target; the stored collection is ordered by name. -/
theorem stored_pools_sorted_and_unique_witness :
    (getPoolToTargetMapping (builderFixture (some poolsFixture)) ctxManaged).isSome = true
    ∧ storedPools (BackendAddressPools (builderFixture (some poolsFixture)) ctxManaged)
        = some [poolFixture "manual-pool", poolFixture "pool-fox"]
    ∧ ∃ stored, storedPools (BackendAddressPools (builderFixture (some poolsFixture)) ctxManaged)
          = some stored
        ∧ stored.Pairwise (fun a b => a.Name ≤ b.Name) :=
  ⟨by decide, by decide,
   match stored_pools_sorted_and_unique (builderFixture (some poolsFixture)) ctxManaged
      (Or.inr (by decide)) with
   | ⟨stored, h1, h2, _⟩ => ⟨stored, h1, h2⟩⟩

/-- C10: the pipeline is idempotent.  If a call of `BackendAddressPools` returns, a second
call with the same context on the builder it leaves (same Kubernetes state, hence the same
candidates and the same name-to-Target table; the collection stored by the first call as the
previously applied one) returns as well and stores the same collection again. -/
theorem BackendAddressPools_idempotent (c c1 : appGwConfigBuilder)
    (cbCtx : ConfigBuilderContext) (e1 : Option String)
    (h1 : BackendAddressPools c cbCtx = some (c1, e1)) :
    ∃ c2 e2, BackendAddressPools c1 cbCtx = some (c2, e2)
      ∧ c2.appGwConfig = c1.appGwConfig
      ∧ storedPools (BackendAddressPools c1 cbCtx) = storedPools (BackendAddressPools c cbCtx) := by
  have hst1 := storedPools_eq c cbCtx
  have hdef := BackendAddressPools_eq c cbCtx
  rw [h1] at hdef
  rw [getNewManagedPools_eq, pruneManagedPools_eq] at hdef
  cases htbl : classifierTable c cbCtx with
  | none => rw [htbl] at hdef; cases hdef
  | some tbl =>
    rw [htbl] at hdef hst1
    simp only [Option.map_some', Option.some.injEq, Prod.mk.injEq] at hdef hst1
    obtain ⟨hc1, _⟩ := hdef
    have htbl1 : classifierTable c1 cbCtx = some tbl := by
      rw [← htbl, hc1]
      rfl
    have hcand : candidatePools c1 cbCtx = candidatePools c cbCtx := by
      apply candidatePools_congr <;> rw [hc1]
    have hex1 : existingPools c1 = goSort ByBackendPoolNameLess (mergePools
        [(existingPools c).filter (fun p =>
            !classifiedManaged (getProhibitedTargetList cbCtx) (getManagedTargetList cbCtx)
              tbl p.Name),
         (candidatePools c cbCtx).filter (fun p =>
            classifiedManaged (getProhibitedTargetList cbCtx) (getManagedTargetList cbCtx)
              tbl p.Name)]) := by
      rw [hc1]
      rfl
    have hst2 := storedPools_eq c1 cbCtx
    rw [htbl1, hcand] at hst2
    simp only [Option.map_some'] at hst2
    have hkey : storedPools (BackendAddressPools c1 cbCtx)
        = storedPools (BackendAddressPools c cbCtx) := by
      rw [hst2, hst1, ← hex1]
      congr 1
      apply sorted_lt_unique
      · exact goSort_sorted_lt _ (nodup_names_mergePools _ _)
      · rw [hex1]
        exact goSort_sorted_lt _ (nodup_names_mergePools _ _)
      · intro p
        rw [mem_goSort, mem_mergePools]
        have hSnd : ((existingPools c1).map (fun p => p.Name)).Nodup := by
          rw [hex1]
          exact ((goSort_perm _).map _).nodup_iff.2 (nodup_names_mergePools _ _)
        have hS : ∀ q, q ∈ existingPools c1 ↔
            lastNamed ((existingPools c).filter (fun p =>
                !classifiedManaged (getProhibitedTargetList cbCtx) (getManagedTargetList cbCtx)
                  tbl p.Name) ++
              (candidatePools c cbCtx).filter (fun p =>
                classifiedManaged (getProhibitedTargetList cbCtx) (getManagedTargetList cbCtx)
                  tbl p.Name)) q.Name = some q := by
          intro q
          rw [hex1, mem_goSort, mem_mergePools]
        rw [merge_again_mem _ _ (existingPools c1)
          (classifiedManaged (getProhibitedTargetList cbCtx) (getManagedTargetList cbCtx) tbl)
          ?_ hSnd hS p]
        · exact (hS p).symm
        · intro q hq
          have := (List.mem_filter.1 hq).2
          simpa using this
    have hdef2 := BackendAddressPools_eq c1 cbCtx
    rw [getNewManagedPools_eq, pruneManagedPools_eq, htbl1] at hdef2
    simp only [Option.map_some'] at hdef2
    refine ⟨_, _, hdef2, ?_, hkey⟩
    have hk := hkey
    rw [hdef2, h1] at hk
    simp only [storedPools] at hk
    cases hcfg : c1.appGwConfig with
    | mk pools1 probes1 =>
      rw [hcfg] at hk
      simp only at hk
      simp only [hk]

/-- C10 at a concrete input: the first call stores the default pool and the preserved
`pool-fox`; the second call, on that builder, stores the same two pools. -/
theorem BackendAddressPools_idempotent_witness :
    ∃ c1 e1, BackendAddressPools (builderFixture (some poolsFixture)) ctxBoth = some (c1, e1)
      ∧ storedPools (BackendAddressPools (builderFixture (some poolsFixture)) ctxBoth)
          = some [poolFixture "defaultaddresspool", poolFixture "pool-fox"]
      ∧ storedPools (BackendAddressPools c1 ctxBoth)
          = storedPools (BackendAddressPools (builderFixture (some poolsFixture)) ctxBoth) := by
  have hsome : (BackendAddressPools (builderFixture (some poolsFixture)) ctxBoth).isSome
      = true := by decide
  obtain ⟨⟨c1, e1⟩, h⟩ := Option.isSome_iff_exists.1 hsome
  obtain ⟨_, _, _, _, h3⟩ :=
    BackendAddressPools_idempotent (builderFixture (some poolsFixture)) c1 ctxBoth e1 h
  exact ⟨c1, e1, h, by decide, h3⟩

end appgw

namespace appgw

/-! ## Field-wise reading of the matching functions -/

theorem target_eq_iff (a b : Target) :
    a = b ↔ b.Host = a.Host ∧ b.Port = a.Port ∧
      (match b.Path, a.Path with
       | none, none => True
       | some x, some y => x = y
       | _, _ => False) := by
  obtain ⟨h1, p1, q1⟩ := a
  obtain ⟨h2, p2, q2⟩ := b
  cases q1 <;> cases q2 <;> simp [eq_comm]

theorem inProbeList_congr_port (probe : ApplicationGatewayProbe) (l1 l2 : List Target)
    (h : l1.map (fun t => (t.Host, t.Path)) = l2.map (fun t => (t.Host, t.Path))) :
    inProbeList probe l1 = inProbeList probe l2 := by
  induction l1 generalizing l2 with
  | nil =>
    cases l2 with
    | nil => rfl
    | cons t2 r2 => simp at h
  | cons t1 r1 ih =>
    cases l2 with
    | nil => simp at h
    | cons t2 r2 =>
      simp only [List.map_cons, List.cons.injEq, Prod.mk.injEq] at h
      obtain ⟨⟨hh, hp⟩, hr⟩ := h
      unfold inProbeList
      rw [hh, hp, ih r2 hr]

/-- C11: `isTargetInList` is true iff some entry of the list has the same Host, the same Port
and a Path that is absent exactly when the Target's Path is absent and has equal text
otherwise.  In particular a list of entries with absent Path never matches a Target with a
Path, and a list of entries with a Path never matches a Target with absent Path. -/
theorem isTargetInList_iff_fieldwise (t : Target) (l : List Target) :
    (isTargetInList t l = true ↔
      ∃ e ∈ l, e.Host = t.Host ∧ e.Port = t.Port ∧
        (match e.Path, t.Path with
         | none, none => True
         | some x, some y => x = y
         | _, _ => False))
    ∧ (∀ path : String,
        isTargetInList { t with Path := some path }
          (l.map (fun e => { e with Path := none })) = false)
    ∧ (∀ f : Target → String,
        isTargetInList { t with Path := none }
          (l.map (fun e => { e with Path := some (f e) })) = false) := by
  refine ⟨?_, ?_, ?_⟩
  · rw [isTargetInList_eq_true]
    constructor
    · intro h
      exact ⟨t, h, (target_eq_iff t t).1 rfl⟩
    · rintro ⟨e, he, h⟩
      have : t = e := (target_eq_iff t e).2 h
      rw [this]
      exact he
  · intro path
    cases h : isTargetInList { t with Path := some path }
        (l.map (fun e => { e with Path := none })) with
    | false => rfl
    | true =>
      rw [isTargetInList_eq_true] at h
      obtain ⟨e, _, he⟩ := List.mem_map.1 h
      have := congrArg Target.Path he
      simp at this
  · intro f
    cases h : isTargetInList { t with Path := none }
        (l.map (fun e => { e with Path := some (f e) })) with
    | false => rfl
    | true =>
      rw [isTargetInList_eq_true] at h
      obtain ⟨e, _, he⟩ := List.mem_map.1 h
      have := congrArg Target.Path he
      simp at this

/-- C12: for a probe with Host and Path present, `inProbeList` returns, and it is true iff
some entry has the Host of the probe and either an absent Path or a Path whose normal form is
the normal form of the probe's Path; the Port of the entries does not affect the result:
replacing the Port of every entry by any other value leaves it unchanged. -/
theorem inProbeList_iff_host_and_path (probe : ApplicationGatewayProbe) (l : List Target)
    (probeHost probePath : String)
    (hhost : probe.Host = some probeHost) (hpath : probe.Path = some probePath) :
    (∃ found, inProbeList probe l = some found)
    ∧ (inProbeList probe l = some true ↔
        ∃ t ∈ l, t.Host = probeHost ∧
          (t.Path = none ∨ ∃ tPath, t.Path = some tPath ∧
            normalizePath tPath = normalizePath probePath))
    ∧ (∀ f : Target → Int,
        inProbeList probe (l.map (fun t => { t with Port := f t })) = inProbeList probe l) := by
  refine ⟨?_, inProbeList_eq_true probe l probeHost probePath hhost hpath, ?_⟩
  · apply Option.isSome_iff_exists.1
    apply inProbeList_isSome
    · rw [hhost]; simp
    · rw [hpath]; simp
  · intro f
    apply inProbeList_congr_port
    simp [List.map_map, Function.comp]

/-- C12 on the lists of `brownfield_test.go`: the probe for `/foo` is not in the prohibited
list (`/fox`, `/bar`) and is in the managed list (`/foo`, `/bar`, `/baz`). -/
theorem inProbeList_iff_host_and_path_witness :
    (probeFixture "foo.baz" "/foo").Host = some "foo.baz"
    ∧ (probeFixture "foo.baz" "/foo").Path = some "/foo"
    ∧ inProbeList (probeFixture "foo.baz" "/foo") (getProhibitedTargetList ctxBoth) = some false
    ∧ inProbeList (probeFixture "foo.baz" "/foo") (getManagedTargetList ctxBoth)
        = some true := by
  have h1 := (inProbeList_iff_host_and_path (probeFixture "foo.baz" "/foo")
    (getManagedTargetList ctxBoth) "foo.baz" "/foo" rfl rfl).2.1
  refine ⟨rfl, rfl, ?_,
    h1.2 ⟨⟨"foo.baz", 443, some "/foo"⟩, by decide, rfl, Or.inr ⟨"/foo", rfl, rfl⟩⟩⟩
  have hl : getProhibitedTargetList ctxBoth
      = [⟨"foo.baz", 443, some "/fox"⟩, ⟨"foo.baz", 443, some "/bar"⟩] := by decide
  rw [hl]
  simp only [inProbeList, probeFixture, normalizePath_eq_TrimRight]
  decide

end appgw

namespace appgw

/-! ## `normalizePath` as a prefix -/

theorem cutset_contains (ch : Char) :
    ("*/" : String).data.contains ch = true ↔ ch = '*' ∨ ch = '/' := by
  have h : ("*/" : String).data = ['*', '/'] := rfl
  rw [h, List.contains_iff_exists_mem_beq]
  constructor
  · rintro ⟨a, ha, hb⟩
    have hab : ch = a := by simpa using hb
    rw [hab]
    rcases List.mem_cons.1 ha with e | e
    · exact Or.inl e
    · exact Or.inr (List.mem_singleton.1 e)
  · rintro (e | e)
    · exact ⟨_, List.mem_cons_self _ _, by rw [e]; simp⟩
    · exact ⟨_, List.mem_cons_of_mem _ (List.mem_singleton.2 rfl), by rw [e]; simp⟩

theorem rdropWhile_append_rtakeWhile {α : Type} (p : α → Bool) (l : List α) :
    l.rdropWhile p ++ l.rtakeWhile p = l := by
  unfold List.rdropWhile List.rtakeWhile
  rw [← List.reverse_append, List.takeWhile_append_dropWhile, List.reverse_reverse]

theorem TrimRight_data (p cutset : String) :
    (TrimRight p cutset).data = p.data.rdropWhile (fun ch => cutset.data.contains ch) := rfl

theorem TrimRight_idempotent (p cutset : String) :
    TrimRight (TrimRight p cutset) cutset = TrimRight p cutset := by
  unfold TrimRight
  simp only [List.rdropWhile_idempotent]

/-- C13: `normalizePath` is idempotent. -/
theorem normalizePath_idempotent (p : String) :
    normalizePath (normalizePath p) = normalizePath p := by
  rw [normalizePath_eq_TrimRight, normalizePath_eq_TrimRight, TrimRight_idempotent]

/-- C14: a path is its normal form followed by a suffix made of `*` and `/` only; the normal
form is empty or ends in another character; and it is the longest prefix of the path that
does not end in `*` or `/`.  The paths `/foo/*`, `/foo/**/*` and `/foo/` normalize to `/foo`,
and `*//*hello/**/*//` to `*//*hello`. -/
theorem normalizePath_longest_clean_prefix (p : String) :
    (∃ suffix : List Char, p.data = (normalizePath p).data ++ suffix
        ∧ ∀ ch ∈ suffix, ch = '*' ∨ ch = '/')
    ∧ (∀ ch, (normalizePath p).data.getLast? = some ch → ch ≠ '*' ∧ ch ≠ '/')
    ∧ (∀ q : List Char, q <+: p.data →
        (∀ ch, q.getLast? = some ch → ch ≠ '*' ∧ ch ≠ '/') →
          q.length ≤ (normalizePath p).data.length)
    ∧ normalizePath "/foo/*" = "/foo" ∧ normalizePath "/foo/**/*" = "/foo"
    ∧ normalizePath "/foo/" = "/foo"
    ∧ normalizePath "*//*hello/**/*//" = "*//*hello" := by
  have hsplit : p.data = (normalizePath p).data
      ++ p.data.rtakeWhile (fun ch => ("*/" : String).data.contains ch) := by
    rw [normalizePath_eq_TrimRight, TrimRight_data, rdropWhile_append_rtakeWhile]
  have hsuffix : ∀ ch ∈ p.data.rtakeWhile (fun ch => ("*/" : String).data.contains ch),
      ch = '*' ∨ ch = '/' := by
    intro ch hch
    exact (cutset_contains ch).1 (List.mem_rtakeWhile_imp hch)
  have hlast : ∀ ch, (normalizePath p).data.getLast? = some ch → ch ≠ '*' ∧ ch ≠ '/' := by
    intro ch hch
    rw [normalizePath_eq_TrimRight, TrimRight_data] at hch
    have hne : p.data.rdropWhile (fun ch => ("*/" : String).data.contains ch) ≠ [] := by
      intro he
      rw [he] at hch
      simp at hch
    have hnot := List.rdropWhile_last_not (fun ch => ("*/" : String).data.contains ch) p.data hne
    rw [List.getLast?_eq_getLast _ hne] at hch
    injection hch with hch
    rw [hch] at hnot
    have := (cutset_contains ch).not.1 hnot
    exact not_or.1 this
  refine ⟨⟨_, hsplit, hsuffix⟩, hlast, ?_, ?_, ?_, ?_, ?_⟩
  · intro q hq hclean
    have hn : (normalizePath p).data <+: p.data := ⟨_, hsplit.symm⟩
    rcases List.prefix_or_prefix_of_prefix hq hn with h | h
    · exact h.length_le
    · obtain ⟨r, hr⟩ := h
      cases r with
      | nil =>
        rw [List.append_nil] at hr
        rw [hr]
      | cons c rest =>
        exfalso
        have hq2 : (normalizePath p).data ++ (c :: rest) <+: (normalizePath p).data
            ++ p.data.rtakeWhile (fun ch => ("*/" : String).data.contains ch) := by
          rw [hr, ← hsplit]
          exact hq
        have hsub := (List.prefix_append_right_inj _).1 hq2
        have hne : (c :: rest) ≠ [] := List.cons_ne_nil _ _
        have hlastq : q.getLast? = some ((c :: rest).getLast hne) := by
          rw [← hr, List.getLast?_append, List.getLast?_eq_getLast _ hne]
          rfl
        have hmem : (c :: rest).getLast hne ∈
            p.data.rtakeWhile (fun ch => ("*/" : String).data.contains ch) :=
          hsub.subset (List.getLast_mem hne)
        have hbad := hsuffix _ hmem
        have hgood := hclean _ hlastq
        rcases hbad with e | e
        · exact hgood.1 e
        · exact hgood.2 e
  · rw [normalizePath_eq_TrimRight]; decide
  · rw [normalizePath_eq_TrimRight]; decide
  · rw [normalizePath_eq_TrimRight]; decide
  · rw [normalizePath_eq_TrimRight]; decide

/-! ## Target lists as concatenations -/

theorem foldl_append_singleton_map {α β : Type} (f : α → β) (l : List α) (init : List β) :
    l.foldl (fun acc x => acc ++ [f x]) init = init ++ l.map f := by
  induction l generalizing init with
  | nil => simp
  | cons x xs ih => simp [ih]

theorem appendSpecTargets_eq (tl : List Target) (spec : AzureIngressTargetSpec) :
    appendSpecTargets tl spec
      = tl ++ (if spec.Paths.length < 1 then [(⟨spec.Hostname, spec.Port, none⟩ : Target)]
          else spec.Paths.map (fun path => ⟨spec.Hostname, spec.Port, some path⟩)) := by
  unfold appendSpecTargets
  simp only [foldl_append_singleton_map]
  by_cases h : spec.Paths.length < 1
  · have : spec.Paths = [] := List.length_eq_zero.1 (by omega)
    simp [this]
  · simp [h]

theorem foldl_appendSpecTargets {α : Type} (spec : α → AzureIngressTargetSpec) (l : List α)
    (init : List Target) :
    l.foldl (fun tl x => appendSpecTargets tl (spec x)) init
      = init ++ l.flatMap (fun x =>
          if (spec x).Paths.length < 1 then [(⟨(spec x).Hostname, (spec x).Port, none⟩ : Target)]
          else (spec x).Paths.map (fun path => ⟨(spec x).Hostname, (spec x).Port, some path⟩)) := by
  induction l generalizing init with
  | nil => simp
  | cons x xs ih =>
    simp only [List.foldl_cons, List.flatMap_cons]
    rw [ih, appendSpecTargets_eq, List.append_assoc]

theorem length_flatMap_expand {α : Type} (spec : α → AzureIngressTargetSpec) (l : List α) :
    (l.flatMap (fun x =>
        if (spec x).Paths.length < 1 then [(⟨(spec x).Hostname, (spec x).Port, none⟩ : Target)]
        else (spec x).Paths.map (fun path =>
          ⟨(spec x).Hostname, (spec x).Port, some path⟩))).length
      = (l.map (fun x => max 1 (spec x).Paths.length)).sum := by
  induction l with
  | nil => simp
  | cons x xs ih =>
    simp only [List.flatMap_cons, List.length_append, List.map_cons, List.sum_cons, ih]
    congr 1
    by_cases h : (spec x).Paths.length < 1
    · rw [if_pos h]
      simp only [List.length_singleton]
      omega
    · rw [if_neg h]
      simp only [List.length_map]
      omega

/-- C15: `getManagedTargetList` and `getProhibitedTargetList` return the concatenation, in
spec order, of the expansion of each spec: one Target per declared path, in path order, or a
single Target with absent Path when no path is declared.  The length of the result is the sum
over the specs of `max 1 (number of paths)`; the managed target of `brownfield_test.go` yields
its three Targets and the prohibited one its two. -/
theorem target_lists_are_expansions (cbCtx : ConfigBuilderContext) :
    getManagedTargetList cbCtx
        = cbCtx.ManagedTargets.flatMap (fun mt =>
            if mt.Spec.Paths.length < 1 then [(⟨mt.Spec.Hostname, mt.Spec.Port, none⟩ : Target)]
            else mt.Spec.Paths.map (fun path => ⟨mt.Spec.Hostname, mt.Spec.Port, some path⟩))
    ∧ getProhibitedTargetList cbCtx
        = cbCtx.ProhibitedTargets.flatMap (fun pt =>
            if pt.Spec.Paths.length < 1 then [(⟨pt.Spec.Hostname, pt.Spec.Port, none⟩ : Target)]
            else pt.Spec.Paths.map (fun path => ⟨pt.Spec.Hostname, pt.Spec.Port, some path⟩))
    ∧ (getManagedTargetList cbCtx).length
        = (cbCtx.ManagedTargets.map (fun mt => max 1 mt.Spec.Paths.length)).sum
    ∧ (getProhibitedTargetList cbCtx).length
        = (cbCtx.ProhibitedTargets.map (fun pt => max 1 pt.Spec.Paths.length)).sum
    ∧ getManagedTargetList ctxBoth
        = [⟨"foo.baz", 443, some "/foo"⟩, ⟨"foo.baz", 443, some "/bar"⟩,
           ⟨"foo.baz", 443, some "/baz"⟩]
    ∧ getProhibitedTargetList ctxBoth
        = [⟨"foo.baz", 443, some "/fox"⟩, ⟨"foo.baz", 443, some "/bar"⟩]
    ∧ getProhibitedTargetList ctxProhibitedHost = [⟨"www.prohibited.com", 80, none⟩] := by
  have hm : getManagedTargetList cbCtx
      = cbCtx.ManagedTargets.flatMap (fun mt =>
          if mt.Spec.Paths.length < 1 then [(⟨mt.Spec.Hostname, mt.Spec.Port, none⟩ : Target)]
          else mt.Spec.Paths.map (fun path => ⟨mt.Spec.Hostname, mt.Spec.Port, some path⟩)) := by
    unfold getManagedTargetList
    rw [foldl_appendSpecTargets (fun mt : AzureIngressManagedTarget => mt.Spec)]
    simp
  have hp : getProhibitedTargetList cbCtx
      = cbCtx.ProhibitedTargets.flatMap (fun pt =>
          if pt.Spec.Paths.length < 1 then [(⟨pt.Spec.Hostname, pt.Spec.Port, none⟩ : Target)]
          else pt.Spec.Paths.map (fun path => ⟨pt.Spec.Hostname, pt.Spec.Port, some path⟩)) := by
    unfold getProhibitedTargetList
    rw [foldl_appendSpecTargets (fun pt : AzureIngressProhibitedTarget => pt.Spec)]
    simp
  refine ⟨hm, hp, ?_, ?_, by decide, by decide, by decide⟩
  · rw [hm]
    exact length_flatMap_expand (fun mt : AzureIngressManagedTarget => mt.Spec) _
  · rw [hp]
    exact length_flatMap_expand (fun pt : AzureIngressProhibitedTarget => pt.Spec) _

end appgw

namespace appgw

/-! ## Sequences of assignments to a table -/

theorem applyWrites_append (tbl : GoMap Target) (a b : List (String × Target)) :
    applyWrites tbl (a ++ b) = applyWrites (applyWrites tbl a) b := by
  simp [applyWrites, List.foldl_append]

theorem foldlM_eq_collectWrites {α : Type} (f : α → Option (List (String × Target)))
    (step : GoMap Target → α → Option (GoMap Target))
    (hstep : ∀ tbl x, step tbl x = (f x).map (applyWrites tbl))
    (xs : List α) (tbl0 : GoMap Target) :
    xs.foldlM step tbl0 = (collectWrites f xs).map (applyWrites tbl0) := by
  induction xs generalizing tbl0 with
  | nil => simp [collectWrites, applyWrites]
  | cons x rest ih =>
    rw [List.foldlM_cons, hstep]
    simp only [collectWrites]
    cases hx : f x with
    | none => rfl
    | some ws =>
      simp only [Option.map_some', Option.some_bind, Option.bind_eq_bind]
      rw [ih]
      cases hr : collectWrites f rest with
      | none => rfl
      | some more => simp [applyWrites_append]

theorem collectWrites_append {α : Type} (f : α → Option (List (String × Target)))
    (a b : List α) :
    collectWrites f (a ++ b)
      = match collectWrites f a, collectWrites f b with
        | some wa, some wb => some (wa ++ wb)
        | _, _ => none := by
  induction a with
  | nil =>
    simp only [List.nil_append, collectWrites]
    cases collectWrites f b <;> simp
  | cons x rest ih =>
    have hcons : collectWrites f (x :: rest ++ b) =
        match f x, collectWrites f (rest ++ b) with
        | some ws, some more => some (ws ++ more)
        | _, _ => none := rfl
    rw [hcons, ih]
    simp only [collectWrites]
    cases f x <;> cases collectWrites f rest <;> cases collectWrites f b <;> simp

theorem mem_collectWrites {α : Type} (f : α → Option (List (String × Target)))
    (xs : List α) (ws : List (String × Target)) (h : collectWrites f xs = some ws)
    (w : String × Target) (hw : w ∈ ws) : ∃ x ∈ xs, ∃ wx, f x = some wx ∧ w ∈ wx := by
  induction xs generalizing ws with
  | nil =>
    simp only [collectWrites, Option.some.injEq] at h
    subst h
    simp at hw
  | cons x rest ih =>
    simp only [collectWrites] at h
    cases hx : f x with
    | none => rw [hx] at h; cases h
    | some wx =>
      cases hr : collectWrites f rest with
      | none => rw [hx, hr] at h; cases h
      | some more =>
        rw [hx, hr] at h
        simp only [Option.some.injEq] at h
        subst h
        rcases List.mem_append.1 hw with h1 | h1
        · exact ⟨x, List.mem_cons_self _ _, wx, hx, h1⟩
        · obtain ⟨y, hy, wy, hfy, hwy⟩ := ih more hr h1
          exact ⟨y, List.mem_cons_of_mem _ hy, wy, hfy, hwy⟩

theorem mapGet_applyWrites (ws : List (String × Target)) (tbl : GoMap Target) (k : String) :
    mapGet (applyWrites tbl ws) k = (lastWrite ws k).or (mapGet tbl k) := by
  induction ws generalizing tbl with
  | nil => simp [applyWrites, lastWrite]
  | cons w rest ih =>
    have hcons : applyWrites tbl (w :: rest) = applyWrites (mapSet tbl w.1 w.2) rest := rfl
    rw [hcons, ih, mapGet_mapSet]
    simp only [lastWrite]
    cases hl : lastWrite rest k with
    | some t => simp
    | none =>
      by_cases hk : w.1 = k
      · simp [hk]
      · simp [hk]

theorem nodup_mapKeys_applyWrites (ws : List (String × Target)) (tbl : GoMap Target)
    (h : (mapKeys tbl).Nodup) : (mapKeys (applyWrites tbl ws)).Nodup := by
  induction ws generalizing tbl with
  | nil => exact h
  | cons w rest ih => exact ih _ (nodup_mapKeys_mapSet tbl w.1 w.2 h)

theorem lastWrite_eq_none_iff (ws : List (String × Target)) (k : String) :
    lastWrite ws k = none ↔ k ∉ ws.map Prod.fst := by
  induction ws with
  | nil => simp [lastWrite]
  | cons w rest ih =>
    simp only [lastWrite, List.map_cons, List.mem_cons, not_or]
    cases hl : lastWrite rest k with
    | some t =>
      have hin : ¬ (k ∉ rest.map Prod.fst) := fun hn => by
        rw [ih.2 hn] at hl; cases hl
      constructor
      · intro h; cases h
      · intro h; exact absurd h.2 hin
    | none =>
      have hr := ih.1 hl
      by_cases hk : w.1 = k
      · simp [hk]
      · simp only [if_neg hk, true_iff]
        exact ⟨fun e => hk e.symm, hr⟩

theorem lastWrite_append (a b : List (String × Target)) (k : String) :
    lastWrite (a ++ b) k = (lastWrite b k).or (lastWrite a k) := by
  induction a with
  | nil => simp [lastWrite]
  | cons w rest ih =>
    have hcons : lastWrite (w :: rest ++ b) k =
        match lastWrite (rest ++ b) k with
        | some t => some t
        | none => if w.1 = k then some w.2 else none := rfl
    rw [hcons, ih]
    simp only [lastWrite]
    cases hb : lastWrite b k with
    | some t => simp
    | none => simp

theorem lastWrite_eq_some_iff (ws : List (String × Target)) (k : String) (t : Target) :
    lastWrite ws k = some t ↔
      ∃ before after, ws = before ++ (k, t) :: after ∧ k ∉ after.map Prod.fst := by
  induction ws with
  | nil => simp [lastWrite]
  | cons w rest ih =>
    simp only [lastWrite]
    cases hl : lastWrite rest k with
    | some t1 =>
      simp only [Option.some.injEq]
      constructor
      · intro h
        subst h
        obtain ⟨before, after, hr, hk⟩ := ih.1 hl
        exact ⟨w :: before, after, by rw [hr]; rfl, hk⟩
      · rintro ⟨before, after, hr, hk⟩
        cases before with
        | nil =>
          simp only [List.nil_append, List.cons.injEq] at hr
          rw [← hr.2] at hk
          rw [(lastWrite_eq_none_iff rest k).2 hk] at hl
          cases hl
        | cons b bs =>
          simp only [List.cons_append, List.cons.injEq] at hr
          have := ih.2 ⟨bs, after, hr.2, hk⟩
          rw [hl] at this
          injection this
    | none =>
      have hnone := (lastWrite_eq_none_iff rest k).1 hl
      by_cases hk : w.1 = k
      · rw [if_pos hk]
        simp only [Option.some.injEq]
        constructor
        · intro h
          exact ⟨[], rest, by rw [← h, ← hk]; rfl, hnone⟩
        · rintro ⟨before, after, hr, hka⟩
          cases before with
          | nil =>
            simp only [List.nil_append, List.cons.injEq] at hr
            rw [hr.1]
          | cons b bs =>
            simp only [List.cons_append, List.cons.injEq] at hr
            exfalso
            apply hnone
            rw [hr.2]
            simp
      · rw [if_neg hk]
        constructor
        · intro h; cases h
        · rintro ⟨before, after, hr, hka⟩
          exfalso
          cases before with
          | nil =>
            simp only [List.nil_append, List.cons.injEq] at hr
            exact hk (by rw [hr.1])
          | cons b bs =>
            simp only [List.cons_append, List.cons.injEq] at hr
            apply hnone
            rw [hr.2]
            simp

theorem applyWrites_nil_facts (ws : List (String × Target)) :
    (mapKeys (applyWrites [] ws)).Nodup
    ∧ (∀ k, k ∈ mapKeys (applyWrites [] ws) ↔ k ∈ ws.map Prod.fst)
    ∧ (∀ k t, mapGet (applyWrites [] ws) k = some t ↔
        ∃ before after, ws = before ++ (k, t) :: after ∧ k ∉ after.map Prod.fst) := by
  have hget : ∀ k, mapGet (applyWrites [] ws) k = lastWrite ws k := by
    intro k
    rw [mapGet_applyWrites]
    cases lastWrite ws k <;> simp [mapGet]
  refine ⟨nodup_mapKeys_applyWrites ws [] (by simp [mapKeys]), ?_, ?_⟩
  · intro k
    rw [← mapGet_isSome_iff, hget]
    have hn := lastWrite_eq_none_iff ws k
    cases hl : lastWrite ws k with
    | none =>
      rw [hl] at hn
      have := hn.1 rfl
      simp [this]
    | some t =>
      rw [hl] at hn
      have : ¬ (k ∉ ws.map Prod.fst) := fun h => by
        have := hn.2 h
        cases this
      simp only [Option.isSome_some, true_iff]
      exact not_not.1 this
  · intro k t
    rw [hget]
    exact lastWrite_eq_some_iff ws k t

end appgw

namespace appgw

/-! ## The two mappers make the assignments of the spec -/

theorem mapPathRule_eq (host : Option String) (port : Int) (tbl : GoMap Target)
    (pathRule : ApplicationGatewayPathRule) :
    mapPathRule host port tbl pathRule
      = (specPathRuleWrites (fun pr => pr.BackendAddressPool) host port pathRule).map
          (applyWrites tbl) := by
  unfold mapPathRule specPathRuleWrites
  cases pathRule.Paths with
  | none => rfl
  | some paths =>
    apply foldlM_eq_collectWrites
    intro tbl1 path
    cases host <;> cases derefID pathRule.BackendAddressPool <;> rfl

theorem mapPathRuleSetting_eq (host : Option String) (port : Int) (tbl : GoMap Target)
    (pathRule : ApplicationGatewayPathRule) :
    mapPathRuleSetting host port tbl pathRule
      = (specPathRuleWrites (fun pr => pr.BackendHTTPSettings) host port pathRule).map
          (applyWrites tbl) := by
  unfold mapPathRuleSetting specPathRuleWrites
  cases pathRule.Paths with
  | none => rfl
  | some paths =>
    apply foldlM_eq_collectWrites
    intro tbl1 path
    cases host <;> cases derefID pathRule.BackendHTTPSettings <;> rfl

theorem mapRule_eq (listeners : GoMap ApplicationGatewayHTTPListener)
    (pathMap : GoMap ApplicationGatewayURLPathMap) (tbl : GoMap Target)
    (rule : ApplicationGatewayRequestRoutingRule) :
    mapRule listeners pathMap tbl rule
      = (specRuleWrites (fun r => r.BackendAddressPool) (fun pr => pr.BackendAddressPool)
          listeners pathMap rule).map (applyWrites tbl) := by
  unfold mapRule specRuleWrites ruleListener listenerPort
  cases derefID rule.HTTPListener with
  | none => rfl
  | some listenerID =>
    dsimp only
    cases mapGet listeners (GetLastChunkOfSlashed listenerID) with
    | none => rfl
    | some listener =>
      dsimp only
      cases rule.URLPathMap with
      | none =>
        dsimp only
        cases listener.HostName <;> cases derefID rule.BackendAddressPool <;> rfl
      | some pathMapRef =>
        dsimp only
        cases pathMapRef.ID with
        | none => rfl
        | some pathMapID =>
          dsimp only
          cases (mapGet pathMap (GetLastChunkOfSlashed pathMapID)).bind
              (fun pm => pm.PathRules) with
          | none => rfl
          | some pathRules =>
            dsimp only
            apply foldlM_eq_collectWrites
            intro tbl1 pathRule
            exact mapPathRule_eq _ _ _ _

theorem mapRuleSetting_eq (listeners : GoMap ApplicationGatewayHTTPListener)
    (pathMap : GoMap ApplicationGatewayURLPathMap) (tbl : GoMap Target)
    (rule : ApplicationGatewayRequestRoutingRule) :
    mapRuleSetting listeners pathMap tbl rule
      = (specRuleWrites (fun r => r.BackendHTTPSettings) (fun pr => pr.BackendHTTPSettings)
          listeners pathMap rule).map (applyWrites tbl) := by
  unfold mapRuleSetting specRuleWrites ruleListener listenerPort
  cases derefID rule.HTTPListener with
  | none => rfl
  | some listenerID =>
    dsimp only
    cases mapGet listeners (GetLastChunkOfSlashed listenerID) with
    | none => rfl
    | some listener =>
      dsimp only
      cases rule.URLPathMap with
      | none =>
        dsimp only
        cases listener.HostName <;> cases derefID rule.BackendHTTPSettings <;> rfl
      | some pathMapRef =>
        dsimp only
        cases pathMapRef.ID with
        | none => rfl
        | some pathMapID =>
          dsimp only
          cases (mapGet pathMap (GetLastChunkOfSlashed pathMapID)).bind
              (fun pm => pm.PathRules) with
          | none => rfl
          | some pathRules =>
            dsimp only
            apply foldlM_eq_collectWrites
            intro tbl1 pathRule
            exact mapPathRuleSetting_eq _ _ _ _

theorem GetSettingToTargetMapping_eq (rr : List ApplicationGatewayRequestRoutingRule)
    (listeners : GoMap ApplicationGatewayHTTPListener)
    (pathMap : GoMap ApplicationGatewayURLPathMap) :
    GetSettingToTargetMapping rr listeners pathMap
      = (specTargetWrites (fun r => r.BackendHTTPSettings) (fun pr => pr.BackendHTTPSettings)
          listeners pathMap rr).map (applyWrites []) := by
  unfold GetSettingToTargetMapping specTargetWrites
  exact foldlM_eq_collectWrites _ _ (fun tbl rule => mapRuleSetting_eq _ _ tbl rule) rr []

theorem getPoolToTargetMapping_eq (c : appGwConfigBuilder) (cbCtx : ConfigBuilderContext) :
    getPoolToTargetMapping c cbCtx
      = (indexListeners (c.getListeners cbCtx)).bind (fun listeners =>
          (indexPathMaps (c.getRules cbCtx).2).bind (fun pathMap =>
            (specTargetWrites (fun r => r.BackendAddressPool) (fun pr => pr.BackendAddressPool)
              listeners pathMap (c.getRules cbCtx).1).map (applyWrites []))) := by
  unfold getPoolToTargetMapping specTargetWrites
  cases indexListeners (c.getListeners cbCtx) with
  | none => rfl
  | some listeners =>
    cases indexPathMaps (c.getRules cbCtx).2 with
    | none => rfl
    | some pathMap =>
      exact foldlM_eq_collectWrites _ _ (fun tbl rule => mapRule_eq _ _ tbl rule) _ []

end appgw

namespace appgw

/-! ## Where an assignment comes from -/

theorem specPathRuleWrites_mem (pathRuleRef : ApplicationGatewayPathRule → Option SubResource)
    (host : Option String) (port : Int) (pathRule : ApplicationGatewayPathRule)
    (ws : List (String × Target)) (h : specPathRuleWrites pathRuleRef host port pathRule = some ws)
    (w : String × Target) (hw : w ∈ ws) :
    host = some w.2.Host ∧ w.2.Port = port ∧ w.2.Path ≠ none := by
  unfold specPathRuleWrites at h
  cases hp : pathRule.Paths with
  | none => rw [hp] at h; cases h
  | some paths =>
    rw [hp] at h
    dsimp only at h
    obtain ⟨path, _, wx, hfx, hwx⟩ := mem_collectWrites _ paths ws h w hw
    cases hh : host with
    | none => rw [hh] at hfx; cases hfx
    | some hname =>
      cases hd : derefID (pathRuleRef pathRule) with
      | none => rw [hh, hd] at hfx; cases hfx
      | some resourceID =>
        rw [hh, hd] at hfx
        simp only [Option.some.injEq] at hfx
        rw [← hfx, List.mem_singleton] at hwx
        subst hwx
        simp

theorem specRuleWrites_mem (ruleRef : ApplicationGatewayRequestRoutingRule → Option SubResource)
    (pathRuleRef : ApplicationGatewayPathRule → Option SubResource)
    (listeners : GoMap ApplicationGatewayHTTPListener)
    (pathMap : GoMap ApplicationGatewayURLPathMap)
    (rule : ApplicationGatewayRequestRoutingRule) (ws : List (String × Target))
    (h : specRuleWrites ruleRef pathRuleRef listeners pathMap rule = some ws)
    (w : String × Target) (hw : w ∈ ws) :
    ∃ listener, ruleListener listeners rule = some listener
      ∧ w.2.Port = (if listener.Protocol = HTTPS then 443 else 80)
      ∧ listener.HostName = some w.2.Host
      ∧ (rule.URLPathMap = none → w.2.Path = none)
      ∧ (rule.URLPathMap ≠ none → w.2.Path ≠ none) := by
  unfold specRuleWrites at h
  cases hl : ruleListener listeners rule with
  | none => rw [hl] at h; cases h
  | some listener =>
    rw [hl] at h
    dsimp only at h
    refine ⟨listener, rfl, ?_⟩
    cases hu : rule.URLPathMap with
    | none =>
      rw [hu] at h
      dsimp only at h
      cases hh : listener.HostName with
      | none => rw [hh] at h; cases h
      | some hname =>
        cases hd : derefID (ruleRef rule) with
        | none => rw [hh, hd] at h; cases h
        | some resourceID =>
          rw [hh, hd] at h
          simp only [Option.some.injEq] at h
          rw [← h, List.mem_singleton] at hw
          subst hw
          simp [listenerPort]
    | some pathMapRef =>
      rw [hu] at h
      dsimp only at h
      cases hid : pathMapRef.ID with
      | none => rw [hid] at h; cases h
      | some pathMapID =>
        rw [hid] at h
        dsimp only at h
        cases hpm : (mapGet pathMap (GetLastChunkOfSlashed pathMapID)).bind
            (fun pm => pm.PathRules) with
        | none => rw [hpm] at h; cases h
        | some pathRules =>
          rw [hpm] at h
          dsimp only at h
          obtain ⟨pathRule, _, wx, hfx, hwx⟩ := mem_collectWrites _ pathRules ws h w hw
          have := specPathRuleWrites_mem pathRuleRef _ _ pathRule wx hfx w hwx
          refine ⟨?_, this.1, ?_, ?_⟩
          · rw [this.2.1]; rfl
          · intro hc; cases hc
          · intro _; exact this.2.2

theorem specRuleWrites_plain (ruleRef : ApplicationGatewayRequestRoutingRule → Option SubResource)
    (pathRuleRef : ApplicationGatewayPathRule → Option SubResource)
    (listeners : GoMap ApplicationGatewayHTTPListener)
    (pathMap : GoMap ApplicationGatewayURLPathMap)
    (rule : ApplicationGatewayRequestRoutingRule) (ws : List (String × Target))
    (listener : ApplicationGatewayHTTPListener) (resourceID : String)
    (h : specRuleWrites ruleRef pathRuleRef listeners pathMap rule = some ws)
    (hu : rule.URLPathMap = none) (hl : ruleListener listeners rule = some listener)
    (hd : derefID (ruleRef rule) = some resourceID) :
    ∃ hname, listener.HostName = some hname
      ∧ ws = [(GetLastChunkOfSlashed resourceID,
          (⟨hname, if listener.Protocol = HTTPS then 443 else 80, none⟩ : Target))] := by
  unfold specRuleWrites at h
  rw [hl] at h
  dsimp only at h
  rw [hu] at h
  dsimp only at h
  cases hh : listener.HostName with
  | none => rw [hh] at h; cases h
  | some hname =>
    rw [hh, hd] at h
    simp only [Option.some.injEq] at h
    exact ⟨hname, rfl, h.symm⟩

theorem table_entries_follow_listener
    (ruleRef : ApplicationGatewayRequestRoutingRule → Option SubResource)
    (pathRuleRef : ApplicationGatewayPathRule → Option SubResource)
    (listeners : GoMap ApplicationGatewayHTTPListener)
    (pathMap : GoMap ApplicationGatewayURLPathMap)
    (rr : List ApplicationGatewayRequestRoutingRule) (ws : List (String × Target))
    (h : specTargetWrites ruleRef pathRuleRef listeners pathMap rr = some ws)
    (k : String) (t : Target) (hk : mapGet (applyWrites [] ws) k = some t) :
    (t.Port = 443 ∨ t.Port = 80)
    ∧ ∃ rule ∈ rr, ∃ listener, ruleListener listeners rule = some listener
        ∧ t.Port = (if listener.Protocol = HTTPS then 443 else 80)
        ∧ listener.HostName = some t.Host
        ∧ (rule.URLPathMap = none → t.Path = none)
        ∧ (rule.URLPathMap ≠ none → t.Path ≠ none) := by
  obtain ⟨before, after, hws, _⟩ := ((applyWrites_nil_facts ws).2.2 k t).1 hk
  have hmem : (k, t) ∈ ws := by rw [hws]; simp
  obtain ⟨rule, hrule, wx, hfx, hwx⟩ := mem_collectWrites _ rr ws h (k, t) hmem
  obtain ⟨listener, hl, hport, hhost, hnone, hsome⟩ :=
    specRuleWrites_mem ruleRef pathRuleRef listeners pathMap rule wx hfx (k, t) hwx
  refine ⟨?_, rule, hrule, listener, hl, hport, hhost, hnone, hsome⟩
  simp only at hport
  rw [hport]
  by_cases hp : listener.Protocol = HTTPS
  · simp [hp]
  · simp [hp]

theorem plain_rule_written_last
    (ruleRef : ApplicationGatewayRequestRoutingRule → Option SubResource)
    (pathRuleRef : ApplicationGatewayPathRule → Option SubResource)
    (listeners : GoMap ApplicationGatewayHTTPListener)
    (pathMap : GoMap ApplicationGatewayURLPathMap)
    (before after : List ApplicationGatewayRequestRoutingRule)
    (rule : ApplicationGatewayRequestRoutingRule) (ws : List (String × Target))
    (listener : ApplicationGatewayHTTPListener) (resourceID : String)
    (h : specTargetWrites ruleRef pathRuleRef listeners pathMap (before ++ rule :: after)
      = some ws)
    (hu : rule.URLPathMap = none) (hl : ruleListener listeners rule = some listener)
    (hd : derefID (ruleRef rule) = some resourceID)
    (hafter : ∀ wa, specTargetWrites ruleRef pathRuleRef listeners pathMap after = some wa →
      GetLastChunkOfSlashed resourceID ∉ wa.map Prod.fst) :
    ∃ hname, listener.HostName = some hname
      ∧ mapGet (applyWrites [] ws) (GetLastChunkOfSlashed resourceID)
          = some ⟨hname, if listener.Protocol = HTTPS then 443 else 80, none⟩ := by
  unfold specTargetWrites at h hafter
  rw [collectWrites_append] at h
  cases hb : collectWrites (specRuleWrites ruleRef pathRuleRef listeners pathMap) before with
  | none => rw [hb] at h; cases h
  | some wb =>
    have hcons : collectWrites (specRuleWrites ruleRef pathRuleRef listeners pathMap)
        (rule :: after) =
        match specRuleWrites ruleRef pathRuleRef listeners pathMap rule,
          collectWrites (specRuleWrites ruleRef pathRuleRef listeners pathMap) after with
        | some wr, some wa => some (wr ++ wa)
        | _, _ => none := rfl
    rw [hb, hcons] at h
    cases hr : specRuleWrites ruleRef pathRuleRef listeners pathMap rule with
    | none => rw [hr] at h; cases h
    | some wr =>
      cases ha : collectWrites (specRuleWrites ruleRef pathRuleRef listeners pathMap) after with
      | none => rw [hr, ha] at h; cases h
      | some wa =>
        rw [hr, ha] at h
        simp only [Option.some.injEq] at h
        obtain ⟨hname, hhost, hwr⟩ :=
          specRuleWrites_plain ruleRef pathRuleRef listeners pathMap rule wr listener resourceID
            hr hu hl hd
        refine ⟨hname, hhost, ?_⟩
        rw [((applyWrites_nil_facts ws).2.2 _ _)]
        refine ⟨wb, wa, ?_, hafter wa ha⟩
        rw [← h, hwr]
        rfl

end appgw

namespace appgw

theorem not_written_of_mapGet_none (ws : List (String × Target)) (k : String)
    (h : mapGet (applyWrites [] ws) k = none) : k ∉ ws.map Prod.fst := by
  intro hk
  have := ((applyWrites_nil_facts ws).2.1 k).2 hk
  rw [← mapGet_isSome_iff, h] at this
  cases this

theorem collectWrites_singletons {α : Type} (g : α → String × Target) (xs : List α) :
    collectWrites (fun x => some [g x]) xs = some (xs.map g) := by
  induction xs with
  | nil => rfl
  | cons x rest ih =>
    simp only [collectWrites, ih, List.map_cons, List.singleton_append]

theorem specPathRuleWrites_last (pathRuleRef : ApplicationGatewayPathRule → Option SubResource)
    (host : String) (port : Int) (tbl : GoMap Target) (pathRule : ApplicationGatewayPathRule)
    (paths : List String) (lastPath resourceID : String)
    (hp : pathRule.Paths = some (paths ++ [lastPath]))
    (hd : derefID (pathRuleRef pathRule) = some resourceID) :
    ∃ ws, specPathRuleWrites pathRuleRef (some host) port pathRule = some ws
      ∧ mapGet (applyWrites tbl ws) (GetLastChunkOfSlashed resourceID)
          = some ⟨host, port, some lastPath⟩ := by
  unfold specPathRuleWrites
  rw [hp]
  dsimp only
  rw [hd]
  dsimp only
  rw [collectWrites_singletons (fun path =>
    (GetLastChunkOfSlashed resourceID, (⟨host, port, some path⟩ : Target)))]
  refine ⟨_, rfl, ?_⟩
  rw [mapGet_applyWrites, List.map_append, lastWrite_append]
  simp [lastWrite]

/-- C16: every Target in the table of `GetSettingToTargetMapping`, and of
`getPoolToTargetMapping`, comes from a routing rule of the input whose listener resolves: its
Port is 443 when that listener's protocol is HTTPS and 80 otherwise, never another value, its
Host is that listener's hostname, and its Path is absent when the rule has no path map.  A
name that a rule without a path map writes and that no later rule writes is mapped to the
Target of that rule's listener with absent Path. -/
theorem mapper_targets_follow_listener (rr : List ApplicationGatewayRequestRoutingRule)
    (listeners : GoMap ApplicationGatewayHTTPListener)
    (pathMap : GoMap ApplicationGatewayURLPathMap)
    (c : appGwConfigBuilder) (cbCtx : ConfigBuilderContext) :
    (∀ tbl k t, GetSettingToTargetMapping rr listeners pathMap = some tbl →
        mapGet tbl k = some t →
          (t.Port = 443 ∨ t.Port = 80)
          ∧ ∃ rule ∈ rr, ∃ listener, ruleListener listeners rule = some listener
              ∧ t.Port = (if listener.Protocol = HTTPS then 443 else 80)
              ∧ listener.HostName = some t.Host
              ∧ (rule.URLPathMap = none → t.Path = none))
    ∧ (∀ tbl before rule after listener settingID,
        rr = before ++ rule :: after →
        GetSettingToTargetMapping rr listeners pathMap = some tbl →
        rule.URLPathMap = none →
        ruleListener listeners rule = some listener →
        derefID rule.BackendHTTPSettings = some settingID →
        (∀ tblAfter, GetSettingToTargetMapping after listeners pathMap = some tblAfter →
          mapGet tblAfter (GetLastChunkOfSlashed settingID) = none) →
        ∃ hname, listener.HostName = some hname
          ∧ mapGet tbl (GetLastChunkOfSlashed settingID)
              = some ⟨hname, if listener.Protocol = HTTPS then 443 else 80, none⟩)
    ∧ (∀ poolListeners tbl k t, indexListeners (c.getListeners cbCtx) = some poolListeners →
        getPoolToTargetMapping c cbCtx = some tbl →
        mapGet tbl k = some t →
          (t.Port = 443 ∨ t.Port = 80)
          ∧ ∃ rule ∈ (c.getRules cbCtx).1, ∃ listener,
              ruleListener poolListeners rule = some listener
              ∧ t.Port = (if listener.Protocol = HTTPS then 443 else 80)
              ∧ listener.HostName = some t.Host
              ∧ (rule.URLPathMap = none → t.Path = none))
    ∧ (∀ poolListeners tbl before rule after listener poolID,
        indexListeners (c.getListeners cbCtx) = some poolListeners →
        (c.getRules cbCtx).1 = before ++ rule :: after →
        getPoolToTargetMapping c cbCtx = some tbl →
        rule.URLPathMap = none →
        ruleListener poolListeners rule = some listener →
        derefID rule.BackendAddressPool = some poolID →
        (∀ tblAfter,
          getPoolToTargetMapping
            { c with getRules := fun _ => (after, (c.getRules cbCtx).2) } cbCtx = some tblAfter →
          mapGet tblAfter (GetLastChunkOfSlashed poolID) = none) →
        ∃ hname, listener.HostName = some hname
          ∧ mapGet tbl (GetLastChunkOfSlashed poolID)
              = some ⟨hname, if listener.Protocol = HTTPS then 443 else 80, none⟩) := by
  refine ⟨?_, ?_, ?_, ?_⟩
  · intro tbl k t htbl hk
    rw [GetSettingToTargetMapping_eq] at htbl
    cases hws : specTargetWrites (fun r => r.BackendHTTPSettings)
        (fun pr => pr.BackendHTTPSettings) listeners pathMap rr with
    | none => rw [hws] at htbl; cases htbl
    | some ws =>
      rw [hws] at htbl
      simp only [Option.map_some', Option.some.injEq] at htbl
      subst htbl
      obtain ⟨hport, rule, hrule, listener, h1, h2, h3, h4, _⟩ :=
        table_entries_follow_listener _ _ listeners pathMap rr ws hws k t hk
      exact ⟨hport, rule, hrule, listener, h1, h2, h3, h4⟩
  · intro tbl before rule after listener settingID hrr htbl hu hl hd hafter
    rw [GetSettingToTargetMapping_eq, hrr] at htbl
    cases hws : specTargetWrites (fun r => r.BackendHTTPSettings)
        (fun pr => pr.BackendHTTPSettings) listeners pathMap (before ++ rule :: after) with
    | none => rw [hws] at htbl; cases htbl
    | some ws =>
      rw [hws] at htbl
      simp only [Option.map_some', Option.some.injEq] at htbl
      subst htbl
      apply plain_rule_written_last _ _ listeners pathMap before after rule ws listener
        settingID hws hu hl hd
      intro wa hwa
      apply not_written_of_mapGet_none
      apply hafter
      rw [GetSettingToTargetMapping_eq, hwa]
      rfl
  · intro poolListeners tbl k t hls htbl hk
    rw [getPoolToTargetMapping_eq, hls] at htbl
    simp only [Option.some_bind] at htbl
    cases hpm : indexPathMaps (c.getRules cbCtx).2 with
    | none => rw [hpm] at htbl; cases htbl
    | some poolPathMap =>
      rw [hpm] at htbl
      simp only [Option.some_bind] at htbl
      cases hws : specTargetWrites (fun r => r.BackendAddressPool)
          (fun pr => pr.BackendAddressPool) poolListeners poolPathMap (c.getRules cbCtx).1 with
      | none => rw [hws] at htbl; cases htbl
      | some ws =>
        rw [hws] at htbl
        simp only [Option.map_some', Option.some.injEq] at htbl
        subst htbl
        obtain ⟨hport, rule, hrule, listener, h1, h2, h3, h4, _⟩ :=
          table_entries_follow_listener _ _ poolListeners poolPathMap _ ws hws k t hk
        exact ⟨hport, rule, hrule, listener, h1, h2, h3, h4⟩
  · intro poolListeners tbl before rule after listener poolID hls hrr htbl hu hl hd hafter
    rw [getPoolToTargetMapping_eq, hls] at htbl
    simp only [Option.some_bind] at htbl
    cases hpm : indexPathMaps (c.getRules cbCtx).2 with
    | none => rw [hpm] at htbl; cases htbl
    | some poolPathMap =>
      rw [hpm, hrr] at htbl
      simp only [Option.some_bind] at htbl
      cases hws : specTargetWrites (fun r => r.BackendAddressPool)
          (fun pr => pr.BackendAddressPool) poolListeners poolPathMap
          (before ++ rule :: after) with
      | none => rw [hws] at htbl; cases htbl
      | some ws =>
        rw [hws] at htbl
        simp only [Option.map_some', Option.some.injEq] at htbl
        subst htbl
        apply plain_rule_written_last _ _ poolListeners poolPathMap before after rule ws
          listener poolID hws hu hl hd
        intro wa hwa
        apply not_written_of_mapGet_none
        apply hafter
        rw [getPoolToTargetMapping_eq]
        dsimp only
        rw [hls]
        simp only [Option.some_bind]
        rw [hpm]
        simp only [Option.some_bind]
        rw [hwa]
        rfl

/-- C16 at a concrete input: a rule with a path map on the HTTP listener `fl-80`, then a rule
without a path map on the HTTPS listener `fl-443`; the settings of the second are mapped to
port 443, the listener's host and an absent Path. -/
theorem mapper_targets_follow_listener_witness :
    GetSettingToTargetMapping [rulePathsFixture, ruleHostFixture] listenersFixture
        pathMapsFixture
      = some [("setting-ab", ⟨"bar.baz", 80, some "/b"⟩),
              ("setting-host", ⟨"foo.baz", 443, none⟩)]
    ∧ ∃ hname, listenerFixture.HostName = some hname
        ∧ mapGet [("setting-ab", (⟨"bar.baz", 80, some "/b"⟩ : Target)),
              ("setting-host", ⟨"foo.baz", 443, none⟩)]
            (GetLastChunkOfSlashed "/settings/setting-host")
          = some ⟨hname, if listenerFixture.Protocol = HTTPS then 443 else 80, none⟩ :=
  ⟨by decide,
   (mapper_targets_follow_listener [rulePathsFixture, ruleHostFixture] listenersFixture
      pathMapsFixture (builderFixture none) ctxGreenfield).2.1
      _ [rulePathsFixture] ruleHostFixture [] listenerFixture "/settings/setting-host"
      rfl (by decide) rfl (by decide) rfl
      (fun tblAfter h => by
        have h0 : GetSettingToTargetMapping [] listenersFixture pathMapsFixture = some [] := rfl
        rw [h0] at h
        injection h with h
        rw [← h]
        rfl)⟩

end appgw

namespace appgw

/-- C17: the name-to-Target table is single-valued with last-writer-wins.  Both mappers
return the table obtained by making, in processing order, the assignments of the spec:
one per rule without a path map and one per (rule, path-rule, path) otherwise.  So when a
mapper returns a table: no key occurs twice; the keys are exactly the names assigned; a key
is mapped to a Target iff that is the last assignment to the key.  And a path rule with
paths `p1 .. pk` leaves the name of its resource mapped to the Target with the text of
`pk`. -/
theorem mapper_last_writer_wins (rr : List ApplicationGatewayRequestRoutingRule)
    (listeners : GoMap ApplicationGatewayHTTPListener)
    (pathMap : GoMap ApplicationGatewayURLPathMap)
    (c : appGwConfigBuilder) (cbCtx : ConfigBuilderContext) :
    GetSettingToTargetMapping rr listeners pathMap
        = (specTargetWrites (fun r => r.BackendHTTPSettings) (fun pr => pr.BackendHTTPSettings)
            listeners pathMap rr).map (fun ws => ws.foldl (fun m w => mapSet m w.1 w.2) [])
    ∧ getPoolToTargetMapping c cbCtx
        = (indexListeners (c.getListeners cbCtx)).bind (fun poolListeners =>
            (indexPathMaps (c.getRules cbCtx).2).bind (fun poolPathMap =>
              (specTargetWrites (fun r => r.BackendAddressPool) (fun pr => pr.BackendAddressPool)
                poolListeners poolPathMap (c.getRules cbCtx).1).map
                  (fun ws => ws.foldl (fun m w => mapSet m w.1 w.2) [])))
    ∧ (∀ tbl, GetSettingToTargetMapping rr listeners pathMap = some tbl →
        ∃ ws, specTargetWrites (fun r => r.BackendHTTPSettings)
            (fun pr => pr.BackendHTTPSettings) listeners pathMap rr = some ws
          ∧ (mapKeys tbl).Nodup
          ∧ (∀ k, k ∈ mapKeys tbl ↔ k ∈ ws.map Prod.fst)
          ∧ (∀ k t, mapGet tbl k = some t ↔
              ∃ before after, ws = before ++ (k, t) :: after ∧ k ∉ after.map Prod.fst))
    ∧ (∀ tbl, getPoolToTargetMapping c cbCtx = some tbl →
        ∃ poolListeners poolPathMap ws,
          indexListeners (c.getListeners cbCtx) = some poolListeners
          ∧ indexPathMaps (c.getRules cbCtx).2 = some poolPathMap
          ∧ specTargetWrites (fun r => r.BackendAddressPool) (fun pr => pr.BackendAddressPool)
              poolListeners poolPathMap (c.getRules cbCtx).1 = some ws
          ∧ (mapKeys tbl).Nodup
          ∧ (∀ k, k ∈ mapKeys tbl ↔ k ∈ ws.map Prod.fst)
          ∧ (∀ k t, mapGet tbl k = some t ↔
              ∃ before after, ws = before ++ (k, t) :: after ∧ k ∉ after.map Prod.fst))
    ∧ (∀ (host : String) (port : Int) (tbl : GoMap Target)
        (pathRule : ApplicationGatewayPathRule) (paths : List String)
        (lastPath resourceID : String),
        pathRule.Paths = some (paths ++ [lastPath]) →
        (derefID pathRule.BackendHTTPSettings = some resourceID →
          ∃ tbl1, mapPathRuleSetting (some host) port tbl pathRule = some tbl1
            ∧ mapGet tbl1 (GetLastChunkOfSlashed resourceID) = some ⟨host, port, some lastPath⟩)
        ∧ (derefID pathRule.BackendAddressPool = some resourceID →
          ∃ tbl1, mapPathRule (some host) port tbl pathRule = some tbl1
            ∧ mapGet tbl1 (GetLastChunkOfSlashed resourceID)
                = some ⟨host, port, some lastPath⟩)) := by
  refine ⟨GetSettingToTargetMapping_eq rr listeners pathMap, getPoolToTargetMapping_eq c cbCtx,
    ?_, ?_, ?_⟩
  · intro tbl htbl
    rw [GetSettingToTargetMapping_eq] at htbl
    cases hws : specTargetWrites (fun r => r.BackendHTTPSettings)
        (fun pr => pr.BackendHTTPSettings) listeners pathMap rr with
    | none => rw [hws] at htbl; cases htbl
    | some ws =>
      rw [hws] at htbl
      simp only [Option.map_some', Option.some.injEq] at htbl
      subst htbl
      exact ⟨ws, rfl, applyWrites_nil_facts ws⟩
  · intro tbl htbl
    rw [getPoolToTargetMapping_eq] at htbl
    cases hls : indexListeners (c.getListeners cbCtx) with
    | none => rw [hls] at htbl; cases htbl
    | some poolListeners =>
      rw [hls] at htbl
      simp only [Option.some_bind] at htbl
      cases hpm : indexPathMaps (c.getRules cbCtx).2 with
      | none => rw [hpm] at htbl; cases htbl
      | some poolPathMap =>
        rw [hpm] at htbl
        simp only [Option.some_bind] at htbl
        cases hws : specTargetWrites (fun r => r.BackendAddressPool)
            (fun pr => pr.BackendAddressPool) poolListeners poolPathMap
            (c.getRules cbCtx).1 with
        | none => rw [hws] at htbl; cases htbl
        | some ws =>
          rw [hws] at htbl
          simp only [Option.map_some', Option.some.injEq] at htbl
          subst htbl
          exact ⟨poolListeners, poolPathMap, ws, rfl, rfl, hws, applyWrites_nil_facts ws⟩
  · intro host port tbl pathRule paths lastPath resourceID hp
    refine ⟨?_, ?_⟩
    · intro hd
      obtain ⟨ws, hws, hget⟩ := specPathRuleWrites_last (fun pr => pr.BackendHTTPSettings)
        host port tbl pathRule paths lastPath resourceID hp hd
      rw [mapPathRuleSetting_eq, hws]
      exact ⟨_, rfl, hget⟩
    · intro hd
      obtain ⟨ws, hws, hget⟩ := specPathRuleWrites_last (fun pr => pr.BackendAddressPool)
        host port tbl pathRule paths lastPath resourceID hp hd
      rw [mapPathRule_eq, hws]
      exact ⟨_, rfl, hget⟩

/-- C17 at a concrete input: the path rule with paths `/a`, `/b` assigns the name
`setting-ab` twice; the table holds it once, with the Target of `/b`. -/
theorem mapper_last_writer_wins_witness :
    specTargetWrites (fun r => r.BackendHTTPSettings) (fun pr => pr.BackendHTTPSettings)
        listenersFixture pathMapsFixture [rulePathsFixture, ruleHostFixture]
      = some [("setting-ab", ⟨"bar.baz", 80, some "/a"⟩),
              ("setting-ab", ⟨"bar.baz", 80, some "/b"⟩),
              ("setting-host", ⟨"foo.baz", 443, none⟩)]
    ∧ GetSettingToTargetMapping [rulePathsFixture, ruleHostFixture] listenersFixture
        pathMapsFixture
      = some [("setting-ab", ⟨"bar.baz", 80, some "/b"⟩),
              ("setting-host", ⟨"foo.baz", 443, none⟩)]
    ∧ ∃ ws, specTargetWrites (fun r => r.BackendHTTPSettings)
          (fun pr => pr.BackendHTTPSettings) listenersFixture pathMapsFixture
          [rulePathsFixture, ruleHostFixture] = some ws
        ∧ (mapKeys [("setting-ab", (⟨"bar.baz", 80, some "/b"⟩ : Target)),
              ("setting-host", ⟨"foo.baz", 443, none⟩)]).Nodup :=
  ⟨by decide, by decide,
   match (mapper_last_writer_wins [rulePathsFixture, ruleHostFixture] listenersFixture
      pathMapsFixture (builderFixture none) ctxGreenfield).2.2.1 _ (by decide) with
   | ⟨ws, h1, h2, _⟩ => ⟨ws, h1, h2⟩⟩

end appgw

namespace appgw

/-! ## Address sets of a subset -/

theorem string_length_ne_zero_iff (s : String) : s.length ≠ 0 ↔ s ≠ "" := by
  obtain ⟨data⟩ := s
  cases data with
  | nil => simp [String.length]
  | cons ch rest =>
    simp only [String.length, List.length_cons, ne_eq, Nat.add_one_ne_zero, not_false_eq_true,
      true_iff]
    intro h
    have := congrArg String.data h
    cases this

theorem setAdd_nodup (keys : List String) (k : String) (h : keys.Nodup) :
    (setAdd keys k).Nodup := by
  unfold setAdd
  by_cases hk : k ∈ keys
  · rw [if_pos hk]; exact h
  · rw [if_neg hk]
    exact List.Nodup.append h (List.nodup_singleton k) (by simpa using hk)

theorem mem_setAdd (keys : List String) (k x : String) :
    x ∈ setAdd keys k ↔ x ∈ keys ∨ x = k := by
  unfold setAdd
  by_cases hk : k ∈ keys
  · rw [if_pos hk]
    constructor
    · intro h; exact Or.inl h
    · rintro (h | h)
      · exact h
      · rw [h]; exact hk
  · rw [if_neg hk]
    simp

/-- The two key sets built by the first loop of `getAddressesForSubset`, from given initial
sets. -/
theorem address_sets_facts (addrs : List EndpointAddress) (init : List String × List String)
    (h1 : init.1.Nodup) (h2 : init.2.Nodup) :
    (addrs.foldl (fun (acc : List String × List String) address =>
        if address.IP.length ≠ 0 then (setAdd acc.1 address.IP, acc.2)
        else if address.Hostname.length ≠ 0 then (acc.1, setAdd acc.2 address.Hostname)
        else acc) init).1.Nodup
    ∧ (addrs.foldl (fun (acc : List String × List String) address =>
        if address.IP.length ≠ 0 then (setAdd acc.1 address.IP, acc.2)
        else if address.Hostname.length ≠ 0 then (acc.1, setAdd acc.2 address.Hostname)
        else acc) init).2.Nodup
    ∧ (∀ x, x ∈ (addrs.foldl (fun (acc : List String × List String) address =>
        if address.IP.length ≠ 0 then (setAdd acc.1 address.IP, acc.2)
        else if address.Hostname.length ≠ 0 then (acc.1, setAdd acc.2 address.Hostname)
        else acc) init).1 ↔ x ∈ init.1 ∨ ∃ a ∈ addrs, a.IP ≠ "" ∧ a.IP = x)
    ∧ (∀ x, x ∈ (addrs.foldl (fun (acc : List String × List String) address =>
        if address.IP.length ≠ 0 then (setAdd acc.1 address.IP, acc.2)
        else if address.Hostname.length ≠ 0 then (acc.1, setAdd acc.2 address.Hostname)
        else acc) init).2 ↔
          x ∈ init.2 ∨ ∃ a ∈ addrs, a.IP = "" ∧ a.Hostname ≠ "" ∧ a.Hostname = x) := by
  induction addrs generalizing init with
  | nil => simp [h1, h2]
  | cons a rest ih =>
    simp only [List.foldl_cons]
    by_cases hip : a.IP.length ≠ 0
    · rw [if_pos hip]
      have hne : a.IP ≠ "" := (string_length_ne_zero_iff _).1 hip
      obtain ⟨g1, g2, g3, g4⟩ := ih (setAdd init.1 a.IP, init.2) (setAdd_nodup _ _ h1) h2
      refine ⟨g1, g2, ?_, ?_⟩
      · intro x
        rw [g3 x, mem_setAdd]
        simp only [List.mem_cons, exists_eq_or_imp]
        constructor
        · rintro ((h | h) | h)
          · exact Or.inl h
          · exact Or.inr (Or.inl ⟨hne, h.symm⟩)
          · exact Or.inr (Or.inr h)
        · rintro (h | ⟨_, h⟩ | h)
          · exact Or.inl (Or.inl h)
          · exact Or.inl (Or.inr h.symm)
          · exact Or.inr h
      · intro x
        rw [g4 x]
        simp only [List.mem_cons, exists_eq_or_imp]
        constructor
        · rintro (h | h)
          · exact Or.inl h
          · exact Or.inr (Or.inr h)
        · rintro (h | ⟨h, _⟩ | h)
          · exact Or.inl h
          · exact absurd h hne
          · exact Or.inr h
    · rw [if_neg hip]
      have he : a.IP = "" := by
        by_contra hc
        exact hip ((string_length_ne_zero_iff _).2 hc)
      by_cases hhn : a.Hostname.length ≠ 0
      · rw [if_pos hhn]
        have hne : a.Hostname ≠ "" := (string_length_ne_zero_iff _).1 hhn
        obtain ⟨g1, g2, g3, g4⟩ :=
          ih (init.1, setAdd init.2 a.Hostname) h1 (setAdd_nodup _ _ h2)
        refine ⟨g1, g2, ?_, ?_⟩
        · intro x
          rw [g3 x]
          simp only [List.mem_cons, exists_eq_or_imp]
          constructor
          · rintro (h | h)
            · exact Or.inl h
            · exact Or.inr (Or.inr h)
          · rintro (h | ⟨h, _⟩ | h)
            · exact Or.inl h
            · exact absurd he h
            · exact Or.inr h
        · intro x
          rw [g4 x, mem_setAdd]
          simp only [List.mem_cons, exists_eq_or_imp]
          constructor
          · rintro ((h | h) | h)
            · exact Or.inl h
            · exact Or.inr (Or.inl ⟨he, hne, h.symm⟩)
            · exact Or.inr (Or.inr h)
          · rintro (h | ⟨_, _, h⟩ | h)
            · exact Or.inl (Or.inl h)
            · exact Or.inl (Or.inr h.symm)
            · exact Or.inr h
      · rw [if_neg hhn]
        have he2 : a.Hostname = "" := by
          by_contra hc
          exact hhn ((string_length_ne_zero_iff _).2 hc)
        obtain ⟨g1, g2, g3, g4⟩ := ih init h1 h2
        refine ⟨g1, g2, ?_, ?_⟩
        · intro x
          rw [g3 x]
          simp only [List.mem_cons, exists_eq_or_imp]
          constructor
          · rintro (h | h)
            · exact Or.inl h
            · exact Or.inr (Or.inr h)
          · rintro (h | ⟨h, _⟩ | h)
            · exact Or.inl h
            · exact absurd he h
            · exact Or.inr h
        · intro x
          rw [g4 x]
          simp only [List.mem_cons, exists_eq_or_imp]
          constructor
          · rintro (h | h)
            · exact Or.inl h
            · exact Or.inr (Or.inr h)
          · rintro (h | ⟨_, h, _⟩ | h)
            · exact Or.inl h
            · exact absurd he2 h
            · exact Or.inr h

end appgw

namespace appgw

theorem getAddressesForSubset_perm (subset : EndpointSubset) :
    ∃ ips fqdns : List String, ips.Nodup ∧ fqdns.Nodup
      ∧ (∀ x, x ∈ ips ↔ ∃ a ∈ subset.Addresses, a.IP ≠ "" ∧ a.IP = x)
      ∧ (∀ x, x ∈ fqdns ↔ ∃ a ∈ subset.Addresses, a.IP = "" ∧ a.Hostname ≠ "" ∧ a.Hostname = x)
      ∧ getAddressesForSubset subset
          = goSort ByIPFQDNLess
              (ips.map (fun ip => (⟨none, some ip⟩ : ApplicationGatewayBackendAddress))
                ++ fqdns.map (fun fqdn => (⟨some fqdn, none⟩ : ApplicationGatewayBackendAddress))) := by
  obtain ⟨g1, g2, g3, g4⟩ := address_sets_facts subset.Addresses ([], [])
    List.nodup_nil List.nodup_nil
  refine ⟨_, _, g1, g2, ?_, ?_, ?_⟩
  · intro x
    rw [g3 x]
    simp
  · intro x
    rw [g4 x]
    simp
  · unfold getAddressesForSubset getBackendAddressMapKeys
    dsimp only
    rw [foldl_append_singleton_map, foldl_append_singleton_map, List.nil_append]

theorem nodup_address_entries (ips fqdns : List String) (h1 : ips.Nodup) (h2 : fqdns.Nodup) :
    (ips.map (fun ip => (⟨none, some ip⟩ : ApplicationGatewayBackendAddress))
      ++ fqdns.map (fun fqdn => (⟨some fqdn, none⟩ : ApplicationGatewayBackendAddress))).Nodup := by
  apply List.Nodup.append
  · apply List.Nodup.map _ h1
    intro a b hab
    injection hab with _ h
    injection h
  · apply List.Nodup.map _ h2
    intro a b hab
    injection hab with h _
    injection h
  · intro e he1 he2
    obtain ⟨x, _, hx⟩ := List.mem_map.1 he1
    obtain ⟨y, _, hy⟩ := List.mem_map.1 he2
    rw [← hy] at hx
    injection hx with h _
    cases h

/-- C18: `getAddressesForSubset` returns a list without repetition whose entries are exactly
one IP entry for every non-empty IP of the subset's addresses and one FQDN entry for every
non-empty hostname of an address whose IP is empty.  So every entry carries an IP or an FQDN
and never both; an address with both contributes its IP only; an address with neither
contributes nothing; two endpoints with IP `10.0.0.1` give one entry; an IP and an FQDN with
the same text give two entries. -/
theorem addresses_one_entry_per_distinct (subset : EndpointSubset) :
    (getAddressesForSubset subset).Nodup
    ∧ (∀ e, e ∈ getAddressesForSubset subset ↔
        (∃ a ∈ subset.Addresses, a.IP ≠ "" ∧ e = ⟨none, some a.IP⟩)
        ∨ (∃ a ∈ subset.Addresses, a.IP = "" ∧ a.Hostname ≠ "" ∧ e = ⟨some a.Hostname, none⟩))
    ∧ (∀ e ∈ getAddressesForSubset subset,
        (e.IPAddress ≠ none ∧ e.Fqdn = none) ∨ (e.IPAddress = none ∧ e.Fqdn ≠ none))
    ∧ getAddressesForSubset ⟨[⟨"10.0.0.1", ""⟩, ⟨"10.0.0.1", "host-a"⟩], []⟩
        = [⟨none, some "10.0.0.1"⟩]
    ∧ getAddressesForSubset ⟨[⟨"", "10.0.0.1"⟩, ⟨"10.0.0.1", ""⟩, ⟨"", ""⟩], []⟩
        = [⟨none, some "10.0.0.1"⟩, ⟨some "10.0.0.1", none⟩] := by
  obtain ⟨ips, fqdns, h1, h2, h3, h4, heq⟩ := getAddressesForSubset_perm subset
  have hperm : (getAddressesForSubset subset).Perm
      (ips.map (fun ip => (⟨none, some ip⟩ : ApplicationGatewayBackendAddress))
        ++ fqdns.map (fun fqdn => (⟨some fqdn, none⟩ : ApplicationGatewayBackendAddress))) := by
    rw [heq]
    exact List.perm_insertionSort _ _
  have hmem : ∀ e, e ∈ getAddressesForSubset subset ↔
      (∃ a ∈ subset.Addresses, a.IP ≠ "" ∧ e = ⟨none, some a.IP⟩)
      ∨ (∃ a ∈ subset.Addresses, a.IP = "" ∧ a.Hostname ≠ "" ∧ e = ⟨some a.Hostname, none⟩) := by
    intro e
    rw [hperm.mem_iff, List.mem_append, List.mem_map, List.mem_map]
    constructor
    · rintro (⟨x, hx, he⟩ | ⟨x, hx, he⟩)
      · obtain ⟨a, ha, hne, hax⟩ := (h3 x).1 hx
        exact Or.inl ⟨a, ha, hne, by rw [hax, he]⟩
      · obtain ⟨a, ha, hip, hne, hax⟩ := (h4 x).1 hx
        exact Or.inr ⟨a, ha, hip, hne, by rw [hax, he]⟩
    · rintro (⟨a, ha, hne, he⟩ | ⟨a, ha, hip, hne, he⟩)
      · exact Or.inl ⟨a.IP, (h3 _).2 ⟨a, ha, hne, rfl⟩, he.symm⟩
      · exact Or.inr ⟨a.Hostname, (h4 _).2 ⟨a, ha, hip, hne, rfl⟩, he.symm⟩
  refine ⟨hperm.nodup_iff.2 (nodup_address_entries ips fqdns h1 h2), hmem, ?_, by decide,
    by decide⟩
  intro e he
  rcases (hmem e).1 he with ⟨a, _, _, h⟩ | ⟨a, _, _, _, h⟩
  · left; rw [h]; simp
  · right; rw [h]; simp

end appgw

namespace appgw

/-! ## Sorting addresses -/

theorem data_lt_iff (x y : String) : x.data < y.data ↔ x < y := by
  rw [String.lt_iff_toList_lt]
  rfl

theorem ByIPFQDNLess_total (a b : ApplicationGatewayBackendAddress) :
    ByIPFQDNLess b a = false ∨ ByIPFQDNLess a b = false := by
  obtain ⟨fa, ia⟩ := a
  obtain ⟨fb, ib⟩ := b
  cases ia <;> cases ib <;> cases fa <;> cases fb <;>
    simp only [ByIPFQDNLess, decide_eq_false_iff_not, data_lt_iff, not_lt, or_true, true_or,
      or_self] <;>
    exact le_total _ _

theorem ByIPFQDNLess_trans (a b c : ApplicationGatewayBackendAddress)
    (hab : ByIPFQDNLess b a = false) (hbc : ByIPFQDNLess c b = false) :
    ByIPFQDNLess c a = false := by
  obtain ⟨fa, ia⟩ := a
  obtain ⟨fb, ib⟩ := b
  obtain ⟨fc, ic⟩ := c
  cases ia <;> cases ib <;> cases ic <;> cases fa <;> cases fb <;> cases fc <;>
    simp only [ByIPFQDNLess, decide_eq_false_iff_not, data_lt_iff, not_lt,
      Bool.true_eq_false, Bool.false_eq_true] at hab hbc ⊢ <;>
    exact le_trans hab hbc

theorem ByIPFQDNLess_asymm (a b : ApplicationGatewayBackendAddress)
    (hab : ByIPFQDNLess a b = true) (hba : ByIPFQDNLess b a = true) : False := by
  obtain ⟨fa, ia⟩ := a
  obtain ⟨fb, ib⟩ := b
  cases ia <;> cases ib <;> cases fa <;> cases fb <;>
    simp only [ByIPFQDNLess, decide_eq_true_eq, data_lt_iff, Bool.false_eq_true] at hab hba <;>
    exact absurd hab (lt_asymm hba)

theorem ByIPFQDNLess_ip_ip (x y : String) :
    ByIPFQDNLess ⟨none, some x⟩ ⟨none, some y⟩ = true ↔ x < y := by
  simp only [ByIPFQDNLess, decide_eq_true_eq, data_lt_iff]

theorem ByIPFQDNLess_fqdn_fqdn (x y : String) :
    ByIPFQDNLess ⟨some x, none⟩ ⟨some y, none⟩ = true ↔ x < y := by
  simp only [ByIPFQDNLess, decide_eq_true_eq, data_lt_iff]

/-- An entry that carries an IP only or an FQDN only. -/
theorem pure_entry_cases (e : ApplicationGatewayBackendAddress)
    (h : (e.IPAddress ≠ none ∧ e.Fqdn = none) ∨ (e.IPAddress = none ∧ e.Fqdn ≠ none)) :
    (∃ x, e = ⟨none, some x⟩) ∨ (∃ y, e = ⟨some y, none⟩) := by
  obtain ⟨f, i⟩ := e
  cases i <;> cases f <;> simp at h ⊢

theorem ByIPFQDNLess_strict_of_pure (a b : ApplicationGatewayBackendAddress)
    (ha : (a.IPAddress ≠ none ∧ a.Fqdn = none) ∨ (a.IPAddress = none ∧ a.Fqdn ≠ none))
    (hb : (b.IPAddress ≠ none ∧ b.Fqdn = none) ∨ (b.IPAddress = none ∧ b.Fqdn ≠ none))
    (hne : a ≠ b) (hle : ByIPFQDNLess b a = false) : ByIPFQDNLess a b = true := by
  rcases pure_entry_cases a ha with ⟨x, hx⟩ | ⟨x, hx⟩ <;>
    rcases pure_entry_cases b hb with ⟨y, hy⟩ | ⟨y, hy⟩ <;>
    subst hx <;> subst hy <;>
    simp only [ByIPFQDNLess, decide_eq_true_eq, decide_eq_false_iff_not, data_lt_iff,
      not_lt, Bool.true_eq_false] at hle ⊢
  · exact lt_of_le_of_ne hle (fun e => hne (by rw [e]))
  · exact lt_of_le_of_ne hle (fun e => hne (by rw [e]))

theorem goSort_addresses_strict (l : List ApplicationGatewayBackendAddress)
    (hpure : ∀ e ∈ l,
      (e.IPAddress ≠ none ∧ e.Fqdn = none) ∨ (e.IPAddress = none ∧ e.Fqdn ≠ none))
    (hnd : l.Nodup) :
    (goSort ByIPFQDNLess l).Pairwise (fun a b => ByIPFQDNLess a b = true) := by
  haveI : IsTotal ApplicationGatewayBackendAddress (fun a b => ByIPFQDNLess b a = false) :=
    ⟨fun a b => ByIPFQDNLess_total a b⟩
  haveI : IsTrans ApplicationGatewayBackendAddress (fun a b => ByIPFQDNLess b a = false) :=
    ⟨fun a b c hab hbc => ByIPFQDNLess_trans a b c hab hbc⟩
  have hs := List.sorted_insertionSort
    (fun a b : ApplicationGatewayBackendAddress => ByIPFQDNLess b a = false) l
  have hperm : (goSort ByIPFQDNLess l).Perm l := List.perm_insertionSort _ l
  have hnd2 : (goSort ByIPFQDNLess l).Pairwise (fun a b => a ≠ b) := hperm.nodup_iff.2 hnd
  have hboth := List.Pairwise.and hs hnd2
  apply List.Pairwise.imp_of_mem _ hboth
  intro a b ha hb hab
  exact ByIPFQDNLess_strict_of_pure a b (hpure a (hperm.mem_iff.1 ha))
    (hpure b (hperm.mem_iff.1 hb)) hab.2 hab.1

theorem strict_sorted_addresses_unique (l1 l2 : List ApplicationGatewayBackendAddress)
    (h1 : l1.Pairwise (fun a b => ByIPFQDNLess a b = true))
    (h2 : l2.Pairwise (fun a b => ByIPFQDNLess a b = true))
    (hmem : ∀ e, e ∈ l1 ↔ e ∈ l2) : l1 = l2 := by
  haveI : IsAntisymm ApplicationGatewayBackendAddress (fun a b => ByIPFQDNLess a b = true) :=
    ⟨fun a b hab hba => (ByIPFQDNLess_asymm a b hab hba).elim⟩
  have hirr : ∀ a : ApplicationGatewayBackendAddress, ¬ ByIPFQDNLess a a = true :=
    fun a h => ByIPFQDNLess_asymm a a h h
  have n1 : l1.Nodup := by
    unfold List.Nodup
    exact List.Pairwise.imp (fun {a b} hab (e : a = b) => hirr a (by rw [← e] at hab; exact hab)) h1
  have n2 : l2.Nodup := by
    unfold List.Nodup
    exact List.Pairwise.imp (fun {a b} hab (e : a = b) => hirr a (by rw [← e] at hab; exact hab)) h2
  exact List.eq_of_perm_of_sorted ((List.perm_ext_iff_of_nodup n1 n2).2 hmem) h1 h2

theorem strict_sorted_addresses_split (l : List ApplicationGatewayBackendAddress)
    (hpure : ∀ e ∈ l,
      (e.IPAddress ≠ none ∧ e.Fqdn = none) ∨ (e.IPAddress = none ∧ e.Fqdn ≠ none))
    (hs : l.Pairwise (fun a b => ByIPFQDNLess a b = true)) :
    ∃ ips fqdns : List String,
      l = ips.map (fun ip => (⟨none, some ip⟩ : ApplicationGatewayBackendAddress))
          ++ fqdns.map (fun fqdn => (⟨some fqdn, none⟩ : ApplicationGatewayBackendAddress))
      ∧ ips.Pairwise (fun x y => x < y) ∧ fqdns.Pairwise (fun x y => x < y) := by
  induction l with
  | nil => exact ⟨[], [], rfl, List.Pairwise.nil, List.Pairwise.nil⟩
  | cons e rest ih =>
    rw [List.pairwise_cons] at hs
    obtain ⟨ips, fqdns, hrest, hi, hf⟩ :=
      ih (fun x hx => hpure x (List.mem_cons_of_mem _ hx)) hs.2
    rcases pure_entry_cases e (hpure e (List.mem_cons_self _ _)) with ⟨x, hx⟩ | ⟨y, hy⟩
    · refine ⟨x :: ips, fqdns, ?_, ?_, hf⟩
      · rw [hx, hrest]; rfl
      · rw [List.pairwise_cons]
        refine ⟨?_, hi⟩
        intro z hz
        have hmem : (⟨none, some z⟩ : ApplicationGatewayBackendAddress) ∈ rest := by
          rw [hrest]
          exact List.mem_append_left _ (List.mem_map.2 ⟨z, hz, rfl⟩)
        have := hs.1 _ hmem
        rw [hx] at this
        exact (ByIPFQDNLess_ip_ip x z).1 this
    · have hips : ips = [] := by
        cases ips with
        | nil => rfl
        | cons z zs =>
          exfalso
          have hmem : (⟨none, some z⟩ : ApplicationGatewayBackendAddress) ∈ rest := by
            rw [hrest]
            exact List.mem_append_left _ (List.mem_map.2 ⟨z, List.mem_cons_self _ _, rfl⟩)
          have := hs.1 _ hmem
          rw [hy] at this
          simp [ByIPFQDNLess] at this
      subst hips
      refine ⟨[], y :: fqdns, ?_, List.Pairwise.nil, ?_⟩
      · rw [hy, hrest]; rfl
      · rw [List.pairwise_cons]
        refine ⟨?_, hf⟩
        intro z hz
        have hmem : (⟨some z, none⟩ : ApplicationGatewayBackendAddress) ∈ rest := by
          rw [hrest]
          exact List.mem_append_right _ (List.mem_map.2 ⟨z, hz, rfl⟩)
        have := hs.1 _ hmem
        rw [hy] at this
        exact (ByIPFQDNLess_fqdn_fqdn y z).1 this

theorem getAddressesForSubset_strict (subset : EndpointSubset) :
    (getAddressesForSubset subset).Pairwise (fun a b => ByIPFQDNLess a b = true) := by
  obtain ⟨ips, fqdns, h1, h2, _, _, heq⟩ := getAddressesForSubset_perm subset
  rw [heq]
  apply goSort_addresses_strict _ _ (nodup_address_entries ips fqdns h1 h2)
  intro e he
  rcases List.mem_append.1 he with h | h
  · obtain ⟨x, _, hx⟩ := List.mem_map.1 h
    left; rw [← hx]; simp
  · obtain ⟨x, _, hx⟩ := List.mem_map.1 h
    right; rw [← hx]; simp

/-- C19: address synthesis does not depend on the order or the repetition of the addresses.
Two subsets with the same set of addresses give the same sequence of entries; in that
sequence the IP entries come first, in strictly ascending order of their text, followed by
the FQDN entries, in strictly ascending order of theirs. -/
theorem addresses_deterministic_and_sorted (s1 s2 : EndpointSubset)
    (h : ∀ a, a ∈ s1.Addresses ↔ a ∈ s2.Addresses) :
    getAddressesForSubset s1 = getAddressesForSubset s2
    ∧ ∃ ips fqdns : List String,
        getAddressesForSubset s1
          = ips.map (fun ip => (⟨none, some ip⟩ : ApplicationGatewayBackendAddress))
            ++ fqdns.map (fun fqdn => (⟨some fqdn, none⟩ : ApplicationGatewayBackendAddress))
        ∧ ips.Pairwise (fun x y => x < y) ∧ fqdns.Pairwise (fun x y => x < y) := by
  refine ⟨?_, ?_⟩
  · apply strict_sorted_addresses_unique _ _ (getAddressesForSubset_strict s1)
      (getAddressesForSubset_strict s2)
    intro e
    rw [(addresses_one_entry_per_distinct s1).2.1 e, (addresses_one_entry_per_distinct s2).2.1 e]
    constructor
    · rintro (⟨a, ha, r⟩ | ⟨a, ha, r⟩)
      · exact Or.inl ⟨a, (h a).1 ha, r⟩
      · exact Or.inr ⟨a, (h a).1 ha, r⟩
    · rintro (⟨a, ha, r⟩ | ⟨a, ha, r⟩)
      · exact Or.inl ⟨a, (h a).2 ha, r⟩
      · exact Or.inr ⟨a, (h a).2 ha, r⟩
  · exact strict_sorted_addresses_split _ (addresses_one_entry_per_distinct s1).2.2.1
      (getAddressesForSubset_strict s1)

/-- C19 at a concrete input: the same four addresses in two orders, one of them repeated in
the second; both give the two IP entries in ascending order, then the two FQDN entries. -/
theorem addresses_deterministic_and_sorted_witness :
    getAddressesForSubset
        ⟨[⟨"", "b.example"⟩, ⟨"10.0.0.2", ""⟩, ⟨"", "a.example"⟩, ⟨"10.0.0.1", ""⟩], []⟩
      = [⟨none, some "10.0.0.1"⟩, ⟨none, some "10.0.0.2"⟩,
         ⟨some "a.example", none⟩, ⟨some "b.example", none⟩]
    ∧ getAddressesForSubset
        ⟨[⟨"", "b.example"⟩, ⟨"10.0.0.2", ""⟩, ⟨"", "a.example"⟩, ⟨"10.0.0.1", ""⟩], []⟩
      = getAddressesForSubset
        ⟨[⟨"10.0.0.1", ""⟩, ⟨"", "a.example"⟩, ⟨"10.0.0.1", ""⟩, ⟨"10.0.0.2", ""⟩,
          ⟨"", "b.example"⟩], []⟩ :=
  ⟨by decide,
   (addresses_deterministic_and_sorted
      ⟨[⟨"", "b.example"⟩, ⟨"10.0.0.2", ""⟩, ⟨"", "a.example"⟩, ⟨"10.0.0.1", ""⟩], []⟩
      ⟨[⟨"10.0.0.1", ""⟩, ⟨"", "a.example"⟩, ⟨"10.0.0.1", ""⟩, ⟨"10.0.0.2", ""⟩,
        ⟨"", "b.example"⟩], []⟩
      (by intro a; simp only [List.mem_cons, List.mem_singleton, List.not_mem_nil]; tauto)).1⟩

end appgw

namespace appgw

/-! ## `getBackendAddressPool` -/

theorem mem_getUniqueTCPPorts_fold (ports : List EndpointPort) (init : List Int) (x : Int) :
    x ∈ ports.foldl (fun acc endpointsPort =>
        if endpointsPort.Protocol = ProtocolTCP then
          (if endpointsPort.Port ∈ acc then acc else acc ++ [endpointsPort.Port])
        else acc) init
      ↔ x ∈ init ∨ ∃ p ∈ ports, p.Protocol = ProtocolTCP ∧ p.Port = x := by
  induction ports generalizing init with
  | nil => simp
  | cons p rest ih =>
    simp only [List.foldl_cons]
    rw [ih]
    simp only [List.mem_cons, exists_eq_or_imp]
    by_cases hp : p.Protocol = ProtocolTCP
    · rw [if_pos hp]
      by_cases hm : p.Port ∈ init
      · rw [if_pos hm]
        constructor
        · rintro (h | h)
          · exact Or.inl h
          · exact Or.inr (Or.inr h)
        · rintro (h | ⟨_, h⟩ | h)
          · exact Or.inl h
          · rw [← h]; exact Or.inl hm
          · exact Or.inr h
      · rw [if_neg hm]
        simp only [List.mem_append, List.mem_singleton]
        constructor
        · rintro ((h | h) | h)
          · exact Or.inl h
          · exact Or.inr (Or.inl ⟨hp, h.symm⟩)
          · exact Or.inr (Or.inr h)
        · rintro (h | ⟨_, h⟩ | h)
          · exact Or.inl (Or.inl h)
          · exact Or.inl (Or.inr h.symm)
          · exact Or.inr h
    · rw [if_neg hp]
      constructor
      · rintro (h | h)
        · exact Or.inl h
        · exact Or.inr (Or.inr h)
      · rintro (h | ⟨h, _⟩ | h)
        · exact Or.inl h
        · exact absurd h hp
        · exact Or.inr h

theorem mem_getUniqueTCPPorts (subset : EndpointSubset) (x : Int) :
    x ∈ getUniqueTCPPorts subset ↔ ∃ p ∈ subset.Ports, p.Protocol = ProtocolTCP ∧ p.Port = x := by
  unfold getUniqueTCPPorts
  rw [mem_getUniqueTCPPorts_fold]
  simp

theorem getBackendAddressPoolLoop_none (c : appGwConfigBuilder) (backendID : backendIdentifier)
    (pair : serviceBackendPortPair) (addressPools : GoMap Pool)
    (subsets : List EndpointSubset) (recorded : List Event)
    (h : ∀ s ∈ subsets, pair.BackendPort ∉ getUniqueTCPPorts s) :
    (getBackendAddressPoolLoop c backendID pair addressPools subsets recorded).1 = none := by
  induction subsets generalizing recorded with
  | nil => rfl
  | cons s rest ih =>
    unfold getBackendAddressPoolLoop
    rw [if_neg (h s (List.mem_cons_self _ _))]
    exact ih _ (fun s1 hs1 => h s1 (List.mem_cons_of_mem _ hs1))

theorem getBackendAddressPoolLoop_first (c : appGwConfigBuilder) (backendID : backendIdentifier)
    (pair : serviceBackendPortPair) (addressPools : GoMap Pool)
    (before after : List EndpointSubset) (s : EndpointSubset) (recorded : List Event)
    (hbefore : ∀ s0 ∈ before, pair.BackendPort ∉ getUniqueTCPPorts s0)
    (hs : pair.BackendPort ∈ getUniqueTCPPorts s) :
    (getBackendAddressPoolLoop c backendID pair addressPools (before ++ s :: after) recorded).1
      = some ((mapGet addressPools (c.generateAddressPoolName backendID.serviceFullName
          backendID.ServicePort pair.BackendPort)).getD
            (newPool (c.generateAddressPoolName backendID.serviceFullName
              backendID.ServicePort pair.BackendPort) s)) := by
  induction before generalizing recorded with
  | nil =>
    simp only [List.nil_append]
    unfold getBackendAddressPoolLoop
    rw [if_pos hs]
    dsimp only
    cases mapGet addressPools (c.generateAddressPoolName backendID.serviceFullName
        backendID.ServicePort pair.BackendPort) <;> rfl
  | cons s0 rest ih =>
    simp only [List.cons_append]
    unfold getBackendAddressPoolLoop
    rw [if_neg (hbefore s0 (List.mem_cons_self _ _))]
    exact ih _ (fun s1 hs1 => hbefore s1 (List.mem_cons_of_mem _ hs1))

theorem exists_first_match (subsets : List EndpointSubset) (port : Int)
    (h : ∃ s ∈ subsets, port ∈ getUniqueTCPPorts s) :
    ∃ before s after, subsets = before ++ s :: after
      ∧ (∀ s0 ∈ before, port ∉ getUniqueTCPPorts s0) ∧ port ∈ getUniqueTCPPorts s := by
  induction subsets with
  | nil =>
    obtain ⟨s, hs, _⟩ := h
    simp at hs
  | cons s0 rest ih =>
    by_cases h0 : port ∈ getUniqueTCPPorts s0
    · exact ⟨[], s0, rest, rfl, by simp, h0⟩
    · obtain ⟨s, hs, hp⟩ := h
      rcases List.mem_cons.1 hs with e | e
      · rw [e] at hp; exact absurd hp h0
      · obtain ⟨before, s1, after, hr, hb, h1⟩ := ih ⟨s, e, hp⟩
        refine ⟨s0 :: before, s1, after, by rw [hr]; rfl, ?_, h1⟩
        intro x hx
        rcases List.mem_cons.1 hx with e1 | e1
        · rw [e1]; exact h0
        · exact hb x e1

/-- C20: after a successful Endpoints lookup, `getBackendAddressPool` returns a pool iff some
subset advertises the backend's target port with protocol TCP.  With the first such subset
`s`: when the pass's table has no pool under the generated name, the result is a new pool
with that name, Etag `*` and the addresses `getAddressesForSubset s`; when the table has a
pool under that name, that pool is the result. -/
theorem getBackendAddressPool_first_matching_subset (c : appGwConfigBuilder)
    (backendID : backendIdentifier) (serviceBackendPair : serviceBackendPortPair)
    (addressPools : GoMap Pool) (endpoints : Endpoints)
    (hlookup : c.GetEndpointsByService backendID.serviceKey = Except.ok endpoints) :
    ((getBackendAddressPool c backendID serviceBackendPair addressPools).1.isSome = true ↔
        ∃ s ∈ endpoints.Subsets, ∃ p ∈ s.Ports,
          p.Protocol = ProtocolTCP ∧ p.Port = serviceBackendPair.BackendPort)
    ∧ (∀ before s after, endpoints.Subsets = before ++ s :: after →
        (∀ s0 ∈ before, ¬ ∃ p ∈ s0.Ports,
          p.Protocol = ProtocolTCP ∧ p.Port = serviceBackendPair.BackendPort) →
        (∃ p ∈ s.Ports, p.Protocol = ProtocolTCP ∧ p.Port = serviceBackendPair.BackendPort) →
        (mapGet addressPools (c.generateAddressPoolName backendID.serviceFullName
            backendID.ServicePort serviceBackendPair.BackendPort) = none →
          (getBackendAddressPool c backendID serviceBackendPair addressPools).1
            = some { Name := c.generateAddressPoolName backendID.serviceFullName
                        backendID.ServicePort serviceBackendPair.BackendPort,
                     Etag := some "*", ID := none,
                     BackendAddresses := some (getAddressesForSubset s) })
        ∧ (∀ existing, mapGet addressPools (c.generateAddressPoolName
            backendID.serviceFullName backendID.ServicePort serviceBackendPair.BackendPort)
              = some existing →
          (getBackendAddressPool c backendID serviceBackendPair addressPools).1
            = some existing)) := by
  have hdef : getBackendAddressPool c backendID serviceBackendPair addressPools
      = getBackendAddressPoolLoop c backendID serviceBackendPair addressPools
          endpoints.Subsets [] := by
    unfold getBackendAddressPool
    rw [hlookup]
  rw [hdef]
  refine ⟨?_, ?_⟩
  · constructor
    · intro hsome
      by_contra hno
      have hall : ∀ s ∈ endpoints.Subsets,
          serviceBackendPair.BackendPort ∉ getUniqueTCPPorts s := by
        intro s hs hmem
        exact hno ⟨s, hs, (mem_getUniqueTCPPorts s _).1 hmem⟩
      rw [getBackendAddressPoolLoop_none c backendID serviceBackendPair addressPools _ [] hall]
        at hsome
      cases hsome
    · rintro ⟨s, hs, hp⟩
      obtain ⟨before, s1, after, hsplit, hb, h1⟩ := exists_first_match endpoints.Subsets
        serviceBackendPair.BackendPort ⟨s, hs, (mem_getUniqueTCPPorts s _).2 hp⟩
      rw [hsplit, getBackendAddressPoolLoop_first c backendID serviceBackendPair addressPools
        before after s1 [] hb h1]
      rfl
  · intro before s after hsplit hb hs
    have hb1 : ∀ s0 ∈ before, serviceBackendPair.BackendPort ∉ getUniqueTCPPorts s0 :=
      fun s0 h0 hmem => hb s0 h0 ((mem_getUniqueTCPPorts s0 _).1 hmem)
    have hs1 := (mem_getUniqueTCPPorts s _).2 hs
    rw [hsplit, getBackendAddressPoolLoop_first c backendID serviceBackendPair addressPools
      before after s [] hb1 hs1]
    refine ⟨?_, ?_⟩
    · intro hnone
      rw [hnone]
      rfl
    · intro existing hex
      rw [hex]
      rfl

/-- C20 at a concrete input: the first subset advertises port 8080 over UDP only, the second
over TCP; the pool is built from the second subset. -/
theorem getBackendAddressPool_first_matching_subset_witness :
    (getBackendAddressPool
        { builderFixture none with
          GetEndpointsByService := fun _ => Except.ok
            ⟨[⟨[⟨"10.0.0.9", ""⟩], [⟨8080, "UDP"⟩]⟩,
              ⟨[⟨"10.0.0.1", ""⟩], [⟨8080, ProtocolTCP⟩]⟩]⟩ }
        ⟨"ns/svc", "ns-svc", "80", "ns/ingress"⟩ ⟨80, 8080⟩ []).1
      = some { Name := "pool-ns-svc-80", Etag := some "*", ID := none,
               BackendAddresses := some [⟨none, some "10.0.0.1"⟩] }
    ∧ ((getBackendAddressPool
        { builderFixture none with
          GetEndpointsByService := fun _ => Except.ok
            ⟨[⟨[⟨"10.0.0.9", ""⟩], [⟨8080, "UDP"⟩]⟩,
              ⟨[⟨"10.0.0.1", ""⟩], [⟨8080, ProtocolTCP⟩]⟩]⟩ }
        ⟨"ns/svc", "ns-svc", "80", "ns/ingress"⟩ ⟨80, 8080⟩ []).1.isSome = true ↔
        ∃ s ∈ [(⟨[⟨"10.0.0.9", ""⟩], [⟨8080, "UDP"⟩]⟩ : EndpointSubset),
              ⟨[⟨"10.0.0.1", ""⟩], [⟨8080, ProtocolTCP⟩]⟩],
          ∃ p ∈ s.Ports, p.Protocol = ProtocolTCP ∧ p.Port = 8080) :=
  ⟨by decide,
   (getBackendAddressPool_first_matching_subset
      { builderFixture none with
        GetEndpointsByService := fun _ => Except.ok
          ⟨[⟨[⟨"10.0.0.9", ""⟩], [⟨8080, "UDP"⟩]⟩,
            ⟨[⟨"10.0.0.1", ""⟩], [⟨8080, ProtocolTCP⟩]⟩]⟩ }
      ⟨"ns/svc", "ns-svc", "80", "ns/ingress"⟩ ⟨80, 8080⟩ []
      ⟨[⟨[⟨"10.0.0.9", ""⟩], [⟨8080, "UDP"⟩]⟩, ⟨[⟨"10.0.0.1", ""⟩], [⟨8080, ProtocolTCP⟩]⟩]⟩
      rfl).1⟩

end appgw

namespace appgw

/-! ## Events recorded by `getBackendAddressPool` -/

theorem getBackendAddressPoolLoop_events (c : appGwConfigBuilder) (backendID : backendIdentifier)
    (pair : serviceBackendPortPair) (addressPools : GoMap Pool)
    (subsets : List EndpointSubset) (recorded : List Event) :
    (getBackendAddressPoolLoop c backendID pair addressPools subsets recorded).2
      = recorded ++ List.replicate
          (subsets.takeWhile (fun s => decide (pair.BackendPort ∉ getUniqueTCPPorts s))).length
          ⟨backendID.Ingress, EventTypeWarning, EventReason.ReasonBackendPortTargetMatch,
            "Backend target port " ++ toString pair.BackendPort ++
              " does not have matching endpoint port"⟩ := by
  induction subsets generalizing recorded with
  | nil => simp [getBackendAddressPoolLoop]
  | cons s rest ih =>
    unfold getBackendAddressPoolLoop
    by_cases h : pair.BackendPort ∈ getUniqueTCPPorts s
    · rw [if_pos h]
      have ht : (s :: rest).takeWhile
          (fun s => decide (pair.BackendPort ∉ getUniqueTCPPorts s)) = [] := by
        simp [List.takeWhile, h]
      rw [ht]
      dsimp only
      cases mapGet addressPools (c.generateAddressPoolName backendID.serviceFullName
        backendID.ServicePort pair.BackendPort) <;> simp
    · rw [if_neg h]
      have ht : (s :: rest).takeWhile
          (fun s => decide (pair.BackendPort ∉ getUniqueTCPPorts s))
          = s :: rest.takeWhile (fun s => decide (pair.BackendPort ∉ getUniqueTCPPorts s)) := by
        simp [List.takeWhile, h]
      rw [ht, ih]
      simp [List.replicate_succ]

theorem takeWhile_eq_self_of_all {α : Type} (p : α → Bool) (l : List α)
    (h : ∀ x ∈ l, p x = true) : l.takeWhile p = l := by
  induction l with
  | nil => rfl
  | cons x rest ih =>
    simp only [List.takeWhile, h x (List.mem_cons_self _ _)]
    rw [ih (fun y hy => h y (List.mem_cons_of_mem _ hy))]

/-- C21: the code does not record exactly one event.  At two concrete inputs no subset
advertises the target port 8080 over TCP and no pool is produced, yet the number of recorded
events is not one.  An Endpoints object without subsets records no event; an object with two
subsets records two events with reason `ReasonBackendPortTargetMatch`, one for each subset,
both with the same message about the backend. -/
theorem unmatched_port_event_count_is_not_one :
    getBackendAddressPool (synthBuilderFixture [] []) backendFixture ⟨80, 8080⟩ [] = (none, [])
    ∧ (getBackendAddressPool (synthBuilderFixture
          [subsetFixture "10.0.0.1" 9090 "TCP", subsetFixture "10.0.0.2" 8080 "UDP"] [])
        backendFixture ⟨80, 8080⟩ []).1 = none
    ∧ (getBackendAddressPool (synthBuilderFixture
          [subsetFixture "10.0.0.1" 9090 "TCP", subsetFixture "10.0.0.2" 8080 "UDP"] [])
        backendFixture ⟨80, 8080⟩ []).2.map (fun e => e.Reason)
        = [EventReason.ReasonBackendPortTargetMatch, EventReason.ReasonBackendPortTargetMatch]
    ∧ (getBackendAddressPool (synthBuilderFixture
          [subsetFixture "10.0.0.1" 9090 "TCP", subsetFixture "10.0.0.2" 8080 "UDP"] [])
        backendFixture ⟨80, 8080⟩ []).2.length ≠ 1 := by
  refine ⟨by decide, by decide, by decide, by decide⟩

/-- What the loop of `getBackendAddressPool` does when the Endpoints lookup succeeds and no
subset advertises the backend's target port over TCP: no pool, and one warning event with
reason `ReasonBackendPortTargetMatch` on the owning Ingress for every subset of the Endpoints
object, hence exactly one only when the object has exactly one subset. -/
theorem unmatched_port_one_event_per_subset (c : appGwConfigBuilder)
    (backendID : backendIdentifier) (serviceBackendPair : serviceBackendPortPair)
    (addressPools : GoMap Pool) (endpoints : Endpoints)
    (hlookup : c.GetEndpointsByService backendID.serviceKey = Except.ok endpoints)
    (hnone : ∀ s ∈ endpoints.Subsets, ¬ ∃ p ∈ s.Ports,
      p.Protocol = ProtocolTCP ∧ p.Port = serviceBackendPair.BackendPort) :
    getBackendAddressPool c backendID serviceBackendPair addressPools
      = (none, List.replicate endpoints.Subsets.length
          ⟨backendID.Ingress, EventTypeWarning, EventReason.ReasonBackendPortTargetMatch,
            "Backend target port " ++ toString serviceBackendPair.BackendPort ++
              " does not have matching endpoint port"⟩)
    ∧ (endpoints.Subsets.length = 1 →
        (getBackendAddressPool c backendID serviceBackendPair addressPools).2
          = [⟨backendID.Ingress, EventTypeWarning, EventReason.ReasonBackendPortTargetMatch,
              "Backend target port " ++ toString serviceBackendPair.BackendPort ++
                " does not have matching endpoint port"⟩]) := by
  have hall : ∀ s ∈ endpoints.Subsets,
      serviceBackendPair.BackendPort ∉ getUniqueTCPPorts s :=
    fun s hs hmem => hnone s hs ((mem_getUniqueTCPPorts s _).1 hmem)
  have hdef : getBackendAddressPool c backendID serviceBackendPair addressPools
      = getBackendAddressPoolLoop c backendID serviceBackendPair addressPools
          endpoints.Subsets [] := by
    unfold getBackendAddressPool
    rw [hlookup]
  have h1 := getBackendAddressPoolLoop_none c backendID serviceBackendPair addressPools
    endpoints.Subsets [] hall
  have h2 := getBackendAddressPoolLoop_events c backendID serviceBackendPair addressPools
    endpoints.Subsets []
  rw [takeWhile_eq_self_of_all _ _ (fun s hs => by simpa using hall s hs), List.nil_append] at h2
  have hres : getBackendAddressPool c backendID serviceBackendPair addressPools
      = (none, List.replicate endpoints.Subsets.length
          ⟨backendID.Ingress, EventTypeWarning, EventReason.ReasonBackendPortTargetMatch,
            "Backend target port " ++ toString serviceBackendPair.BackendPort ++
              " does not have matching endpoint port"⟩) := by
    rw [hdef]
    exact Prod.ext h1 h2
  refine ⟨hres, ?_⟩
  intro hlen
  rw [hres, hlen]
  rfl

/-- The loop at an Endpoints object with one subset, which advertises port 9090 only: no
pool, one event. -/
theorem unmatched_port_one_event_per_subset_witness :
    (getBackendAddressPool (synthBuilderFixture [subsetFixture "10.0.0.1" 9090 "TCP"] [])
        backendFixture ⟨80, 8080⟩ []).1 = none
    ∧ (getBackendAddressPool (synthBuilderFixture [subsetFixture "10.0.0.1" 9090 "TCP"] [])
        backendFixture ⟨80, 8080⟩ []).2
        = [⟨"ns/ingress", EventTypeWarning, EventReason.ReasonBackendPortTargetMatch,
            "Backend target port " ++ toString (8080 : Int) ++
              " does not have matching endpoint port"⟩] :=
  have h := unmatched_port_one_event_per_subset
    (synthBuilderFixture [subsetFixture "10.0.0.1" 9090 "TCP"] [])
    backendFixture ⟨80, 8080⟩ [] ⟨[subsetFixture "10.0.0.1" 9090 "TCP"]⟩ rfl (by decide)
  ⟨by rw [h.1], h.2 rfl⟩

/-- C22: when the Endpoints lookup returns an error, `getBackendAddressPool` returns no pool
and records exactly one event, a warning with reason `ReasonEndpointsEmpty` on the backend's
Ingress, hence no event with reason `ReasonBackendPortTargetMatch`; the call returns, and in
the loop of `BackendAddressPools` the table of candidate pools is left as it was. -/
theorem lookup_error_one_event_no_pool (c : appGwConfigBuilder)
    (backendID : backendIdentifier) (serviceBackendPair : serviceBackendPortPair)
    (addressPools : GoMap Pool) (err : String)
    (hlookup : c.GetEndpointsByService backendID.serviceKey = Except.error err) :
    getBackendAddressPool c backendID serviceBackendPair addressPools
      = (none, [⟨backendID.Ingress, EventTypeWarning, EventReason.ReasonEndpointsEmpty,
          "Failed fetching endpoints for service: " ++ backendID.serviceKey⟩])
    ∧ (∀ e ∈ (getBackendAddressPool c backendID serviceBackendPair addressPools).2,
        e.Reason ≠ EventReason.ReasonBackendPortTargetMatch)
    ∧ (∀ recorded : List Event,
        (match getBackendAddressPool c backendID serviceBackendPair addressPools with
         | (some pool, evs) => (mapSet addressPools pool.Name pool, recorded ++ evs)
         | (none, evs) => (addressPools, recorded ++ evs)).1 = addressPools) := by
  have hres : getBackendAddressPool c backendID serviceBackendPair addressPools
      = (none, [⟨backendID.Ingress, EventTypeWarning, EventReason.ReasonEndpointsEmpty,
          "Failed fetching endpoints for service: " ++ backendID.serviceKey⟩]) := by
    unfold getBackendAddressPool
    rw [hlookup]
  refine ⟨hres, ?_, ?_⟩
  · intro e he
    rw [hres] at he
    simp only [List.mem_singleton] at he
    rw [he]
    simp
  · intro recorded
    rw [hres]

/-- C22 at a concrete input: the service `ns/other` has no Endpoints object. -/
theorem lookup_error_one_event_no_pool_witness :
    getBackendAddressPool (synthBuilderFixture [] []) otherBackendFixture ⟨80, 8080⟩ []
      = (none, [⟨"ns/ingress", EventTypeWarning, EventReason.ReasonEndpointsEmpty,
          "Failed fetching endpoints for service: " ++ "ns/other"⟩]) :=
  (lookup_error_one_event_no_pool (synthBuilderFixture [] []) otherBackendFixture ⟨80, 8080⟩ []
    "not found" rfl).1

/-- C30: after a successful Endpoints lookup, the events recorded by `getBackendAddressPool`
are warnings with reason `ReasonBackendPortTargetMatch`, one for every subset that precedes
the first subset advertising the target port over TCP: all subsets when none advertises it,
none when there are no subsets.  They are recorded whether or not a pool is returned. -/
theorem mismatch_events_count_preceding_subsets (c : appGwConfigBuilder)
    (backendID : backendIdentifier) (serviceBackendPair : serviceBackendPortPair)
    (addressPools : GoMap Pool) (endpoints : Endpoints)
    (hlookup : c.GetEndpointsByService backendID.serviceKey = Except.ok endpoints) :
    (getBackendAddressPool c backendID serviceBackendPair addressPools).2
      = List.replicate
          (endpoints.Subsets.takeWhile (fun s =>
            decide (serviceBackendPair.BackendPort ∉ getUniqueTCPPorts s))).length
          ⟨backendID.Ingress, EventTypeWarning, EventReason.ReasonBackendPortTargetMatch,
            "Backend target port " ++ toString serviceBackendPair.BackendPort ++
              " does not have matching endpoint port"⟩
    ∧ (∀ before s after, endpoints.Subsets = before ++ s :: after →
        (∀ s0 ∈ before, ¬ ∃ p ∈ s0.Ports,
          p.Protocol = ProtocolTCP ∧ p.Port = serviceBackendPair.BackendPort) →
        (∃ p ∈ s.Ports, p.Protocol = ProtocolTCP ∧ p.Port = serviceBackendPair.BackendPort) →
        ((getBackendAddressPool c backendID serviceBackendPair addressPools).2.filter
            (fun e => decide (e.Reason = EventReason.ReasonBackendPortTargetMatch))).length
          = before.length
        ∧ (getBackendAddressPool c backendID serviceBackendPair addressPools).1.isSome = true)
    ∧ ((∀ s ∈ endpoints.Subsets, ¬ ∃ p ∈ s.Ports,
          p.Protocol = ProtocolTCP ∧ p.Port = serviceBackendPair.BackendPort) →
        ((getBackendAddressPool c backendID serviceBackendPair addressPools).2.filter
            (fun e => decide (e.Reason = EventReason.ReasonBackendPortTargetMatch))).length
          = endpoints.Subsets.length) := by
  have hdef : getBackendAddressPool c backendID serviceBackendPair addressPools
      = getBackendAddressPoolLoop c backendID serviceBackendPair addressPools
          endpoints.Subsets [] := by
    unfold getBackendAddressPool
    rw [hlookup]
  have hev := getBackendAddressPoolLoop_events c backendID serviceBackendPair addressPools
    endpoints.Subsets []
  rw [List.nil_append] at hev
  rw [← hdef] at hev
  have hfilter : ∀ n : Nat, ((List.replicate n
      (⟨backendID.Ingress, EventTypeWarning, EventReason.ReasonBackendPortTargetMatch,
        "Backend target port " ++ toString serviceBackendPair.BackendPort ++
          " does not have matching endpoint port"⟩ : Event)).filter
      (fun e => decide (e.Reason = EventReason.ReasonBackendPortTargetMatch))).length = n := by
    intro n
    induction n with
    | zero => rfl
    | succ k ih => simp [List.replicate_succ, ih]
  refine ⟨hev, ?_, ?_⟩
  · intro before s after hsplit hb hs
    have hb1 : ∀ s0 ∈ before, serviceBackendPair.BackendPort ∉ getUniqueTCPPorts s0 :=
      fun s0 h0 hmem => hb s0 h0 ((mem_getUniqueTCPPorts s0 _).1 hmem)
    have hs1 := (mem_getUniqueTCPPorts s _).2 hs
    have htake : (endpoints.Subsets.takeWhile (fun s =>
        decide (serviceBackendPair.BackendPort ∉ getUniqueTCPPorts s))) = before := by
      rw [hsplit, List.takeWhile_append_of_pos (fun s0 h0 => by simpa using hb1 s0 h0)]
      simp [List.takeWhile, hs1]
    refine ⟨?_, ?_⟩
    · rw [hev, htake]
      exact hfilter _
    · rw [hdef, hsplit, getBackendAddressPoolLoop_first c backendID serviceBackendPair
        addressPools before after s [] hb1 hs1]
      rfl
  · intro hnone
    have hall : ∀ s ∈ endpoints.Subsets,
        serviceBackendPair.BackendPort ∉ getUniqueTCPPorts s :=
      fun s hs hmem => hnone s hs ((mem_getUniqueTCPPorts s _).1 hmem)
    rw [hev, takeWhile_eq_self_of_all _ _ (fun s hs => by simpa using hall s hs)]
    exact hfilter _

/-- C30 at a concrete input: the first subset advertises port 9090, the second the target
port 8080; a pool is returned and one event is recorded. -/
theorem mismatch_events_count_preceding_subsets_witness :
    (getBackendAddressPool (synthBuilderFixture
          [subsetFixture "10.0.0.1" 9090 "TCP", subsetFixture "10.0.0.2" 8080 "TCP"] [])
        backendFixture ⟨80, 8080⟩ []).1.isSome = true
    ∧ (getBackendAddressPool (synthBuilderFixture
          [subsetFixture "10.0.0.1" 9090 "TCP", subsetFixture "10.0.0.2" 8080 "TCP"] [])
        backendFixture ⟨80, 8080⟩ []).2
        = List.replicate 1
            ⟨"ns/ingress", EventTypeWarning, EventReason.ReasonBackendPortTargetMatch,
              "Backend target port " ++ toString (8080 : Int) ++
                " does not have matching endpoint port"⟩ :=
  ⟨by decide,
   (mismatch_events_count_preceding_subsets (synthBuilderFixture
      [subsetFixture "10.0.0.1" 9090 "TCP", subsetFixture "10.0.0.2" 8080 "TCP"] [])
      backendFixture ⟨80, 8080⟩ []
      ⟨[subsetFixture "10.0.0.1" 9090 "TCP", subsetFixture "10.0.0.2" 8080 "TCP"]⟩ rfl).1⟩

end appgw

namespace appgw

/-! ## `newBackendPoolMap` -/

theorem backendMapGet_backendMapSet {V : Type} (m : List (backendIdentifier × V))
    (k k1 : backendIdentifier) (v : V) :
    backendMapGet (backendMapSet m k v) k1 = if k = k1 then some v else backendMapGet m k1 := by
  induction m with
  | nil => simp only [backendMapSet, backendMapGet]
  | cons e rest ih =>
    obtain ⟨k0, v0⟩ := e
    simp only [backendMapSet]
    by_cases h : k0 = k
    · rw [if_pos h]
      simp only [backendMapGet]
      by_cases h1 : k = k1
      · simp [h1]
      · have h2 : ¬ k0 = k1 := fun e => h1 (h ▸ e)
        simp [h1, h2]
    · rw [if_neg h]
      simp only [backendMapGet]
      by_cases h2 : k0 = k1
      · have h1 : ¬ k = k1 := fun e => h (h2.trans e.symm)
        simp [h1, h2]
      · simp [h2, ih]

theorem newBackendPoolMap_get (c : appGwConfigBuilder)
    (l : List (backendIdentifier × serviceBackendPortPair))
    (acc : List (backendIdentifier × Pool) × List Event) (k : backendIdentifier) :
    backendMapGet (l.foldl (fun (acc : List (backendIdentifier × Pool) × List Event) entry =>
        match getBackendAddressPool c entry.1 entry.2
          [(c.defaultBackendAddressPool.Name, c.defaultBackendAddressPool)] with
        | (some pool, evs) =>
          (backendMapSet (backendMapSet acc.1 entry.1 c.defaultBackendAddressPool) entry.1 pool,
            acc.2 ++ evs)
        | (none, evs) =>
          (backendMapSet acc.1 entry.1 c.defaultBackendAddressPool, acc.2 ++ evs)) acc).1 k
      = match l.reverse.find? (fun e => decide (e.1 = k)) with
        | some e => some ((getBackendAddressPool c e.1 e.2
            [(c.defaultBackendAddressPool.Name, c.defaultBackendAddressPool)]).1.getD
              c.defaultBackendAddressPool)
        | none => backendMapGet acc.1 k := by
  induction l using List.reverseRecOn with
  | nil => rfl
  | append_singleton rest e ih =>
    rw [List.foldl_append, List.reverse_append]
    simp only [List.foldl_cons, List.foldl_nil, List.reverse_cons, List.reverse_nil,
      List.nil_append, List.singleton_append, List.find?_cons]
    by_cases hk : e.1 = k
    · simp only [hk, decide_True]
      cases hg : getBackendAddressPool c e.1 e.2
          [(c.defaultBackendAddressPool.Name, c.defaultBackendAddressPool)] with
      | mk pool evs =>
        rw [hk] at hg
        cases pool with
        | none => simp [hg, backendMapGet_backendMapSet]
        | some q => simp [hg, backendMapGet_backendMapSet]
    · simp only [hk, decide_False]
      rw [← ih]
      cases hg : getBackendAddressPool c e.1 e.2
          [(c.defaultBackendAddressPool.Name, c.defaultBackendAddressPool)] with
      | mk pool evs =>
        cases pool with
        | none => simp [backendMapGet_backendMapSet, hk]
        | some q => simp [backendMapGet_backendMapSet, hk]

/-- C23: `newBackendPoolMap` has an entry exactly for the backend identifiers of the
service-backend map.  The entry of a backend is the pool `getBackendAddressPool` returns for
it (on the table that holds the default pool only) when that is not nil, and the default pool
otherwise. -/
theorem newBackendPoolMap_every_backend_has_pool (c : appGwConfigBuilder)
    (cbCtx : ConfigBuilderContext) :
    (∀ k, (backendMapGet (newBackendPoolMap c cbCtx).1 k).isSome = true ↔
        k ∈ (c.getBackendsAndSettingsMap cbCtx).map Prod.fst)
    ∧ (∀ k v, backendMapGet (newBackendPoolMap c cbCtx).1 k = some v →
        ∃ pair, (k, pair) ∈ c.getBackendsAndSettingsMap cbCtx
          ∧ v = (getBackendAddressPool c k pair
              [(c.defaultBackendAddressPool.Name, c.defaultBackendAddressPool)]).1.getD
                c.defaultBackendAddressPool)
    ∧ (((c.getBackendsAndSettingsMap cbCtx).map Prod.fst).Nodup →
        ∀ k pair, (k, pair) ∈ c.getBackendsAndSettingsMap cbCtx →
          backendMapGet (newBackendPoolMap c cbCtx).1 k
            = some ((getBackendAddressPool c k pair
                [(c.defaultBackendAddressPool.Name, c.defaultBackendAddressPool)]).1.getD
                  c.defaultBackendAddressPool)) := by
  have hget : ∀ k, backendMapGet (newBackendPoolMap c cbCtx).1 k
      = match (c.getBackendsAndSettingsMap cbCtx).reverse.find? (fun e => decide (e.1 = k)) with
        | some e => some ((getBackendAddressPool c e.1 e.2
            [(c.defaultBackendAddressPool.Name, c.defaultBackendAddressPool)]).1.getD
              c.defaultBackendAddressPool)
        | none => none := by
    intro k
    unfold newBackendPoolMap
    dsimp only
    rw [newBackendPoolMap_get]
    rfl
  have hfind : ∀ k e, (c.getBackendsAndSettingsMap cbCtx).reverse.find?
      (fun e => decide (e.1 = k)) = some e → e ∈ c.getBackendsAndSettingsMap cbCtx ∧ e.1 = k := by
    intro k e h
    have h1 := List.mem_of_find?_eq_some h
    have h2 := List.find?_some h
    exact ⟨List.mem_reverse.1 h1, by simpa using h2⟩
  have hnone : ∀ k, (c.getBackendsAndSettingsMap cbCtx).reverse.find?
      (fun e => decide (e.1 = k)) = none → k ∉ (c.getBackendsAndSettingsMap cbCtx).map Prod.fst := by
    intro k h hk
    obtain ⟨e, he, hek⟩ := List.mem_map.1 hk
    rw [List.find?_eq_none] at h
    have := h e (List.mem_reverse.2 he)
    simp [hek] at this
  refine ⟨?_, ?_, ?_⟩
  · intro k
    rw [hget k]
    cases hf : (c.getBackendsAndSettingsMap cbCtx).reverse.find? (fun e => decide (e.1 = k)) with
    | none =>
      constructor
      · intro h; cases h
      · intro h; exact absurd h (hnone k hf)
    | some e =>
      constructor
      · intro _
        obtain ⟨h1, h2⟩ := hfind k e hf
        exact List.mem_map.2 ⟨e, h1, h2⟩
      · intro _; rfl
  · intro k v hv
    rw [hget k] at hv
    cases hf : (c.getBackendsAndSettingsMap cbCtx).reverse.find? (fun e => decide (e.1 = k)) with
    | none => rw [hf] at hv; cases hv
    | some e =>
      rw [hf] at hv
      simp only [Option.some.injEq] at hv
      obtain ⟨h1, h2⟩ := hfind k e hf
      refine ⟨e.2, ?_, ?_⟩
      · rw [← h2]; exact h1
      · rw [← hv, h2]
  · intro hnd k pair hmem
    rw [hget k]
    cases hf : (c.getBackendsAndSettingsMap cbCtx).reverse.find? (fun e => decide (e.1 = k)) with
    | none =>
      exact absurd (List.mem_map.2 ⟨(k, pair), hmem, rfl⟩) (hnone k hf)
    | some e =>
      obtain ⟨h1, h2⟩ := hfind k e hf
      have heq : e = (k, pair) := by
        have := List.inj_on_of_nodup_map hnd h1 hmem (by simpa using h2)
        exact this
      rw [heq]

/-- C23 at a concrete input: the backend of `ns/svc` resolves to a pool of its own, the
backend of `ns/other`, which has no Endpoints object, is mapped to the default pool. -/
theorem newBackendPoolMap_every_backend_has_pool_witness :
    backendMapGet (newBackendPoolMap (synthBuilderFixture [subsetFixture "10.0.0.1" 8080 "TCP"]
        [(backendFixture, ⟨80, 8080⟩), (otherBackendFixture, ⟨80, 8080⟩)]) ctxGreenfield).1
        backendFixture
      = some { Name := "pool-ns-svc-80", Etag := some "*", ID := none,
               BackendAddresses := some [⟨none, some "10.0.0.1"⟩] }
    ∧ backendMapGet (newBackendPoolMap (synthBuilderFixture [subsetFixture "10.0.0.1" 8080 "TCP"]
        [(backendFixture, ⟨80, 8080⟩), (otherBackendFixture, ⟨80, 8080⟩)]) ctxGreenfield).1
        otherBackendFixture
      = some (poolFixture "defaultaddresspool") :=
  have h := (newBackendPoolMap_every_backend_has_pool
    (synthBuilderFixture [subsetFixture "10.0.0.1" 8080 "TCP"]
      [(backendFixture, ⟨80, 8080⟩), (otherBackendFixture, ⟨80, 8080⟩)]) ctxGreenfield).2.2
    (by decide)
  ⟨(h backendFixture ⟨80, 8080⟩ (by decide)).trans (by decide),
   (h otherBackendFixture ⟨80, 8080⟩ (by decide)).trans (by decide)⟩

end appgw

namespace appgw

/-! ## Backends that do not resolve -/

theorem getBackendAddressPool_none_of_fails (c : appGwConfigBuilder)
    (backendID : backendIdentifier) (pair : serviceBackendPortPair)
    (hfail : (∃ err, c.GetEndpointsByService backendID.serviceKey = Except.error err)
      ∨ (∃ endpoints, c.GetEndpointsByService backendID.serviceKey = Except.ok endpoints
          ∧ ∀ s ∈ endpoints.Subsets, ¬ ∃ p ∈ s.Ports,
              p.Protocol = ProtocolTCP ∧ p.Port = pair.BackendPort))
    (tbl : GoMap Pool) : (getBackendAddressPool c backendID pair tbl).1 = none := by
  rcases hfail with ⟨err, herr⟩ | ⟨endpoints, hok, hnone⟩
  · unfold getBackendAddressPool
    rw [herr]
  · unfold getBackendAddressPool
    rw [hok]
    exact getBackendAddressPoolLoop_none c backendID pair tbl endpoints.Subsets []
      (fun s hs hmem => hnone s hs ((mem_getUniqueTCPPorts s _).1 hmem))

theorem synthesize_skip (c : appGwConfigBuilder)
    (before after : List (backendIdentifier × serviceBackendPortPair))
    (entry : backendIdentifier × serviceBackendPortPair)
    (hnone : ∀ tbl, (getBackendAddressPool c entry.1 entry.2 tbl).1 = none)
    (init : GoMap Pool × List Event) :
    ((before ++ entry :: after).foldl (fun (acc : GoMap Pool × List Event) e =>
        match getBackendAddressPool c e.1 e.2 acc.1 with
        | (some pool, evs) => (mapSet acc.1 pool.Name pool, acc.2 ++ evs)
        | (none, evs) => (acc.1, acc.2 ++ evs)) init).1
    = ((before ++ after).foldl (fun (acc : GoMap Pool × List Event) e =>
        match getBackendAddressPool c e.1 e.2 acc.1 with
        | (some pool, evs) => (mapSet acc.1 pool.Name pool, acc.2 ++ evs)
        | (none, evs) => (acc.1, acc.2 ++ evs)) init).1 := by
  rw [List.foldl_append, List.foldl_append, List.foldl_cons]
  generalize List.foldl (fun (acc : GoMap Pool × List Event) e =>
        match getBackendAddressPool c e.1 e.2 acc.1 with
        | (some pool, evs) => (mapSet acc.1 pool.Name pool, acc.2 ++ evs)
        | (none, evs) => (acc.1, acc.2 ++ evs)) init before = mid
  obtain ⟨tbl, ev⟩ := mid
  have h := hnone tbl
  cases hg : getBackendAddressPool c entry.1 entry.2 tbl with
  | mk pool evs =>
    rw [hg] at h
    simp only at h
    subst h
    exact synthesize_step_fst c after tbl _ _

theorem candidatePools_without (c : appGwConfigBuilder) (cbCtx : ConfigBuilderContext)
    (before after : List (backendIdentifier × serviceBackendPortPair))
    (entry : backendIdentifier × serviceBackendPortPair)
    (hmap : c.getBackendsAndSettingsMap cbCtx = before ++ entry :: after)
    (hnone : ∀ tbl, (getBackendAddressPool c entry.1 entry.2 tbl).1 = none) :
    candidatePools c cbCtx
      = candidatePools { c with getBackendsAndSettingsMap := fun _ => before ++ after } cbCtx := by
  unfold candidatePools synthesizePools
  dsimp only
  rw [hmap, synthesize_skip c before after entry hnone]
  have hf : (fun (acc : GoMap Pool × List Event)
        (e : backendIdentifier × serviceBackendPortPair) =>
        match getBackendAddressPool
          { c with getBackendsAndSettingsMap := fun _ => before ++ after } e.1 e.2 acc.1 with
        | (some pool, evs) => (mapSet acc.1 pool.Name pool, acc.2 ++ evs)
        | (none, evs) => (acc.1, acc.2 ++ evs))
      = (fun (acc : GoMap Pool × List Event)
        (e : backendIdentifier × serviceBackendPortPair) =>
        match getBackendAddressPool c e.1 e.2 acc.1 with
        | (some pool, evs) => (mapSet acc.1 pool.Name pool, acc.2 ++ evs)
        | (none, evs) => (acc.1, acc.2 ++ evs)) := by
    funext acc e
    rw [getBackendAddressPool_congr c
      { c with getBackendsAndSettingsMap := fun _ => before ++ after } rfl rfl]
  rw [hf]

theorem BackendAddressPools_error_nil (c : appGwConfigBuilder) (cbCtx : ConfigBuilderContext)
    (r : appGwConfigBuilder × Option String) (h : BackendAddressPools c cbCtx = some r) :
    r.2 = none := by
  rw [BackendAddressPools_eq] at h
  cases h1 : getNewManagedPools c (candidatePools c cbCtx) cbCtx with
  | none => rw [h1] at h; cases h
  | some nm =>
    cases h2 : pruneManagedPools c (existingPools c) cbCtx with
    | none => rw [h1, h2] at h; cases h
    | some eu =>
      rw [h1, h2] at h
      simp only [Option.some.injEq] at h
      rw [← h]

end appgw

namespace appgw

theorem getBackendAddressPool_isSome_iff (c : appGwConfigBuilder)
    (backendID : backendIdentifier) (pair : serviceBackendPortPair) (tbl : GoMap Pool) :
    (getBackendAddressPool c backendID pair tbl).1.isSome = true ↔
      ∃ endpoints, c.GetEndpointsByService backendID.serviceKey = Except.ok endpoints
        ∧ ∃ s ∈ endpoints.Subsets, ∃ p ∈ s.Ports,
            p.Protocol = ProtocolTCP ∧ p.Port = pair.BackendPort := by
  constructor
  · intro hsome
    cases hl : c.GetEndpointsByService backendID.serviceKey with
    | error err =>
      rw [getBackendAddressPool_none_of_fails c backendID pair (Or.inl ⟨err, hl⟩) tbl] at hsome
      cases hsome
    | ok endpoints =>
      refine ⟨endpoints, rfl, ?_⟩
      by_contra hno
      have hfail : ∀ s ∈ endpoints.Subsets, ¬ ∃ p ∈ s.Ports,
          p.Protocol = ProtocolTCP ∧ p.Port = pair.BackendPort :=
        fun s hs hp => hno ⟨s, hs, hp⟩
      rw [getBackendAddressPool_none_of_fails c backendID pair
        (Or.inr ⟨endpoints, hl, hfail⟩) tbl] at hsome
      cases hsome
  · rintro ⟨endpoints, hl, s, hs, hp⟩
    obtain ⟨before, s1, after, hsplit, hb, h1⟩ := exists_first_match endpoints.Subsets
      pair.BackendPort ⟨s, hs, (mem_getUniqueTCPPorts s _).2 hp⟩
    unfold getBackendAddressPool
    rw [hl]
    dsimp only
    rw [hsplit, getBackendAddressPoolLoop_first c backendID pair tbl before after s1 [] hb h1]
    rfl

theorem getBackendAddressPool_name (c : appGwConfigBuilder)
    (backendID : backendIdentifier) (pair : serviceBackendPortPair) (tbl : GoMap Pool)
    (hwk : WellKeyed tbl) (pool : Pool)
    (h : (getBackendAddressPool c backendID pair tbl).1 = some pool) :
    pool.Name = c.generateAddressPoolName backendID.serviceFullName backendID.ServicePort
      pair.BackendPort := by
  have hsome : (getBackendAddressPool c backendID pair tbl).1.isSome = true := by
    rw [h]; rfl
  obtain ⟨endpoints, hl, s, hs, hp⟩ := (getBackendAddressPool_isSome_iff c backendID pair tbl).1
    hsome
  obtain ⟨before, s1, after, hsplit, hb, h1⟩ := exists_first_match endpoints.Subsets
    pair.BackendPort ⟨s, hs, (mem_getUniqueTCPPorts s _).2 hp⟩
  unfold getBackendAddressPool at h
  rw [hl] at h
  dsimp only at h
  rw [hsplit, getBackendAddressPoolLoop_first c backendID pair tbl before after s1 [] hb h1] at h
  simp only [Option.some.injEq] at h
  cases hg : mapGet tbl (c.generateAddressPoolName backendID.serviceFullName
      backendID.ServicePort pair.BackendPort) with
  | none =>
    rw [hg] at h
    rw [← h]
    rfl
  | some existing =>
    rw [hg] at h
    simp only [Option.getD_some] at h
    rw [← h]
    exact hwk.2 _ (mem_of_mapGet_eq_some tbl _ _ hg)

theorem synthesize_keys (c : appGwConfigBuilder)
    (l : List (backendIdentifier × serviceBackendPortPair))
    (m : GoMap Pool) (ev : List Event) (hm : WellKeyed m) (k : String) :
    WellKeyed (l.foldl (fun (acc : GoMap Pool × List Event) entry =>
        match getBackendAddressPool c entry.1 entry.2 acc.1 with
        | (some pool, evs) => (mapSet acc.1 pool.Name pool, acc.2 ++ evs)
        | (none, evs) => (acc.1, acc.2 ++ evs)) (m, ev)).1
    ∧ (k ∈ mapKeys (l.foldl (fun (acc : GoMap Pool × List Event) entry =>
        match getBackendAddressPool c entry.1 entry.2 acc.1 with
        | (some pool, evs) => (mapSet acc.1 pool.Name pool, acc.2 ++ evs)
        | (none, evs) => (acc.1, acc.2 ++ evs)) (m, ev)).1
      ↔ k ∈ mapKeys m ∨ ∃ e ∈ l,
          (∃ endpoints, c.GetEndpointsByService e.1.serviceKey = Except.ok endpoints
            ∧ ∃ s ∈ endpoints.Subsets, ∃ p ∈ s.Ports,
                p.Protocol = ProtocolTCP ∧ p.Port = e.2.BackendPort)
          ∧ k = c.generateAddressPoolName e.1.serviceFullName e.1.ServicePort
              e.2.BackendPort) := by
  induction l generalizing m ev with
  | nil => simp [hm]
  | cons e rest ih =>
    simp only [List.foldl_cons]
    cases hg : getBackendAddressPool c e.1 e.2 m with
    | mk pool evs =>
      have hres := getBackendAddressPool_isSome_iff c e.1 e.2 m
      rw [hg] at hres
      cases pool with
      | none =>
        dsimp only
        obtain ⟨h1, h2⟩ := ih m (ev ++ evs) hm
        refine ⟨h1, ?_⟩
        rw [h2]
        simp only [List.mem_cons, exists_eq_or_imp]
        constructor
        · rintro (h | h)
          · exact Or.inl h
          · exact Or.inr (Or.inr h)
        · rintro (h | ⟨h, _⟩ | h)
          · exact Or.inl h
          · have := hres.2 h
            cases this
          · exact Or.inr h
      | some q =>
        dsimp only
        have hname := getBackendAddressPool_name c e.1 e.2 m hm q (by rw [hg])
        obtain ⟨h1, h2⟩ := ih (mapSet m q.Name q) (ev ++ evs) (wellKeyed_mapSet m q hm)
        refine ⟨h1, ?_⟩
        rw [h2, mem_mapKeys_mapSet]
        simp only [List.mem_cons, exists_eq_or_imp]
        have hyes := hres.1 rfl
        constructor
        · rintro ((h | h) | h)
          · exact Or.inr (Or.inl ⟨hyes, by rw [h, hname]⟩)
          · exact Or.inl h
          · exact Or.inr (Or.inr h)
        · rintro (h | ⟨_, h⟩ | h)
          · exact Or.inl (Or.inr h)
          · exact Or.inl (Or.inl (by rw [h, hname]))
          · exact Or.inr h

end appgw

namespace appgw

/-! ## The candidate pools of a pass -/

theorem getBackendAddressPool_of_empty (c : appGwConfigBuilder)
    (backendID : backendIdentifier) (pair : serviceBackendPortPair) (tbl : GoMap Pool) :
    (getBackendAddressPool c backendID pair tbl).1
      = ((getBackendAddressPool c backendID pair []).1).map
          (fun fresh => (mapGet tbl fresh.Name).getD fresh) := by
  cases hl : c.GetEndpointsByService backendID.serviceKey with
  | error err =>
    rw [getBackendAddressPool_none_of_fails c backendID pair (Or.inl ⟨err, hl⟩) tbl,
      getBackendAddressPool_none_of_fails c backendID pair (Or.inl ⟨err, hl⟩) []]
    rfl
  | ok endpoints =>
    by_cases hex : ∃ s ∈ endpoints.Subsets, pair.BackendPort ∈ getUniqueTCPPorts s
    · obtain ⟨before, s1, after, hsplit, hb, h1⟩ :=
        exists_first_match endpoints.Subsets pair.BackendPort hex
      unfold getBackendAddressPool
      rw [hl]
      dsimp only
      rw [hsplit, getBackendAddressPoolLoop_first c backendID pair tbl before after s1 [] hb h1,
        getBackendAddressPoolLoop_first c backendID pair [] before after s1 [] hb h1]
      rfl
    · have hfail : ∀ s ∈ endpoints.Subsets, ¬ ∃ p ∈ s.Ports,
          p.Protocol = ProtocolTCP ∧ p.Port = pair.BackendPort :=
        fun s hs hp => hex ⟨s, hs, (mem_getUniqueTCPPorts s _).2 hp⟩
      rw [getBackendAddressPool_none_of_fails c backendID pair
          (Or.inr ⟨endpoints, hl, hfail⟩) tbl,
        getBackendAddressPool_none_of_fails c backendID pair
          (Or.inr ⟨endpoints, hl, hfail⟩) []]
      rfl

theorem synthesize_lookup (c : appGwConfigBuilder)
    (l : List (backendIdentifier × serviceBackendPortPair))
    (m : GoMap Pool) (ev : List Event) (hm : WellKeyed m) (k : String) (p : Pool) :
    mapGet (l.foldl (fun (acc : GoMap Pool × List Event) entry =>
        match getBackendAddressPool c entry.1 entry.2 acc.1 with
        | (some pool, evs) => (mapSet acc.1 pool.Name pool, acc.2 ++ evs)
        | (none, evs) => (acc.1, acc.2 ++ evs)) (m, ev)).1 k = some p
    ↔ mapGet m k = some p
      ∨ (mapGet m k = none ∧ ∃ before e after, l = before ++ e :: after
          ∧ (getBackendAddressPool c e.1 e.2 []).1 = some p ∧ p.Name = k
          ∧ ∀ e1 ∈ before, ∀ q,
              (getBackendAddressPool c e1.1 e1.2 []).1 = some q → q.Name ≠ k) := by
  induction l generalizing m ev with
  | nil =>
    simp only [List.foldl_nil]
    constructor
    · intro h; exact Or.inl h
    · rintro (h | ⟨_, before, e, after, hsplit, _⟩)
      · exact h
      · simp at hsplit
  | cons e0 rest ih =>
    simp only [List.foldl_cons]
    have hstep := getBackendAddressPool_of_empty c e0.1 e0.2 m
    cases hg : getBackendAddressPool c e0.1 e0.2 m with
    | mk pool evs =>
      rw [hg] at hstep
      dsimp only at hstep
      cases hfresh : (getBackendAddressPool c e0.1 e0.2 []).1 with
      | none =>
        rw [hfresh] at hstep
        simp only [Option.map_none'] at hstep
        subst hstep
        dsimp only
        rw [ih m (ev ++ evs) hm]
        apply or_congr Iff.rfl
        apply and_congr Iff.rfl
        constructor
        · rintro ⟨before, e, after, hsplit, he, hn, hb⟩
          refine ⟨e0 :: before, e, after, by rw [hsplit]; rfl, he, hn, ?_⟩
          intro e1 he1 q hq
          rcases List.mem_cons.1 he1 with h1 | h1
          · rw [h1, hfresh] at hq; cases hq
          · exact hb e1 h1 q hq
        · rintro ⟨before, e, after, hsplit, he, hn, hb⟩
          cases before with
          | nil =>
            simp only [List.nil_append, List.cons.injEq] at hsplit
            rw [← hsplit.1, hfresh] at he
            cases he
          | cons b0 before1 =>
            simp only [List.cons_append, List.cons.injEq] at hsplit
            exact ⟨before1, e, after, hsplit.2, he, hn,
              fun e1 h1 => hb e1 (List.mem_cons_of_mem _ h1)⟩
      | some f =>
        rw [hfresh] at hstep
        simp only [Option.map_some'] at hstep
        subst hstep
        dsimp only
        have hname : ((mapGet m f.Name).getD f).Name = f.Name := by
          cases hx : mapGet m f.Name with
          | none => rfl
          | some x => exact hm.2 _ (mem_of_mapGet_eq_some m _ _ hx)
        have hwk := wellKeyed_mapSet m ((mapGet m f.Name).getD f) hm
        rw [hname] at hwk ⊢
        rw [ih (mapSet m f.Name ((mapGet m f.Name).getD f)) (ev ++ evs) hwk, mapGet_mapSet]
        by_cases hk : f.Name = k
        · simp only [if_pos hk]
          subst hk
          cases hx : mapGet m f.Name with
          | some x => simp
          | none =>
            constructor
            · rintro (h | ⟨h, _⟩)
              · have hfp : f = p := Option.some.inj h
                exact Or.inr ⟨rfl, [], e0, rest, rfl, by rw [hfresh, hfp], by rw [hfp],
                  fun e1 he1 => by simp at he1⟩
              · cases h
            · rintro (h | ⟨_, before, e, after, hsplit, he, _, hb⟩)
              · cases h
              · left
                cases before with
                | nil =>
                  simp only [List.nil_append, List.cons.injEq] at hsplit
                  rw [← hsplit.1, hfresh] at he
                  exact he
                | cons b0 before1 =>
                  simp only [List.cons_append, List.cons.injEq] at hsplit
                  have := hb b0 (List.mem_cons_self _ _) f (by rw [← hsplit.1]; exact hfresh)
                  exact absurd rfl this
        · simp only [if_neg hk]
          apply or_congr Iff.rfl
          apply and_congr Iff.rfl
          constructor
          · rintro ⟨before, e, after, hsplit, he, hn, hb⟩
            refine ⟨e0 :: before, e, after, by rw [hsplit]; rfl, he, hn, ?_⟩
            intro e1 he1 q hq
            rcases List.mem_cons.1 he1 with h1 | h1
            · rw [h1, hfresh] at hq
              rw [← Option.some.inj hq]
              exact hk
            · exact hb e1 h1 q hq
          · rintro ⟨before, e, after, hsplit, he, hn, hb⟩
            cases before with
            | nil =>
              simp only [List.nil_append, List.cons.injEq] at hsplit
              rw [← hsplit.1, hfresh] at he
              rw [← Option.some.inj he] at hn
              exact absurd hn hk
            | cons b0 before1 =>
              simp only [List.cons_append, List.cons.injEq] at hsplit
              exact ⟨before1, e, after, hsplit.2, he, hn,
                fun e1 h1 => hb e1 (List.mem_cons_of_mem _ h1)⟩

theorem mem_candidatePools_iff (c : appGwConfigBuilder) (cbCtx : ConfigBuilderContext)
    (p : Pool) :
    p ∈ candidatePools c cbCtx ↔
      p = c.defaultBackendAddressPool
      ∨ (p.Name ≠ c.defaultBackendAddressPool.Name
          ∧ ∃ before e after, c.getBackendsAndSettingsMap cbCtx = before ++ e :: after
              ∧ (getBackendAddressPool c e.1 e.2 []).1 = some p
              ∧ ∀ e1 ∈ before, ∀ q,
                  (getBackendAddressPool c e1.1 e1.2 []).1 = some q → q.Name ≠ p.Name) := by
  have hinit : WellKeyed [(c.defaultBackendAddressPool.Name, c.defaultBackendAddressPool)] := by
    refine ⟨by simp [mapKeys], ?_⟩
    intro e he
    simp only [List.mem_singleton] at he
    subst he
    rfl
  obtain ⟨hwk, _⟩ := synthesize_keys c (c.getBackendsAndSettingsMap cbCtx)
    [(c.defaultBackendAddressPool.Name, c.defaultBackendAddressPool)] c.recorder hinit p.Name
  have hmem : p ∈ candidatePools c cbCtx ↔ mapGet (synthesizePools c cbCtx).1 p.Name = some p := by
    unfold candidatePools getBackendPoolMapValues
    exact mem_mapValues_iff _ hwk p
  rw [hmem]
  unfold synthesizePools
  dsimp only
  rw [synthesize_lookup c _ _ c.recorder hinit p.Name p]
  by_cases hd : c.defaultBackendAddressPool.Name = p.Name
  · simp only [mapGet, if_pos hd]
    constructor
    · rintro (h | ⟨h, _⟩)
      · exact Or.inl (Option.some.inj h).symm
      · cases h
    · rintro (h | ⟨h, _⟩)
      · exact Or.inl (by rw [h])
      · exact absurd hd.symm h
  · have hpd : ¬ p = c.defaultBackendAddressPool := fun h => hd (by rw [h])
    simp only [mapGet, if_neg hd]
    constructor
    · rintro (h | ⟨_, before, e, after, h1, h2, _, h3⟩)
      · cases h
      · exact Or.inr ⟨fun h => hd h.symm, before, e, after, h1, h2, h3⟩
    · rintro (h | ⟨_, before, e, after, h1, h2, h3⟩)
      · exact absurd h hpd
      · exact Or.inr ⟨trivial, before, e, after, h1, h2, trivial, h3⟩

theorem BackendAddressPools_returns_iff (c : appGwConfigBuilder)
    (cbCtx : ConfigBuilderContext) :
    (∃ c1, BackendAddressPools c cbCtx = some (c1, none)) ↔
      (getProhibitedTargetList cbCtx = [] ∧ getManagedTargetList cbCtx = [])
        ∨ ∃ poolToTarget, getPoolToTargetMapping c cbCtx = some poolToTarget := by
  have hiff := classifierTable_eq_some_iff c cbCtx
  rw [Option.isSome_iff_exists, Option.isSome_iff_exists] at hiff
  rw [← hiff, BackendAddressPools_eq, getNewManagedPools_eq, pruneManagedPools_eq]
  cases classifierTable c cbCtx with
  | none => simp
  | some tbl => simp


/-- C24, at a concrete input, as the claim states it: the context declares a managed target,
and the only routing rule has no path map and no backend pool reference, so the name-to-Target
mapper dereferences nil.  `BackendAddressPools` does not return: there is no error value, nil
or other, and no stored collection. -/
theorem BackendAddressPools_panics_with_mapper :
    getManagedTargetList ctxManaged ≠ []
    ∧ getPoolToTargetMapping
        { builderFixture none with getRules := fun _ => ([ruleRedirectFixture], []) }
        ctxManaged = none
    ∧ BackendAddressPools
        { builderFixture none with getRules := fun _ => ([ruleRedirectFixture], []) }
        ctxManaged = none
    ∧ ¬ ∃ r, BackendAddressPools
        { builderFixture none with getRules := fun _ => ([ruleRedirectFixture], []) }
        ctxManaged = some r := by
  have h : BackendAddressPools
      { builderFixture none with getRules := fun _ => ([ruleRedirectFixture], []) }
      ctxManaged = none := by
    rw [BackendAddressPools_eq, getNewManagedPools_eq]
    have ht : classifierTable
        { builderFixture none with getRules := fun _ => ([ruleRedirectFixture], []) }
        ctxManaged = none := by decide
    rw [ht]
    rfl
  refine ⟨by decide, by decide, h, ?_⟩
  rintro ⟨r, hr⟩
  rw [h] at hr
  cases hr

/-- C24, amended: per-backend failures are local.  `BackendAddressPools` returns, with a nil
error, exactly when the context declares no targets or the name-to-Target mapper returns a
table, and it returns no other error.  The candidate pools are the default pool and, for
every other name, the pool that `getBackendAddressPool` yields, against an empty table, for
the first backend that yields a pool of that name; a backend yields a pool exactly when its
lookup succeeds and a subset advertises its target port over TCP, so the names of the
candidates are the default pool's name and the names generated for those backends.  A backend
whose lookup fails, or none of whose subsets advertises its target port, leaves no trace: the
candidate pools and the stored collection are those of the pass without that backend. -/
theorem failing_backend_is_local (c : appGwConfigBuilder) (cbCtx : ConfigBuilderContext)
    (before after : List (backendIdentifier × serviceBackendPortPair))
    (backendID : backendIdentifier) (serviceBackendPair : serviceBackendPortPair)
    (hmap : c.getBackendsAndSettingsMap cbCtx
      = before ++ (backendID, serviceBackendPair) :: after)
    (hfail : (∃ err, c.GetEndpointsByService backendID.serviceKey = Except.error err)
      ∨ (∃ endpoints, c.GetEndpointsByService backendID.serviceKey = Except.ok endpoints
          ∧ ∀ s ∈ endpoints.Subsets, ¬ ∃ p ∈ s.Ports,
              p.Protocol = ProtocolTCP ∧ p.Port = serviceBackendPair.BackendPort)) :
    ((∃ c1, BackendAddressPools c cbCtx = some (c1, none)) ↔
        (getProhibitedTargetList cbCtx = [] ∧ getManagedTargetList cbCtx = [])
          ∨ ∃ poolToTarget, getPoolToTargetMapping c cbCtx = some poolToTarget)
    ∧ (∀ r, BackendAddressPools c cbCtx = some r → r.2 = none)
    ∧ (∀ p, p ∈ candidatePools c cbCtx ↔
        p = c.defaultBackendAddressPool
        ∨ (p.Name ≠ c.defaultBackendAddressPool.Name
            ∧ ∃ earlier e later, c.getBackendsAndSettingsMap cbCtx = earlier ++ e :: later
                ∧ (getBackendAddressPool c e.1 e.2 []).1 = some p
                ∧ ∀ e1 ∈ earlier, ∀ q,
                    (getBackendAddressPool c e1.1 e1.2 []).1 = some q → q.Name ≠ p.Name))
    ∧ (∀ (e : backendIdentifier × serviceBackendPortPair) (tbl : GoMap Pool),
        (getBackendAddressPool c e.1 e.2 tbl).1.isSome = true ↔
          ∃ endpoints, c.GetEndpointsByService e.1.serviceKey = Except.ok endpoints
            ∧ ∃ s ∈ endpoints.Subsets, ∃ p ∈ s.Ports,
                p.Protocol = ProtocolTCP ∧ p.Port = e.2.BackendPort)
    ∧ (∀ name, name ∈ (candidatePools c cbCtx).map (fun p => p.Name) ↔
        name = c.defaultBackendAddressPool.Name
        ∨ ∃ e ∈ c.getBackendsAndSettingsMap cbCtx,
            (∃ endpoints, c.GetEndpointsByService e.1.serviceKey = Except.ok endpoints
              ∧ ∃ s ∈ endpoints.Subsets, ∃ p ∈ s.Ports,
                  p.Protocol = ProtocolTCP ∧ p.Port = e.2.BackendPort)
            ∧ name = c.generateAddressPoolName e.1.serviceFullName e.1.ServicePort
                e.2.BackendPort)
    ∧ candidatePools c cbCtx
        = candidatePools { c with getBackendsAndSettingsMap := fun _ => before ++ after } cbCtx
    ∧ storedPools (BackendAddressPools c cbCtx)
        = storedPools (BackendAddressPools
            { c with getBackendsAndSettingsMap := fun _ => before ++ after } cbCtx) := by
  have hnone : ∀ tbl, (getBackendAddressPool c (backendID, serviceBackendPair).1
      (backendID, serviceBackendPair).2 tbl).1 = none :=
    fun tbl => getBackendAddressPool_none_of_fails c backendID serviceBackendPair hfail tbl
  have hcand := candidatePools_without c cbCtx before after (backendID, serviceBackendPair)
    hmap hnone
  refine ⟨BackendAddressPools_returns_iff c cbCtx, BackendAddressPools_error_nil c cbCtx,
    mem_candidatePools_iff c cbCtx,
    fun e tbl => getBackendAddressPool_isSome_iff c e.1 e.2 tbl, ?_, hcand, ?_⟩
  · intro name
    have hinit : WellKeyed [(c.defaultBackendAddressPool.Name, c.defaultBackendAddressPool)] := by
      refine ⟨by simp [mapKeys], ?_⟩
      intro e he
      simp only [List.mem_singleton] at he
      subst he
      rfl
    obtain ⟨hwk, hkeys⟩ := synthesize_keys c (c.getBackendsAndSettingsMap cbCtx)
      [(c.defaultBackendAddressPool.Name, c.defaultBackendAddressPool)] c.recorder hinit name
    have hnames : (candidatePools c cbCtx).map (fun p => p.Name)
        = mapKeys (synthesizePools c cbCtx).1 := by
      unfold candidatePools getBackendPoolMapValues
      exact map_name_mapValues _ hwk
    rw [hnames]
    unfold synthesizePools
    dsimp only
    rw [hkeys]
    simp [mapKeys]
  · rw [storedPools_eq, storedPools_eq, ← hcand]
    rfl

/-- C24, amended, at a concrete input, in a context that prohibits a host: the backend of
`ns/other`, whose lookup fails, stands after the backend of `ns/svc`; the call returns a nil
error, and the stored collection is the one of the pass without the failing backend, the
default pool and the pool of `ns/svc`. -/
theorem failing_backend_is_local_witness :
    (∃ c1, BackendAddressPools (synthBuilderFixture [subsetFixture "10.0.0.1" 8080 "TCP"]
        [(backendFixture, ⟨80, 8080⟩), (otherBackendFixture, ⟨80, 8080⟩)]) ctxProhibitedHost
      = some (c1, none))
    ∧ storedPools (BackendAddressPools (synthBuilderFixture [subsetFixture "10.0.0.1" 8080 "TCP"]
        [(backendFixture, ⟨80, 8080⟩), (otherBackendFixture, ⟨80, 8080⟩)]) ctxProhibitedHost)
      = some [poolFixture "defaultaddresspool",
          { Name := "pool-ns-svc-80", Etag := some "*", ID := none,
            BackendAddresses := some [⟨none, some "10.0.0.1"⟩] }]
    ∧ storedPools (BackendAddressPools (synthBuilderFixture [subsetFixture "10.0.0.1" 8080 "TCP"]
        [(backendFixture, ⟨80, 8080⟩), (otherBackendFixture, ⟨80, 8080⟩)]) ctxProhibitedHost)
      = storedPools (BackendAddressPools
          { synthBuilderFixture [subsetFixture "10.0.0.1" 8080 "TCP"]
              [(backendFixture, ⟨80, 8080⟩), (otherBackendFixture, ⟨80, 8080⟩)] with
            getBackendsAndSettingsMap := fun _ => [(backendFixture, ⟨80, 8080⟩)] ++ [] }
          ctxProhibitedHost) :=
  have h := failing_backend_is_local (synthBuilderFixture [subsetFixture "10.0.0.1" 8080 "TCP"]
      [(backendFixture, ⟨80, 8080⟩), (otherBackendFixture, ⟨80, 8080⟩)]) ctxProhibitedHost
      [(backendFixture, ⟨80, 8080⟩)] [] otherBackendFixture ⟨80, 8080⟩ rfl
      (Or.inl ⟨"not found", rfl⟩)
  ⟨h.1.2 (Or.inr ⟨_, (by decide : getPoolToTargetMapping
      (synthBuilderFixture [subsetFixture "10.0.0.1" 8080 "TCP"]
        [(backendFixture, ⟨80, 8080⟩), (otherBackendFixture, ⟨80, 8080⟩)]) ctxProhibitedHost
      = some [("pool-fox", ⟨"foo.baz", 443, some "/fox"⟩),
          ("pool-baz", ⟨"foo.baz", 443, some "/baz"⟩)])⟩),
   by decide, h.2.2.2.2.2.2⟩

end appgw


namespace appgw

/-! ## `GetLastChunkOfSlashed` -/

theorem splitSlash_last (cs : List Char) :
    ∃ init r, splitSlash cs = init ++ [r] ∧ '/' ∉ r
      ∧ ((init = [] ∧ r = cs) ∨ (init ≠ [] ∧ ∃ pre, cs = pre ++ '/' :: r)) := by
  induction cs with
  | nil => exact ⟨[], [], rfl, by simp, Or.inl ⟨rfl, rfl⟩⟩
  | cons ch rest ih =>
    obtain ⟨init, r, hsplit, hr, hcase⟩ := ih
    by_cases hch : ch = '/'
    · refine ⟨[] :: init, r, ?_, hr, Or.inr ⟨by simp, ?_⟩⟩
      · simp only [splitSlash, if_pos hch, hsplit, List.cons_append]
      · rcases hcase with ⟨_, hrc⟩ | ⟨_, pre, hpre⟩
        · exact ⟨[], by rw [hch, hrc]; rfl⟩
        · exact ⟨ch :: pre, by rw [hpre]; rfl⟩
    · cases init with
      | nil =>
        have hrc : r = rest := by
          rcases hcase with ⟨_, hrc⟩ | ⟨hne, _⟩
          · exact hrc
          · exact absurd rfl hne
        refine ⟨[], ch :: r, ?_, ?_, Or.inl ⟨rfl, by rw [hrc]⟩⟩
        · simp only [splitSlash, if_neg hch, hsplit, List.nil_append]
        · intro hmem
          rcases List.mem_cons.1 hmem with e | e
          · exact hch e.symm
          · exact hr e
      | cons c0 more =>
        have hpre : ∃ pre, rest = pre ++ '/' :: r := by
          rcases hcase with ⟨hnil, _⟩ | ⟨_, h⟩
          · cases hnil
          · exact h
        obtain ⟨pre, hpre⟩ := hpre
        refine ⟨(ch :: c0) :: more, r, ?_, hr, Or.inr ⟨by simp, ch :: pre, by rw [hpre]; rfl⟩⟩
        simp only [splitSlash, if_neg hch, hsplit, List.cons_append]

/-- C25: for every string, the index `len(split)-1` of `GetLastChunkOfSlashed` is in range, so
the function is defined; its result contains no `/`; and it is the part of the string after
the last `/`: either the string contains no `/` and is the result, or it is some prefix
followed by `/` and the result. -/
theorem GetLastChunkOfSlashed_is_last_segment (s : String) :
    GetLastChunkOfSlashed? s = some (GetLastChunkOfSlashed s)
    ∧ '/' ∉ (GetLastChunkOfSlashed s).data
    ∧ (('/' ∉ s.data ∧ GetLastChunkOfSlashed s = s)
        ∨ ∃ pre : List Char, s.data = pre ++ '/' :: (GetLastChunkOfSlashed s).data)
    ∧ GetLastChunkOfSlashed "" = ""
    ∧ GetLastChunkOfSlashed "fl-443" = "fl-443"
    ∧ GetLastChunkOfSlashed "/subscriptions/x/backendAddressPools/pool-a" = "pool-a"
    ∧ GetLastChunkOfSlashed "a/b/" = "" := by
  obtain ⟨init, r, hsplit, hr, hcase⟩ := splitSlash_last s.data
  have hopt : GetLastChunkOfSlashed? s = some ⟨r⟩ := by
    unfold GetLastChunkOfSlashed?
    dsimp only
    rw [hsplit]
    simp
  have hval : GetLastChunkOfSlashed s = ⟨r⟩ := by
    unfold GetLastChunkOfSlashed
    rw [hopt]
    rfl
  refine ⟨by rw [hopt, hval], by rw [hval]; exact hr, ?_, by decide, by decide, by decide,
    by decide⟩
  rcases hcase with ⟨hinit, hrc⟩ | ⟨_, pre, hpre⟩
  · left
    refine ⟨by rw [← hrc]; exact hr, ?_⟩
    rw [hval, hrc]
  · right
    exact ⟨pre, by rw [hval]; exact hpre⟩

/-! ## `EncodeResourceName` -/

/-- C26, the code at three inputs: the content `???` is encoded as `Pz8/`, which contains the
character `/`; the empty content is encoded as the empty name, which does not begin with a
word character; a content of 61 characters is encoded in 82 characters.  None of the three
results meets the requirements quoted in the comment of the function. -/
theorem EncodeResourceName_breaks_name_requirements :
    EncodeResourceName "???" = "Pz8/"
    ∧ meetsNameRequirements (EncodeResourceName "???") = false
    ∧ EncodeResourceName ">>>" = "Pj4+"
    ∧ meetsNameRequirements (EncodeResourceName ">>>") = false
    ∧ EncodeResourceName "" = ""
    ∧ meetsNameRequirements (EncodeResourceName "") = false
    ∧ (EncodeResourceName (String.mk (List.replicate 61 'a'))).data.length = 82
    ∧ meetsNameRequirements (EncodeResourceName (String.mk (List.replicate 61 'a'))) = false
    ∧ meetsNameRequirements (EncodeResourceName "hello") = true := by
  refine ⟨by decide, by decide, by decide, by decide, by decide, by decide, by decide,
    by decide, by decide⟩

end appgw

namespace appgw

/-! ## Further claims on the classifier and the pipeline -/

theorem getManagedProbes_sublist (probes managed : List ApplicationGatewayProbe)
    (cbCtx : ConfigBuilderContext) (h : getManagedProbes probes cbCtx = some managed) :
    managed.Sublist probes := by
  by_cases hbl : getProhibitedTargetList cbCtx = []
  · by_cases hwl : getManagedTargetList cbCtx = []
    · rw [getManagedProbes_greenfield probes cbCtx hbl hwl] at h
      rw [← Option.some.inj h]
    · rw [getManagedProbes_whitelist_eq_some probes managed cbCtx hbl hwl h]
      exact List.filter_sublist _
  · rw [getManagedProbes_blacklist_eq_some probes managed cbCtx hbl h]
    exact List.filter_sublist _

theorem getManagedProbes_returns (probes : List ApplicationGatewayProbe)
    (cbCtx : ConfigBuilderContext) (hprobes : ∀ p ∈ probes, p.Host ≠ none ∧ p.Path ≠ none) :
    ∃ managed, getManagedProbes probes cbCtx = some managed := by
  by_cases hbl : getProhibitedTargetList cbCtx = []
  · by_cases hwl : getManagedTargetList cbCtx = []
    · exact ⟨_, getManagedProbes_greenfield probes cbCtx hbl hwl⟩
    · exact ⟨_, getManagedProbes_whitelist_returns probes cbCtx hbl hwl
        (fun p hp => inProbeList_isSome p _ (hprobes p hp).1 (hprobes p hp).2)⟩
  · exact ⟨_, getManagedProbes_blacklist_returns probes cbCtx hbl
      (fun p hp => inProbeList_isSome p _ (hprobes p hp).1 (hprobes p hp).2)⟩

theorem getNewManagedPools_sublist (c : appGwConfigBuilder) (pools managed : List Pool)
    (cbCtx : ConfigBuilderContext) (h : getNewManagedPools c pools cbCtx = some managed) :
    managed.Sublist pools := by
  rw [getNewManagedPools_eq] at h
  cases htbl : classifierTable c cbCtx with
  | none => rw [htbl] at h; cases h
  | some tbl =>
    rw [htbl] at h
    simp only [Option.map_some', Option.some.injEq] at h
    rw [← h]
    exact List.filter_sublist _

/-- C27: in each of the three branches the result of `getManagedProbes`, and of
`getNewManagedPools`, whenever the call returns, is a sublist of the input: the returned
candidates are input candidates, unmodified, in the input's relative order, and none occurs
more often than in the input.  `getManagedProbes` returns whenever every probe has its Host
and its Path, and `getNewManagedPools` whenever the name-to-Target table is built. -/
theorem classifier_returns_sublist (c : appGwConfigBuilder) (cbCtx : ConfigBuilderContext)
    (probes : List ApplicationGatewayProbe) (pools : List Pool) :
    (∀ managed, getManagedProbes probes cbCtx = some managed →
        managed.Sublist probes ∧ ∀ p, managed.count p ≤ probes.count p)
    ∧ (∀ managed, getNewManagedPools c pools cbCtx = some managed →
        managed.Sublist pools ∧ ∀ p, managed.count p ≤ pools.count p)
    ∧ ((∀ p ∈ probes, p.Host ≠ none ∧ p.Path ≠ none) →
        ∃ managed, getManagedProbes probes cbCtx = some managed)
    ∧ (∀ poolToTarget, getPoolToTargetMapping c cbCtx = some poolToTarget →
        ∃ managed, getNewManagedPools c pools cbCtx = some managed) := by
  refine ⟨?_, ?_, getManagedProbes_returns probes cbCtx, ?_⟩
  · intro managed h
    have hs := getManagedProbes_sublist probes managed cbCtx h
    exact ⟨hs, fun p => hs.count_le p⟩
  · intro managed h
    have hs := getNewManagedPools_sublist c pools managed cbCtx h
    exact ⟨hs, fun p => hs.count_le p⟩
  · intro poolToTarget htbl
    have hct : classifierTable c cbCtx ≠ none := by
      unfold classifierTable
      split_ifs
      · simp
      · rw [htbl]; simp
    rw [getNewManagedPools_eq]
    cases hc : classifierTable c cbCtx with
    | none => exact absurd hc hct
    | some tbl => exact ⟨_, rfl⟩

/-- C28: a pool whose name has no entry in the name-to-Target table is classified with the
zero Target.  Under a non-empty blacklist it is managed iff the blacklist does not contain
the zero Target; with an empty blacklist and a non-empty whitelist it is managed iff the
whitelist contains the zero Target. -/
theorem unmapped_pool_uses_zero_target (c : appGwConfigBuilder) (cbCtx : ConfigBuilderContext)
    (pools managed : List Pool) (poolToTarget : GoMap Target) (p : Pool)
    (htbl : getPoolToTargetMapping c cbCtx = some poolToTarget)
    (hmiss : mapGet poolToTarget p.Name = none)
    (hp : p ∈ pools)
    (hm : getNewManagedPools c pools cbCtx = some managed) :
    targetOf poolToTarget p.Name = ⟨"", 0, none⟩
    ∧ (getProhibitedTargetList cbCtx ≠ [] →
        (p ∈ managed ↔ (⟨"", 0, none⟩ : Target) ∉ getProhibitedTargetList cbCtx))
    ∧ (getProhibitedTargetList cbCtx = [] → getManagedTargetList cbCtx ≠ [] →
        (p ∈ managed ↔ (⟨"", 0, none⟩ : Target) ∈ getManagedTargetList cbCtx)) := by
  have hzero : targetOf poolToTarget p.Name = ⟨"", 0, none⟩ := by
    unfold targetOf
    rw [hmiss]
    rfl
  refine ⟨hzero, ?_, ?_⟩
  · intro hbl
    rw [getNewManagedPools_blacklist c pools cbCtx hbl, htbl] at hm
    simp only [Option.map_some', Option.some.injEq] at hm
    rw [← hm, List.mem_filter, hzero]
    constructor
    · rintro ⟨_, h⟩ hin
      rw [(isTargetInList_eq_true _ _).2 hin] at h
      cases h
    · intro hnin
      refine ⟨hp, ?_⟩
      cases hc : isTargetInList ⟨"", 0, none⟩ (getProhibitedTargetList cbCtx) with
      | false => rfl
      | true => exact absurd ((isTargetInList_eq_true _ _).1 hc) hnin
  · intro hbl hwl
    rw [getNewManagedPools_whitelist c pools cbCtx hbl hwl, htbl] at hm
    simp only [Option.map_some', Option.some.injEq] at hm
    rw [← hm, List.mem_filter, hzero, isTargetInList_eq_true]
    constructor
    · rintro ⟨_, h⟩; exact h
    · intro h; exact ⟨hp, h⟩

/-- C28 at a concrete input: `manual-pool` has no entry in the table; the blacklist of the
context does not contain the zero Target, and the pool is managed. -/
theorem unmapped_pool_uses_zero_target_witness :
    mapGet [("pool-fox", (⟨"foo.baz", 443, some "/fox"⟩ : Target)),
        ("pool-baz", ⟨"foo.baz", 443, some "/baz"⟩)] (poolFixture "manual-pool").Name = none
    ∧ (⟨"", 0, none⟩ : Target) ∉ getProhibitedTargetList ctxBoth
    ∧ poolFixture "manual-pool" ∈ [poolFixture "manual-pool", poolFixture "pool-baz"] :=
  have h := unmapped_pool_uses_zero_target (builderFixture none) ctxBoth poolsFixture
    [poolFixture "manual-pool", poolFixture "pool-baz"]
    [("pool-fox", ⟨"foo.baz", 443, some "/fox"⟩), ("pool-baz", ⟨"foo.baz", 443, some "/baz"⟩)]
    (poolFixture "manual-pool") (by decide) (by decide) (by decide) (by decide)
  ⟨by decide, by decide, (h.2.1 (by decide)).2 (by decide)⟩

theorem mergePools_nil_perm (l : List Pool) (hnd : (l.map (fun p => p.Name)).Nodup) :
    (mergePools [[], l]).Perm l := by
  have h1 : (mergePools [[], l]).Nodup := List.Nodup.of_map _ (nodup_names_mergePools [] l)
  have h2 : l.Nodup := List.Nodup.of_map _ hnd
  rw [List.perm_ext_iff_of_nodup h1 h2]
  intro p
  rw [mem_mergePools, List.nil_append]
  constructor
  · intro h; exact (lastNamed_eq_some l p.Name p h).1
  · intro h; exact lastNamed_of_nodup l p hnd h

theorem greenfield_stored (c : appGwConfigBuilder) (cbCtx : ConfigBuilderContext)
    (hbl : getProhibitedTargetList cbCtx = []) (hwl : getManagedTargetList cbCtx = []) :
    storedPools (BackendAddressPools c cbCtx)
      = some (goSort ByBackendPoolNameLess (candidatePools c cbCtx)) := by
  rw [storedPools_eq]
  have htbl : classifierTable c cbCtx = some [] := by
    unfold classifierTable
    simp [hbl, hwl]
  rw [htbl]
  simp only [Option.map_some', Option.some.injEq]
  have hall : ∀ name, classifiedManaged (getProhibitedTargetList cbCtx)
      (getManagedTargetList cbCtx) [] name = true := by
    intro name
    simp [classifiedManaged, hbl, hwl]
  have h1 : (existingPools c).filter (fun p =>
      !classifiedManaged (getProhibitedTargetList cbCtx) (getManagedTargetList cbCtx) []
        p.Name) = [] := by
    rw [List.filter_eq_nil_iff]
    intro p _
    simp [hall]
  have h2 : (candidatePools c cbCtx).filter (fun p =>
      classifiedManaged (getProhibitedTargetList cbCtx) (getManagedTargetList cbCtx) []
        p.Name) = candidatePools c cbCtx := by
    rw [List.filter_eq_self]
    intro p _
    exact hall _
  rw [h1, h2]
  exact goSort_eq_of_perm _ _ (candidatePools_names c cbCtx).1
    (mergePools_nil_perm _ (candidatePools_names c cbCtx).1)

/-- C29: when the context declares no prohibited and no managed targets, the collection
stored by `BackendAddressPools` is the candidate pools of the pass (the default pool and the
pools synthesized), sorted by name, whatever was applied before: replacing the previously
applied collection by any other leaves the stored collection unchanged, and a pool is stored
iff it is a candidate, so a previously applied pool that is not synthesized again is
dropped. -/
theorem greenfield_stored_ignores_previous (c : appGwConfigBuilder)
    (cbCtx : ConfigBuilderContext)
    (hbl : getProhibitedTargetList cbCtx = []) (hwl : getManagedTargetList cbCtx = []) :
    storedPools (BackendAddressPools c cbCtx)
        = some (goSort ByBackendPoolNameLess (candidatePools c cbCtx))
    ∧ (∀ previous : Option (List Pool),
        storedPools (BackendAddressPools
            { c with appGwConfig := { c.appGwConfig with BackendAddressPools := previous } }
            cbCtx)
          = storedPools (BackendAddressPools c cbCtx))
    ∧ (∀ p, p ∈ goSort ByBackendPoolNameLess (candidatePools c cbCtx) ↔
        p ∈ candidatePools c cbCtx)
    ∧ (goSort ByBackendPoolNameLess (candidatePools c cbCtx)).Pairwise
        (fun a b => a.Name < b.Name)
    ∧ c.defaultBackendAddressPool.Name ∈ (candidatePools c cbCtx).map (fun p => p.Name) := by
  refine ⟨greenfield_stored c cbCtx hbl hwl, ?_, fun p => mem_goSort _ p,
    goSort_sorted_lt _ (candidatePools_names c cbCtx).1, (candidatePools_names c cbCtx).2⟩
  intro previous
  rw [greenfield_stored c cbCtx hbl hwl, greenfield_stored _ cbCtx hbl hwl]
  congr 2
  exact candidatePools_congr c _ cbCtx rfl rfl rfl rfl

/-- C29 at a concrete input: three pools were applied before; without declared targets the
stored collection is the default pool alone. -/
theorem greenfield_stored_ignores_previous_witness :
    storedPools (BackendAddressPools (builderFixture (some poolsFixture)) ctxGreenfield)
      = some [poolFixture "defaultaddresspool"]
    ∧ storedPools (BackendAddressPools (builderFixture (some poolsFixture)) ctxGreenfield)
      = some (goSort ByBackendPoolNameLess
          (candidatePools (builderFixture (some poolsFixture)) ctxGreenfield)) :=
  ⟨by decide,
   (greenfield_stored_ignores_previous (builderFixture (some poolsFixture)) ctxGreenfield
      (by decide) (by decide)).1⟩

end appgw

namespace appgw

/-! ## The loop of `normalizePath` -/

theorem normalizePathLoop_run (path : String) :
    normalizePathLoop path "" path 0
      = (TrimRight path "*/",
          if path = "" then 0 else if TrimRight path "*/" = "" then 1 else 2) := by
  rw [normalizePathLoop]
  by_cases h : "" = path
  · subst h
    have ht : TrimRight "" "*/" = "" := by decide
    simp [ht]
  · have h1 : ¬ path = "" := fun e => h e.symm
    simp only [ne_eq, h, not_false_eq_true, if_true, h1, if_false]
    rw [normalizePathLoop]
    by_cases h2 : TrimRight path "*/" = ""
    · simp [h2]
    · simp only [ne_eq, h2, not_false_eq_true, if_true, if_false]
      rw [normalizePathLoop]
      simp

/-- C32: the loop of `normalizePath` ends after at most two iterations: none for the empty
string, one for a non-empty string made of `*` and `/` only, two otherwise; and its result
is `strings.TrimRight(path, "*/")`. -/
theorem normalizePath_loop_at_most_two_iterations (path : String) :
    (normalizePathLoop path "" path 0).2 ≤ 2
    ∧ (normalizePathLoop "" "" "" 0).2 = 0
    ∧ (normalizePathLoop path "" path 0).2
        = (if path = "" then 0 else if TrimRight path "*/" = "" then 1 else 2)
    ∧ (normalizePathLoop path "" path 0).1 = TrimRight path "*/"
    ∧ normalizePath path = TrimRight path "*/" := by
  have h := normalizePathLoop_run path
  have h0 := normalizePathLoop_run ""
  refine ⟨?_, ?_, ?_, ?_, normalizePath_eq_TrimRight path⟩
  · rw [h]
    dsimp only
    split
    · omega
    · split <;> omega
  · rw [h0]
    rfl
  · rw [h]
  · rw [h]

end appgw

namespace appgw

/-! ## The mappers return a table under their preconditions -/

theorem collectWrites_isSome {α : Type} (f : α → Option (List (String × Target)))
    (xs : List α) (h : ∀ x ∈ xs, (f x).isSome = true) : (collectWrites f xs).isSome = true := by
  induction xs with
  | nil => rfl
  | cons x rest ih =>
    have hx := h x (List.mem_cons_self _ _)
    have hr := ih (fun y hy => h y (List.mem_cons_of_mem _ hy))
    obtain ⟨wx, hwx⟩ := Option.isSome_iff_exists.1 hx
    obtain ⟨wr, hwr⟩ := Option.isSome_iff_exists.1 hr
    simp only [collectWrites, hwx, hwr]
    rfl

theorem specPathRuleWrites_isSome (pathRuleRef : ApplicationGatewayPathRule → Option SubResource)
    (host : Option String) (port : Int) (pathRule : ApplicationGatewayPathRule)
    (hhost : host.isSome = true) (hpaths : pathRule.Paths.isSome = true)
    (href : (derefID (pathRuleRef pathRule)).isSome = true) :
    (specPathRuleWrites pathRuleRef host port pathRule).isSome = true := by
  obtain ⟨h, hh⟩ := Option.isSome_iff_exists.1 hhost
  obtain ⟨paths, hp⟩ := Option.isSome_iff_exists.1 hpaths
  obtain ⟨resourceID, hr⟩ := Option.isSome_iff_exists.1 href
  unfold specPathRuleWrites
  rw [hp]
  dsimp only
  apply collectWrites_isSome
  intro path _
  rw [hh, hr]
  rfl

theorem specRuleWrites_isSome (ruleRef : ApplicationGatewayRequestRoutingRule → Option SubResource)
    (pathRuleRef : ApplicationGatewayPathRule → Option SubResource)
    (listeners : GoMap ApplicationGatewayHTTPListener)
    (pathMap : GoMap ApplicationGatewayURLPathMap)
    (rule : ApplicationGatewayRequestRoutingRule)
    (h : ruleResolves ruleRef pathRuleRef listeners pathMap rule = true) :
    (specRuleWrites ruleRef pathRuleRef listeners pathMap rule).isSome = true := by
  unfold ruleResolves at h
  unfold specRuleWrites
  cases hl : ruleListener listeners rule with
  | none => rw [hl] at h; cases h
  | some listener =>
    rw [hl] at h
    dsimp only at h ⊢
    rw [Bool.and_eq_true] at h
    obtain ⟨hhost, hrest⟩ := h
    cases hu : rule.URLPathMap with
    | none =>
      rw [hu] at hrest
      dsimp only at hrest ⊢
      obtain ⟨hname, hh⟩ := Option.isSome_iff_exists.1 hhost
      obtain ⟨resourceID, hr⟩ := Option.isSome_iff_exists.1 hrest
      rw [hh, hr]
      rfl
    | some pathMapRef =>
      rw [hu] at hrest
      dsimp only at hrest ⊢
      cases hid : pathMapRef.ID with
      | none => rw [hid] at hrest; cases hrest
      | some pathMapID =>
        rw [hid] at hrest
        dsimp only at hrest ⊢
        cases hpm : (mapGet pathMap (GetLastChunkOfSlashed pathMapID)).bind
            (fun pm => pm.PathRules) with
        | none => rw [hpm] at hrest; cases hrest
        | some pathRules =>
          rw [hpm] at hrest
          dsimp only at hrest ⊢
          rw [List.all_eq_true] at hrest
          apply collectWrites_isSome
          intro pathRule hpr
          have := hrest pathRule hpr
          rw [Bool.and_eq_true] at this
          exact specPathRuleWrites_isSome pathRuleRef _ _ pathRule hhost this.1 this.2

theorem indexListeners_isSome (l : List ApplicationGatewayHTTPListener)
    (acc : GoMap ApplicationGatewayHTTPListener) (h : ∀ x ∈ l, x.Name ≠ none) :
    (l.foldlM (fun (listeners : GoMap ApplicationGatewayHTTPListener)
        (listener : ApplicationGatewayHTTPListener) =>
      match listener.Name with
      | none => none
      | some name => some (mapSet listeners name listener)) acc).isSome = true := by
  induction l generalizing acc with
  | nil => rfl
  | cons x rest ih =>
    rw [List.foldlM_cons]
    cases hn : x.Name with
    | none => exact absurd hn (h x (List.mem_cons_self _ _))
    | some name =>
      simp only [Option.some_bind, Option.bind_eq_bind]
      exact ih _ (fun y hy => h y (List.mem_cons_of_mem _ hy))

theorem indexPathMaps_isSome (l : List ApplicationGatewayURLPathMap)
    (acc : GoMap ApplicationGatewayURLPathMap) (h : ∀ x ∈ l, x.Name ≠ none) :
    (l.foldlM (fun (pathMap : GoMap ApplicationGatewayURLPathMap)
        (path : ApplicationGatewayURLPathMap) =>
      match path.Name with
      | none => none
      | some name => some (mapSet pathMap name path)) acc).isSome = true := by
  induction l generalizing acc with
  | nil => rfl
  | cons x rest ih =>
    rw [List.foldlM_cons]
    cases hn : x.Name with
    | none => exact absurd hn (h x (List.mem_cons_self _ _))
    | some name =>
      simp only [Option.some_bind, Option.bind_eq_bind]
      exact ih _ (fun y hy => h y (List.mem_cons_of_mem _ hy))

/-- C31, at a concrete input, as the claim states it: the only routing rule has no path map,
so the precondition on path maps holds trivially; its listener name resolves in the listeners
table to a listener with a hostname; but the rule has no backend-settings reference, the
mapper dereferences it, and no table is returned.  The same holds for the pool mapper and the
rule's backend-pool reference. -/
theorem mapper_panics_on_rule_without_backend :
    ruleListener listenersFixture ruleRedirectFixture = some listenerFixture
    ∧ listenerFixture.HostName = some "foo.baz"
    ∧ ruleRedirectFixture.URLPathMap = none
    ∧ GetSettingToTargetMapping [ruleRedirectFixture] listenersFixture pathMapsFixture = none
    ∧ indexListeners [listenerFixture] = some [("fl-443", listenerFixture)]
    ∧ ruleListener [("fl-443", listenerFixture)] ruleRedirectFixture = some listenerFixture
    ∧ getPoolToTargetMapping
        { builderFixture none with getRules := fun _ => ([ruleRedirectFixture], []) }
        ctxGreenfield = none := by
  refine ⟨by decide, by decide, by decide, by decide, by decide, by decide, by decide⟩

/-- C31, amended: `GetSettingToTargetMapping` returns a table when every routing rule
satisfies `ruleResolves`: its listener name resolves in the listeners table to a listener
with a hostname, its own backend-settings reference is present when it has no path map, and
the path map it references exists with its path-rule list and with the path list and the
backend-settings reference of every path rule.  `getPoolToTargetMapping` builds its two
tables when every listener and every path map it is given has a name, and then returns a
table under the same precondition on the rules, with backend-pool references. -/
theorem mappers_return_table_under_preconditions
    (rr : List ApplicationGatewayRequestRoutingRule)
    (listeners : GoMap ApplicationGatewayHTTPListener)
    (pathMap : GoMap ApplicationGatewayURLPathMap)
    (c : appGwConfigBuilder) (cbCtx : ConfigBuilderContext) :
    ((∀ rule ∈ rr, ruleResolves (fun r => r.BackendHTTPSettings)
          (fun pr => pr.BackendHTTPSettings) listeners pathMap rule = true) →
        ∃ tbl, GetSettingToTargetMapping rr listeners pathMap = some tbl)
    ∧ ((∀ l ∈ c.getListeners cbCtx, l.Name ≠ none) →
        (∀ pm ∈ (c.getRules cbCtx).2, pm.Name ≠ none) →
        ∃ poolListeners poolPathMap,
          indexListeners (c.getListeners cbCtx) = some poolListeners
          ∧ indexPathMaps (c.getRules cbCtx).2 = some poolPathMap
          ∧ ((∀ rule ∈ (c.getRules cbCtx).1, ruleResolves (fun r => r.BackendAddressPool)
                (fun pr => pr.BackendAddressPool) poolListeners poolPathMap rule = true) →
              ∃ tbl, getPoolToTargetMapping c cbCtx = some tbl)) := by
  refine ⟨?_, ?_⟩
  · intro h
    have hs : (specTargetWrites (fun r => r.BackendHTTPSettings)
        (fun pr => pr.BackendHTTPSettings) listeners pathMap rr).isSome = true :=
      collectWrites_isSome _ rr (fun rule hr => specRuleWrites_isSome _ _ _ _ rule (h rule hr))
    obtain ⟨ws, hws⟩ := Option.isSome_iff_exists.1 hs
    rw [GetSettingToTargetMapping_eq, hws]
    exact ⟨_, rfl⟩
  · intro hl hp
    obtain ⟨poolListeners, hpl⟩ := Option.isSome_iff_exists.1
      (indexListeners_isSome (c.getListeners cbCtx) [] hl)
    obtain ⟨poolPathMap, hpp⟩ := Option.isSome_iff_exists.1
      (indexPathMaps_isSome (c.getRules cbCtx).2 [] hp)
    refine ⟨poolListeners, poolPathMap, hpl, hpp, ?_⟩
    intro h
    have hs : (specTargetWrites (fun r => r.BackendAddressPool)
        (fun pr => pr.BackendAddressPool) poolListeners poolPathMap
        (c.getRules cbCtx).1).isSome = true :=
      collectWrites_isSome _ _ (fun rule hr => specRuleWrites_isSome _ _ _ _ rule (h rule hr))
    obtain ⟨ws, hws⟩ := Option.isSome_iff_exists.1 hs
    rw [getPoolToTargetMapping_eq]
    have hpl2 : indexListeners (c.getListeners cbCtx) = some poolListeners := hpl
    have hpp2 : indexPathMaps (c.getRules cbCtx).2 = some poolPathMap := hpp
    rw [hpl2]
    simp only [Option.some_bind]
    rw [hpp2]
    simp only [Option.some_bind]
    rw [hws]
    exact ⟨_, rfl⟩

/-- C31, amended, at a concrete input: a rule with a path map and a rule without one, both
with all references present; a table is returned. -/
theorem mappers_return_table_under_preconditions_witness :
    (∀ rule ∈ [rulePathsFixture, ruleHostFixture],
        ruleResolves (fun r => r.BackendHTTPSettings) (fun pr => pr.BackendHTTPSettings)
          listenersFixture pathMapsFixture rule = true)
    ∧ ∃ tbl, GetSettingToTargetMapping [rulePathsFixture, ruleHostFixture] listenersFixture
        pathMapsFixture = some tbl :=
  ⟨by decide,
   (mappers_return_table_under_preconditions [rulePathsFixture, ruleHostFixture]
      listenersFixture pathMapsFixture (builderFixture none) ctxGreenfield).1 (by decide)⟩

end appgw
